import Mathlib

/-!
# Max-pooling layer of educnn: shallow embedding and verified properties

Source: `sources/max_pooling_layer.h`, class `MaxPoolingLayer`.

Conventions of the embedding

* `double` values are exact rationals (`ℚ`); `int` sizes and indices are natural numbers.
* `std::vector` is `List`; an out-of-range read yields a default value and an out-of-range
  write is a no-op, so every function below is total.
* Each C++ loop `for (int k = 0; k < n; k++)` is a left fold over `List.range n` that passes
  the mutated state along.
* A member function that mutates the layer returns the new layer next to its result.
* `INFTY` comes from a header that is not part of the sources; it is a parameter of
  `forward_propagation`. Statements about the maximum of a window read it as an infinity
  for the activations of the input (`INFTY_bounds`).

Layout: the embedding of the source, the vocabulary of the statements (geometry, window
cells, canonical adjacency tables, reachable layers), the lemmas on the loops of the
constructor, of `forward_propagation` and of `back_propagation`, and the claims.
-/

namespace EduCNN

/-! ## Data model -/

/-- Modelled from the spec: `Size` is declared in a header outside the sources; the
spec describes it as a pair (rows, cols) with a derived total cell count. -/
structure Size where
  rows : Nat
  cols : Nat
deriving DecidableEq, Repr

/-- Modelled from the spec: `Size::total()`, the number of cells `rows * cols`. -/
def Size.total (s : Size) : Nat := s.rows * s.cols

/-- Modelled from the spec: the dense matrix type (`Eigen::MatrixXd` behind the alias
`Matrix`), a row count, a column count and a coefficient for every (row, column). -/
structure Matrix where
  rows : Nat
  cols : Nat
  coeff : Nat → Nat → ℚ

/-- The matrix `Matrix::Zero(r, c)`. -/
def Matrix.Zero (r c : Nat) : Matrix := ⟨r, c, fun _ _ => 0⟩

/-- The assignment `m(i, j) = v`. -/
def Matrix.set (m : Matrix) (i j : Nat) (v : ℚ) : Matrix :=
  { m with coeff := fun a b => if a = i ∧ b = j then v else m.coeff a b }

/-- The struct `MaxPoolingLayer::Edge`; the member `to` is spelled `to_` here. -/
structure Edge where
  to_ : Nat := 0
  featmap : Nat := 0
  rev : Nat := 0
  active : Bool := false
deriving DecidableEq, Repr, Inhabited

/-- The data members of `MaxPoolingLayer` (the unused `rng_` pointer is left out);
`input_` and `output_` are the cached activations of the base class. -/
structure MaxPoolingLayer where
  input_size_ : Size
  pool_size_ : Size
  output_size_ : Size
  n_featmap_ : Nat
  edge_io : List (List Edge)
  edge_oi : List (List Edge)
  scale : List ℚ
  bias : List ℚ
  dscale : List ℚ
  dbias : List ℚ
  input_ : Matrix
  output_ : Matrix

/-! ## Construction -/

/-- The method `add_edge(in, out, f)`. -/
def add_edge (L : MaxPoolingLayer) (inn out f : Nat) : MaxPoolingLayer :=
  let n_io := (L.edge_io.getD inn []).length
  let n_oi := (L.edge_oi.getD out []).length
  { L with
    edge_io := L.edge_io.set inn (L.edge_io.getD inn [] ++ [Edge.mk out f n_oi false])
    edge_oi := L.edge_oi.set out (L.edge_oi.getD out [] ++ [Edge.mk inn f n_io false]) }

/-- The method `initialize_edges(f, yout, xout)`: the loops over `dy` and `dx`. -/
def initialize_edges (L : MaxPoolingLayer) (f yout xout : Nat) : MaxPoolingLayer :=
  (List.range L.pool_size_.rows).foldl (fun acc dy =>
    (List.range L.pool_size_.cols).foldl (fun acc dx =>
      let yin := yout * L.pool_size_.rows + dy
      let xin := xout * L.pool_size_.cols + dx
      let input_index := f * L.input_size_.total + (yin * L.input_size_.cols + xin)
      let output_index := f * L.output_size_.total + (yout * L.output_size_.cols + xout)
      add_edge acc input_index output_index f) acc) L

/-- The method `initialize()`: the loops over `f`, `yout` and `xout`. -/
def initialize_layer (L : MaxPoolingLayer) : MaxPoolingLayer :=
  (List.range L.n_featmap_).foldl (fun acc f =>
    (List.range L.output_size_.rows).foldl (fun acc yout =>
      (List.range L.output_size_.cols).foldl (fun acc xout =>
        initialize_edges acc f yout xout) acc) acc) L

/-- Modelled from the spec: the macro `Assertion` is defined outside the sources; a
failed assertion ends the construction with the error the spec calls
`IncompatibleGeometry`, carrying the message. -/
def Assertion (p : Bool) (msg : String) : Except String Unit :=
  if p then Except.ok () else Except.error msg

/-- The loop of the constructor that sets `scale[i] = 1`, `bias[i] = 0`,
`dscale[i] = 0`, `dbias[i] = 0`. -/
def init_params (L : MaxPoolingLayer) (n_featmap : Nat) : MaxPoolingLayer :=
  (List.range n_featmap).foldl (fun acc i =>
    { acc with
      scale := acc.scale.set i 1
      bias := acc.bias.set i 0
      dscale := acc.dscale.set i 0
      dbias := acc.dbias.set i 0 }) L

/-- The constructor body after the assertion: the output size, the `resize` calls, the
parameter loop and `initialize()`. -/
def MaxPoolingLayer.build (input_size pool_size : Size) (n_featmap : Nat) : MaxPoolingLayer :=
  let output_size : Size :=
    ⟨input_size.rows / pool_size.rows, input_size.cols / pool_size.cols⟩
  let L : MaxPoolingLayer :=
    { input_size_ := input_size
      pool_size_ := pool_size
      output_size_ := output_size
      n_featmap_ := n_featmap
      edge_io := List.replicate (input_size.total * n_featmap) []
      edge_oi := List.replicate (output_size.total * n_featmap) []
      scale := List.replicate n_featmap 0
      bias := List.replicate n_featmap 0
      dscale := List.replicate n_featmap 0
      dbias := List.replicate n_featmap 0
      input_ := Matrix.Zero 0 0
      output_ := Matrix.Zero 0 0 }
  initialize_layer (init_params L n_featmap)

/-- The constructor `MaxPoolingLayer(rng, input_size, pool_size, n_featmap)`. -/
def MaxPoolingLayer.new (input_size pool_size : Size) (n_featmap : Nat) :
    Except String MaxPoolingLayer :=
  (Assertion (input_size.rows % pool_size.rows == 0 && input_size.cols % pool_size.cols == 0)
      "input size and pool size are not compatible!!").bind fun _ =>
    Except.ok (MaxPoolingLayer.build input_size pool_size n_featmap)

/-! ## Forward propagation -/

/-- The assignment `table[n][e].active = b`. -/
def setActive (table : List (List Edge)) (n e : Nat) (b : Bool) : List (List Edge) :=
  table.set n ((table.getD n []).set e { (table.getD n []).getD e default with active := b })

/-- The variables mutated by the scan over the candidate edges of one output node. -/
structure ScanState where
  edge_io : List (List Edge)
  edge_oi : List (List Edge)
  maxval : ℚ
  active_index : Nat

/-- One iteration of the loop over `e` in `forward_propagation`. -/
def forward_scan (input : Matrix) (d o : Nat) (s : ScanState) (e : Nat) : ScanState :=
  let edge := (s.edge_oi.getD o []).getD e default
  let edge_oi := setActive s.edge_oi o e false
  let edge_io := setActive s.edge_io edge.to_ edge.rev false
  if s.maxval < input.coeff edge.to_ d then
    ⟨edge_io, edge_oi, input.coeff edge.to_ d, e⟩
  else
    ⟨edge_io, edge_oi, s.maxval, s.active_index⟩

/-- The body of the loop over `o` in `forward_propagation`, for sample `d`. -/
def forward_node (INFTY : ℚ) (input : Matrix) (d : Nat) (L : MaxPoolingLayer) (o : Nat) :
    MaxPoolingLayer :=
  let s := (List.range (L.edge_oi.getD o []).length).foldl (forward_scan input d o)
    ⟨L.edge_io, L.edge_oi, -INFTY, 0⟩
  let active_e := (s.edge_oi.getD o []).getD s.active_index default
  { L with
    output_ := L.output_.set o d
      (L.scale.getD active_e.featmap 0 * input.coeff active_e.to_ d
        + L.bias.getD active_e.featmap 0)
    edge_oi := setActive s.edge_oi o s.active_index true
    edge_io := setActive s.edge_io active_e.to_ active_e.rev true }

/-- The body of the loop over `d` in `forward_propagation`. -/
def forward_sample (INFTY : ℚ) (input : Matrix) (n_output : Nat) (L : MaxPoolingLayer)
    (d : Nat) : MaxPoolingLayer :=
  (List.range n_output).foldl (forward_node INFTY input d) L

/-- The method `forward_propagation(input)`: the returned matrix is `output_`. -/
def forward_propagation (INFTY : ℚ) (L : MaxPoolingLayer) (input : Matrix) :
    Matrix × MaxPoolingLayer :=
  let n_output := L.edge_oi.length
  let n_data := input.cols
  let L1 := { L with input_ := input, output_ := Matrix.Zero n_output n_data }
  let L2 := (List.range n_data).foldl (forward_sample INFTY input n_output) L1
  (L2.output_, L2)

/-! ## Back propagation -/

/-- The first loop nest of `back_propagation`: the error handed to the previous layer. -/
def prev_error_loop (L : MaxPoolingLayer) (error : Matrix) (n_data n_input : Nat) : Matrix :=
  (List.range n_data).foldl (fun pe d =>
    (List.range n_input).foldl (fun pe i =>
      (List.range (L.edge_io.getD i []).length).foldl (fun pe e =>
        let edge := (L.edge_io.getD i []).getD e default
        if edge.active then
          pe.set i d (pe.coeff i d + L.scale.getD edge.featmap 0 * error.coeff edge.to_ d)
        else pe) pe) pe) (Matrix.Zero n_input n_data)

/-- The addition `v[k] += x` on a vector of doubles. -/
def addAt (v : List ℚ) (k : Nat) (x : ℚ) : List ℚ := v.set k (v.getD k 0 + x)

/-- The second loop nest of `back_propagation`: `(current_dscale, current_dbias)`. -/
def gradient_loop (L : MaxPoolingLayer) (error : Matrix) (n_data n_input : Nat) :
    List ℚ × List ℚ :=
  (List.range n_data).foldl (fun g d =>
    (List.range n_input).foldl (fun g i =>
      (List.range (L.edge_io.getD i []).length).foldl (fun g e =>
        let edge := (L.edge_io.getD i []).getD e default
        if edge.active then
          (addAt g.1 edge.featmap
              (L.input_.coeff i d * error.coeff edge.to_ d
                / ((n_data * L.output_size_.total : Nat) : ℚ)),
           addAt g.2 edge.featmap
              (error.coeff edge.to_ d / ((n_data * L.output_size_.total : Nat) : ℚ)))
        else g) g) g)
    (List.replicate L.n_featmap_ 0, List.replicate L.n_featmap_ 0)

/-- The last loop of `back_propagation`: the momentum update of the parameters. -/
def update_params (L : MaxPoolingLayer) (eta momentum : ℚ) (g : List ℚ × List ℚ) :
    MaxPoolingLayer :=
  (List.range L.n_featmap_).foldl (fun acc i =>
    let dscale := acc.dscale.set i (momentum * acc.dscale.getD i 0 + eta * g.1.getD i 0)
    let dbias := acc.dbias.set i (momentum * acc.dbias.getD i 0 + eta * g.2.getD i 0)
    { acc with
      dscale := dscale
      dbias := dbias
      scale := acc.scale.set i (acc.scale.getD i 0 + dscale.getD i 0)
      bias := acc.bias.set i (acc.bias.getD i 0 + dbias.getD i 0) }) L

/-- The method `back_propagation(error, eta, momentum)`. -/
def back_propagation (L : MaxPoolingLayer) (error : Matrix) (eta momentum : ℚ) :
    Matrix × MaxPoolingLayer :=
  let n_data := error.cols
  let n_input := L.input_size_.total * L.n_featmap_
  let prev_error := prev_error_loop L error n_data n_input
  let g := gradient_loop L error n_data n_input
  (prev_error, update_params L eta momentum g)

/-! ## Specification vocabulary: geometry, windows, canonical adjacency tables -/

/-- The geometry members of a layer, which no method changes after construction. -/
structure Geom where
  input_size : Size
  pool_size : Size
  output_size : Size
  n_featmap : Nat

/-- The geometry of a layer. -/
def MaxPoolingLayer.geom (L : MaxPoolingLayer) : Geom :=
  ⟨L.input_size_, L.pool_size_, L.output_size_, L.n_featmap_⟩

/-- A geometry the constructor accepts: positive pool dimensions that tile the input;
the output grid is the quotient grid. -/
def Geom.Valid (G : Geom) : Prop :=
  0 < G.pool_size.rows ∧ 0 < G.pool_size.cols ∧
  G.input_size.rows = G.output_size.rows * G.pool_size.rows ∧
  G.input_size.cols = G.output_size.cols * G.pool_size.cols

/-- Number of input nodes, `input_size_.total() * n_featmap_`. -/
def Geom.n_input (G : Geom) : Nat := G.input_size.total * G.n_featmap

/-- Number of output nodes, `output_size_.total() * n_featmap_`. -/
def Geom.n_output (G : Geom) : Nat := G.output_size.total * G.n_featmap

/-- Number of cells of one pooling window. -/
def Geom.window_size (G : Geom) : Nat := G.pool_size.rows * G.pool_size.cols

/-- Flat index of the input node at offset `m = dy * pool_cols + dx` in the window of the
output node with flat index `o = f * output_total + yout * output_cols + xout`: the value
`input_index` of `initialize_edges`. -/
def Geom.window_input (G : Geom) (o m : Nat) : Nat :=
  (o / G.output_size.total) * G.input_size.total
    + ((((o % G.output_size.total) / G.output_size.cols) * G.pool_size.rows
          + m / G.pool_size.cols) * G.input_size.cols
      + (((o % G.output_size.total) % G.output_size.cols) * G.pool_size.cols
          + m % G.pool_size.cols))

/-- Flat index of the output node whose window contains input node `i`. -/
def Geom.owner (G : Geom) (i : Nat) : Nat :=
  (i / G.input_size.total) * G.output_size.total
    + ((((i % G.input_size.total) / G.input_size.cols) / G.pool_size.rows) * G.output_size.cols
      + ((i % G.input_size.total) % G.input_size.cols) / G.pool_size.cols)

/-- Offset `dy * pool_cols + dx` of input node `i` inside its window. -/
def Geom.pos (G : Geom) (i : Nat) : Nat :=
  (((i % G.input_size.total) / G.input_size.cols) % G.pool_size.rows) * G.pool_size.cols
    + ((i % G.input_size.total) % G.input_size.cols) % G.pool_size.cols

/-- The edge that `edge_oi[o]` holds at position `m`, with winner flag `φ o m`. -/
def Geom.oi_edge (G : Geom) (φ : Nat → Nat → Bool) (o m : Nat) : Edge :=
  ⟨G.window_input o m, o / G.output_size.total, 0, φ o m⟩

/-- The edge that `edge_io[window_input o m]` holds, with winner flag `φ o m`. -/
def Geom.io_edge (G : Geom) (φ : Nat → Nat → Bool) (o m : Nat) : Edge :=
  ⟨o, o / G.output_size.total, m, φ o m⟩

/-- The adjacency tables while the constructor is running: output node `o` has received
its first `cnt o` edges. -/
def PartialTables (G : Geom) (cnt : Nat → Nat) (io oi : List (List Edge)) : Prop :=
  io.length = G.n_input ∧ oi.length = G.n_output ∧
  (∀ o, o < G.n_output →
    oi.getD o [] = (List.range (cnt o)).map (G.oi_edge (fun _ _ => false) o)) ∧
  (∀ o m, o < G.n_output → m < G.window_size →
    io.getD (G.window_input o m) [] =
      if m < cnt o then [G.io_edge (fun _ _ => false) o m] else [])

/-- The adjacency tables of a constructed layer whose winner flags are given by `φ`. -/
def Tables (G : Geom) (φ : Nat → Nat → Bool) (io oi : List (List Edge)) : Prop :=
  io.length = G.n_input ∧ oi.length = G.n_output ∧
  (∀ o, o < G.n_output → oi.getD o [] = (List.range G.window_size).map (G.oi_edge φ o)) ∧
  (∀ o m, o < G.n_output → m < G.window_size →
    io.getD (G.window_input o m) [] = [G.io_edge φ o m])

/-- The parameter vectors of a layer. -/
def MaxPoolingLayer.params (L : MaxPoolingLayer) : List ℚ × List ℚ × List ℚ × List ℚ :=
  (L.scale, L.bias, L.dscale, L.dbias)

/-- The cached activations of a layer. -/
def MaxPoolingLayer.cache (L : MaxPoolingLayer) : Matrix × Matrix := (L.input_, L.output_)

/-- The scan for the maximum, on values alone: one iteration. -/
def scan_step (v : Nat → ℚ) (s : ℚ × Nat) (e : Nat) : ℚ × Nat :=
  if s.1 < v e then (v e, e) else s

/-- The scan for the maximum, on values alone: `(maxval, active_index)` after the first
`n` candidates. -/
def scan (INFTY : ℚ) (v : Nat → ℚ) (n : Nat) : ℚ × Nat :=
  (List.range n).foldl (scan_step v) (-INFTY, 0)

/-- The position in `edge_oi[o]` that the scan of sample `d` selects. -/
def Geom.winner (G : Geom) (INFTY : ℚ) (input : Matrix) (o d : Nat) : Nat :=
  (scan INFTY (fun e => input.coeff (G.window_input o e) d) G.window_size).2

/-- The value `forward_propagation` writes at entry `(o, d)` of the output: scale and
bias of the node's feature map applied to the input of the selected edge. -/
def Geom.out_value (G : Geom) (INFTY : ℚ) (scale bias : List ℚ) (input : Matrix)
    (o d : Nat) : ℚ :=
  scale.getD (o / G.output_size.total) 0
      * input.coeff (G.window_input o (G.winner INFTY input o d)) d
    + bias.getD (o / G.output_size.total) 0

/-- The winner flags after a forward pass over `n_data` samples that started from the
flags `φ`: those of the last sample, or `φ` when the batch is empty. -/
def Geom.flags_after (G : Geom) (INFTY : ℚ) (input : Matrix) (φ : Nat → Nat → Bool)
    (n_data : Nat) : Nat → Nat → Bool :=
  fun o m => if n_data = 0 then φ o m else decide (m = G.winner INFTY input o (n_data - 1))

/-- The error that the edge list `l` of one input node sends back for sample `d`: the
accumulation `prev_error(i, d) += scale[featmap] * error(to, d)` over the active edges. -/
def edge_sum (scale : List ℚ) (error : Matrix) (d : Nat) (l : List Edge) : ℚ :=
  l.foldl (fun acc edge =>
    if edge.active then acc + scale.getD edge.featmap 0 * error.coeff edge.to_ d else acc) 0

/-- The layers that the public interface can produce: a successful construction followed
by any number of `forward_propagation` and `back_propagation` calls. -/
inductive Reachable : MaxPoolingLayer → Prop
  | construct (input_size pool_size : Size) (n_featmap : Nat) (L : MaxPoolingLayer) :
      0 < pool_size.rows → 0 < pool_size.cols →
      MaxPoolingLayer.new input_size pool_size n_featmap = Except.ok L → Reachable L
  | forward (L : MaxPoolingLayer) (INFTY : ℚ) (input : Matrix) :
      Reachable L → Reachable (forward_propagation INFTY L input).2
  | backward (L : MaxPoolingLayer) (error : Matrix) (eta momentum : ℚ) :
      Reachable L → Reachable (back_propagation L error eta momentum).2

/-- The invariant of reachable layers: accepted geometry, canonical adjacency tables with
winner flags `φ`, and one parameter of each kind per feature map. -/
def Inv (L : MaxPoolingLayer) (φ : Nat → Nat → Bool) : Prop :=
  L.geom.Valid ∧ Tables L.geom φ L.edge_io L.edge_oi ∧
  L.scale.length = L.n_featmap_ ∧ L.bias.length = L.n_featmap_ ∧
  L.dscale.length = L.n_featmap_ ∧ L.dbias.length = L.n_featmap_

/-- The layers that `L0` can become: `L0` itself, followed by any number of
`forward_propagation` and `back_propagation` calls. -/
inductive Evolves (L0 : MaxPoolingLayer) : MaxPoolingLayer → Prop
  | start : Evolves L0 L0
  | forward (L : MaxPoolingLayer) (INFTY : ℚ) (input : Matrix) :
      Evolves L0 L → Evolves L0 (forward_propagation INFTY L input).2
  | backward (L : MaxPoolingLayer) (error : Matrix) (eta momentum : ℚ) :
      Evolves L0 L → Evolves L0 (back_propagation L error eta momentum).2

/-- The layers on which no `forward_propagation` has been performed yet: a successful
construction followed by any number of `back_propagation` calls. -/
inductive NoForwardYet : MaxPoolingLayer → Prop
  | construct (input_size pool_size : Size) (n_featmap : Nat) (L : MaxPoolingLayer) :
      0 < pool_size.rows → 0 < pool_size.cols →
      MaxPoolingLayer.new input_size pool_size n_featmap = Except.ok L → NoForwardYet L
  | backward (L : MaxPoolingLayer) (error : Matrix) (eta momentum : ℚ) :
      NoForwardYet L → NoForwardYet (back_propagation L error eta momentum).2

theorem getD_set_self {α : Type} (l : List α) (n : Nat) (a d : α) (h : n < l.length) :
    (l.set n a).getD n d = a := by
  simp [List.getD_eq_getElem?_getD, List.getElem?_set, h]

theorem getD_set_ne {α : Type} (l : List α) (n m : Nat) (a d : α) (h : n ≠ m) :
    (l.set n a).getD m d = l.getD m d := by
  simp [List.getD_eq_getElem?_getD, List.getElem?_set, h]

/-- Loop-invariant rule for `for (k = 0; k < n; k++)`. -/
theorem foldl_range_inv {σ : Type} (P : Nat → σ → Prop) (f : σ → Nat → σ) (s0 : σ) (n : Nat)
    (h0 : P 0 s0) (hstep : ∀ k, k < n → ∀ s, P k s → P (k + 1) (f s k)) :
    P n ((List.range n).foldl f s0) := by
  induction n with
  | zero => simpa using h0
  | succ n ih =>
    rw [List.range_succ, List.foldl_append]
    simp only [List.foldl_cons, List.foldl_nil]
    exact hstep n (Nat.lt_succ_self n) _ (ih (fun k hk s hs => hstep k (Nat.lt_succ_of_lt hk) s hs))

theorem foldl_congr_mem {σ α : Type} (f g : σ → α → σ) (l : List α) (s : σ)
    (h : ∀ s, ∀ x ∈ l, f s x = g s x) : l.foldl f s = l.foldl g s := by
  induction l generalizing s with
  | nil => rfl
  | cons a t ih =>
    simp only [List.foldl_cons]
    rw [h s a (List.mem_cons_self a t)]
    exact ih _ (fun s x hx => h s x (List.mem_cons_of_mem a hx))

/-- Two nested counting loops are one loop over the flattened index. -/
theorem foldl_range_mul {σ : Type} (g : σ → Nat → Nat → σ) (a b : Nat) (s0 : σ) :
    (List.range a).foldl (fun s i => (List.range b).foldl (fun s j => g s i j) s) s0
      = (List.range (a * b)).foldl (fun s k => g s (k / b) (k % b)) s0 := by
  induction a with
  | zero => simp
  | succ a ih =>
    rw [List.range_succ, List.foldl_append, ih, Nat.succ_mul, List.range_add, List.foldl_append,
      List.foldl_map]
    simp only [List.foldl_cons, List.foldl_nil]
    apply foldl_congr_mem
    intro s j hj
    have hj' : j < b := List.mem_range.mp hj
    have hb : 0 < b := by omega
    have h1 : (a * b + j) / b = a := by
      rw [Nat.add_comm, Nat.add_mul_div_right _ _ hb, Nat.div_eq_of_lt hj', Nat.zero_add]
    have h2 : (a * b + j) % b = j := by
      rw [Nat.add_comm, Nat.add_mul_mod_self_right, Nat.mod_eq_of_lt hj']
    rw [h1, h2]

/-! ## Index arithmetic -/

theorem flat_div {j l c : Nat} (h : l < c) : (j * c + l) / c = j := by
  have hc : 0 < c := by omega
  rw [Nat.add_comm, Nat.add_mul_div_right _ _ hc, Nat.div_eq_of_lt h, Nat.zero_add]

theorem flat_mod {j l c : Nat} (h : l < c) : (j * c + l) % c = l := by
  rw [Nat.add_comm, Nat.add_mul_mod_self_right, Nat.mod_eq_of_lt h]

theorem flat_lt {j l b c : Nat} (hj : j < b) (hl : l < c) : j * c + l < b * c := by
  have : (j + 1) * c ≤ b * c := Nat.mul_le_mul_right c hj
  have h2 : (j + 1) * c = j * c + c := Nat.succ_mul j c
  omega

theorem unflat (k c : Nat) : (k / c) * c + k % c = k := by
  rw [Nat.mul_comm]; exact Nat.div_add_mod k c

theorem div_lt_of_lt_mul_right {k b c : Nat} (h : k < b * c) : k / c < b := by
  apply Nat.div_lt_of_lt_mul
  rwa [Nat.mul_comm]

theorem pos_of_lt_mul_right {k b c : Nat} (h : k < b * c) : 0 < c := by
  rcases Nat.eq_zero_or_pos c with h0 | h0
  · subst h0; simp at h
  · exact h0

/-- The window cell `(o, m)` is an input node, and `owner`/`pos` recover `(o, m)` from it. -/
theorem Geom.window_input_facts (G : Geom) (hG : G.Valid) {o m : Nat} (ho : o < G.n_output)
    (hm : m < G.window_size) :
    G.window_input o m < G.n_input ∧ G.owner (G.window_input o m) = o
      ∧ G.pos (G.window_input o m) = m := by
  obtain ⟨hpr, hpc, hir, hic⟩ := hG
  unfold Geom.n_output at ho
  unfold Geom.window_size at hm
  unfold Geom.n_input Geom.window_input Geom.owner Geom.pos
  simp only [Size.total] at *
  rw [hir, hic]
  generalize G.output_size.rows = orr at *
  generalize G.output_size.cols = oc at *
  generalize G.pool_size.rows = pr at *
  generalize G.pool_size.cols = pc at *
  generalize G.n_featmap = nf at *
  have hot : 0 < orr * oc := by
    rcases Nat.eq_zero_or_pos (orr * oc) with h0 | h0
    · rw [h0] at ho; simp at ho
    · exact h0
  have hf : o / (orr * oc) < nf := by
    apply Nat.div_lt_of_lt_mul; exact ho
  have hc : o % (orr * oc) < orr * oc := Nat.mod_lt _ hot
  have hyo : o % (orr * oc) / oc < orr := div_lt_of_lt_mul_right hc
  have hoc : 0 < oc := pos_of_lt_mul_right hc
  have hxo : o % (orr * oc) % oc < oc := Nat.mod_lt _ hoc
  have hdy : m / pc < pr := div_lt_of_lt_mul_right hm
  have hdx : m % pc < pc := Nat.mod_lt _ hpc
  have e0 := unflat o (orr * oc)
  have e1 := unflat (o % (orr * oc)) oc
  generalize o / (orr * oc) = f at *
  generalize o % (orr * oc) / oc = yo at *
  generalize o % (orr * oc) % oc = xo at *
  have e2 := unflat m pc
  generalize m / pc = dy at *
  generalize m % pc = dx at *
  have hy : yo * pr + dy < orr * pr := flat_lt hyo hdy
  have hx : xo * pc + dx < oc * pc := flat_lt hxo hdx
  have hcell : (yo * pr + dy) * (oc * pc) + (xo * pc + dx) < orr * pr * (oc * pc) :=
    flat_lt hy hx
  refine ⟨?_, ?_, ?_⟩
  · rw [Nat.mul_comm _ nf]; exact flat_lt hf hcell
  · rw [flat_div hcell, flat_mod hcell, flat_div hx, flat_mod hx, flat_div hdy, flat_div hdx]
    rw [e1, e0]
  · rw [flat_mod hcell, flat_div hx, flat_mod hx, flat_mod hdy, flat_mod hdx]
    exact e2

theorem Geom.window_input_lt (G : Geom) (hG : G.Valid) {o m : Nat} (ho : o < G.n_output)
    (hm : m < G.window_size) : G.window_input o m < G.n_input :=
  (G.window_input_facts hG ho hm).1

/-- Distinct window cells are distinct input nodes: windows do not overlap. -/
theorem Geom.window_input_inj (G : Geom) (hG : G.Valid) {o m o2 m2 : Nat}
    (ho : o < G.n_output) (hm : m < G.window_size) (ho2 : o2 < G.n_output)
    (hm2 : m2 < G.window_size) (h : G.window_input o m = G.window_input o2 m2) :
    o = o2 ∧ m = m2 := by
  have h1 := G.window_input_facts hG ho hm
  have h2 := G.window_input_facts hG ho2 hm2
  rw [h] at h1
  exact ⟨h1.2.1.symm.trans h2.2.1, h1.2.2.symm.trans h2.2.2⟩

/-! ## Construction builds the canonical tables -/

theorem add_edge_geom (L : MaxPoolingLayer) (inn out f : Nat) :
    (add_edge L inn out f).geom = L.geom := rfl

/-- One `add_edge` call gives output node `o` its next edge. -/
theorem add_edge_partial (G : Geom) (hG : G.Valid) (cnt : Nat → Nat) (L : MaxPoolingLayer)
    (h : PartialTables G cnt L.edge_io L.edge_oi) {o : Nat} (ho : o < G.n_output)
    (hc : cnt o < G.window_size) :
    PartialTables G (Function.update cnt o (cnt o + 1))
      (add_edge L (G.window_input o (cnt o)) o (o / G.output_size.total)).edge_io
      (add_edge L (G.window_input o (cnt o)) o (o / G.output_size.total)).edge_oi := by
  obtain ⟨hlio, hloi, hoi, hio⟩ := h
  have hwin := G.window_input_lt hG ho hc
  have hio0 : L.edge_io.getD (G.window_input o (cnt o)) [] = [] := by
    rw [hio o (cnt o) ho hc]; simp
  refine ⟨?_, ?_, ?_, ?_⟩
  · simp [add_edge, hlio]
  · simp [add_edge, hloi]
  · intro o2 ho2
    by_cases h2 : o2 = o
    · subst h2
      simp only [add_edge, Function.update_same]
      rw [getD_set_self _ _ _ _ (by rw [hloi]; exact ho2), hoi o2 ho2, hio0, List.range_succ,
        List.map_append]
      simp [Geom.oi_edge]
    · simp only [add_edge, Function.update_noteq h2]
      rw [getD_set_ne _ _ _ _ _ (Ne.symm h2), hoi o2 ho2]
  · intro o2 m2 ho2 hm2
    by_cases h2 : G.window_input o2 m2 = G.window_input o (cnt o)
    · obtain ⟨e1, e2⟩ := G.window_input_inj hG ho2 hm2 ho hc h2
      subst e1; subst e2
      simp only [add_edge, Function.update_same]
      rw [getD_set_self _ _ _ _ (by rw [hlio]; exact hwin), hio0, hoi o2 ho2]
      simp [Geom.io_edge]
    · simp only [add_edge]
      rw [getD_set_ne _ _ _ _ _ (Ne.symm h2), hio o2 m2 ho2 hm2]
      by_cases h3 : o2 = o
      · subst h3
        have hne : m2 ≠ cnt o2 := fun e => h2 (by rw [e])
        simp only [Function.update_same]
        by_cases h4 : m2 < cnt o2
        · simp [h4, Nat.lt_succ_of_lt h4]
        · have h5 : ¬ m2 < cnt o2 + 1 := by omega
          simp [h4, h5]
      · simp only [Function.update_noteq h3]

theorem initialize_edges_flat (L : MaxPoolingLayer) (f yout xout : Nat) :
    initialize_edges L f yout xout =
      (List.range (L.pool_size_.rows * L.pool_size_.cols)).foldl (fun acc m =>
        add_edge acc
          (f * L.input_size_.total + ((yout * L.pool_size_.rows + m / L.pool_size_.cols)
            * L.input_size_.cols + (xout * L.pool_size_.cols + m % L.pool_size_.cols)))
          (f * L.output_size_.total + (yout * L.output_size_.cols + xout)) f) L :=
  foldl_range_mul (fun acc dy dx =>
    add_edge acc
      (f * L.input_size_.total + ((yout * L.pool_size_.rows + dy)
        * L.input_size_.cols + (xout * L.pool_size_.cols + dx)))
      (f * L.output_size_.total + (yout * L.output_size_.cols + xout)) f)
    L.pool_size_.rows L.pool_size_.cols L

/-- The call `initialize_edges` for output node `o` gives `o` its whole window and leaves
the other nodes, the geometry, the parameters and the cache as they were. -/
theorem initialize_edges_partial (L : MaxPoolingLayer) (hG : L.geom.Valid) (cnt : Nat → Nat)
    (h : PartialTables L.geom cnt L.edge_io L.edge_oi) {o : Nat} (ho : o < L.geom.n_output)
    (hc : cnt o = 0) :
    PartialTables L.geom (Function.update cnt o L.geom.window_size)
        (initialize_edges L (o / L.output_size_.total)
          ((o % L.output_size_.total) / L.output_size_.cols)
          ((o % L.output_size_.total) % L.output_size_.cols)).edge_io
        (initialize_edges L (o / L.output_size_.total)
          ((o % L.output_size_.total) / L.output_size_.cols)
          ((o % L.output_size_.total) % L.output_size_.cols)).edge_oi
      ∧ (initialize_edges L (o / L.output_size_.total)
          ((o % L.output_size_.total) / L.output_size_.cols)
          ((o % L.output_size_.total) % L.output_size_.cols)).geom = L.geom
      ∧ (initialize_edges L (o / L.output_size_.total)
          ((o % L.output_size_.total) / L.output_size_.cols)
          ((o % L.output_size_.total) % L.output_size_.cols)).params = L.params
      ∧ (initialize_edges L (o / L.output_size_.total)
          ((o % L.output_size_.total) / L.output_size_.cols)
          ((o % L.output_size_.total) % L.output_size_.cols)).cache = L.cache := by
  rw [initialize_edges_flat]
  have hout : o / L.output_size_.total * L.output_size_.total
      + (o % L.output_size_.total / L.output_size_.cols * L.output_size_.cols
        + o % L.output_size_.total % L.output_size_.cols) = o := by
    rw [unflat, unflat]
  rw [hout]
  refine foldl_range_inv (fun m acc =>
      PartialTables L.geom (Function.update cnt o m) acc.edge_io acc.edge_oi
        ∧ acc.geom = L.geom ∧ acc.params = L.params ∧ acc.cache = L.cache) _ L _ ?_ ?_
  · refine ⟨?_, rfl, rfl, rfl⟩
    rw [← hc, Function.update_eq_self]
    exact h
  · intro m hm acc ⟨hp, hg, hpar, hcache⟩
    have hstep := add_edge_partial L.geom hG (Function.update cnt o m) acc hp ho
      (by simpa using hm)
    simp only [Function.update_same, Function.update_idem] at hstep
    exact ⟨hstep, hg, hpar, hcache⟩

theorem initialize_layer_flat (L : MaxPoolingLayer) :
    initialize_layer L =
      (List.range (L.n_featmap_ * (L.output_size_.rows * L.output_size_.cols))).foldl
        (fun acc k =>
          initialize_edges acc (k / (L.output_size_.rows * L.output_size_.cols))
            ((k % (L.output_size_.rows * L.output_size_.cols)) / L.output_size_.cols)
            ((k % (L.output_size_.rows * L.output_size_.cols)) % L.output_size_.cols)) L := by
  have h1 : ∀ (acc : MaxPoolingLayer) (f : Nat),
      (List.range L.output_size_.rows).foldl (fun acc yout =>
        (List.range L.output_size_.cols).foldl (fun acc xout =>
          initialize_edges acc f yout xout) acc) acc
      = (List.range (L.output_size_.rows * L.output_size_.cols)).foldl (fun acc j =>
          initialize_edges acc f (j / L.output_size_.cols) (j % L.output_size_.cols)) acc :=
    fun acc f => foldl_range_mul (fun acc yout xout => initialize_edges acc f yout xout) _ _ acc
  unfold initialize_layer
  simp only [h1]
  exact foldl_range_mul (fun acc f j =>
    initialize_edges acc f (j / L.output_size_.cols) (j % L.output_size_.cols)) _ _ L

/-- The method `initialize` turns empty tables into the canonical tables, all winner flags
false, and changes nothing else. -/
theorem initialize_layer_tables (L : MaxPoolingLayer) (hG : L.geom.Valid)
    (h : PartialTables L.geom (fun _ => 0) L.edge_io L.edge_oi) :
    Tables L.geom (fun _ _ => false) (initialize_layer L).edge_io (initialize_layer L).edge_oi
      ∧ (initialize_layer L).geom = L.geom
      ∧ (initialize_layer L).params = L.params
      ∧ (initialize_layer L).cache = L.cache := by
  rw [initialize_layer_flat]
  have key := foldl_range_inv (fun k acc =>
      PartialTables L.geom (fun o => if o < k then L.geom.window_size else 0)
          acc.edge_io acc.edge_oi
        ∧ acc.geom = L.geom ∧ acc.params = L.params ∧ acc.cache = L.cache)
    (fun acc k =>
          initialize_edges acc (k / (L.output_size_.rows * L.output_size_.cols))
            ((k % (L.output_size_.rows * L.output_size_.cols)) / L.output_size_.cols)
            ((k % (L.output_size_.rows * L.output_size_.cols)) % L.output_size_.cols))
    L (L.n_featmap_ * (L.output_size_.rows * L.output_size_.cols)) ?_ ?_
  · obtain ⟨⟨hlio, hloi, hoi, hio⟩, hg, hpar, hcache⟩ := key
    beta_reduce at hoi hio
    refine ⟨⟨hlio, hloi, ?_, ?_⟩, hg, hpar, hcache⟩
    · intro o ho
      have ho2 : o < L.n_featmap_ * (L.output_size_.rows * L.output_size_.cols) := by
        have : o < L.output_size_.rows * L.output_size_.cols * L.n_featmap_ := ho
        rwa [Nat.mul_comm] at this
      rw [hoi o ho, if_pos ho2]
    · intro o m ho hm
      have ho2 : o < L.n_featmap_ * (L.output_size_.rows * L.output_size_.cols) := by
        have : o < L.output_size_.rows * L.output_size_.cols * L.n_featmap_ := ho
        rwa [Nat.mul_comm] at this
      rw [hio o m ho hm, if_pos ho2, if_pos hm]
  · refine ⟨?_, rfl, rfl, rfl⟩
    simpa using h
  · intro k hk acc ⟨hp, hg, hpar, hcache⟩
    have hos : acc.output_size_ = L.output_size_ := congrArg Geom.output_size hg
    have hk2 : k < acc.geom.n_output := by
      rw [hg]
      show k < L.output_size_.rows * L.output_size_.cols * L.n_featmap_
      rwa [Nat.mul_comm]
    have hstep := initialize_edges_partial acc (by rw [hg]; exact hG)
      (fun o => if o < k then L.geom.window_size else 0) (by rw [hg]; exact hp) hk2 (by simp)
    rw [hg, hos] at hstep
    obtain ⟨s1, s2, s3, s4⟩ := hstep
    refine ⟨?_, s2, s3.trans hpar, s4.trans hcache⟩
    have hfun : (fun o => if o < k + 1 then L.geom.window_size else 0)
        = Function.update (fun o => if o < k then L.geom.window_size else 0) k
            L.geom.window_size := by
      funext o
      by_cases h1 : o = k
      · subst h1; simp
      · rw [Function.update_noteq h1]
        by_cases h2 : o < k
        · simp [h2, Nat.lt_succ_of_lt h2]
        · have h3 : ¬ o < k + 1 := by omega
          simp [h2, h3]
    rw [hfun]
    exact s1

theorem set_replicate_self {α : Type} (n i : Nat) (a : α) :
    (List.replicate n a).set i a = List.replicate n a := by
  apply List.ext_getElem?
  intro j
  rw [List.getElem?_set]
  by_cases h : i = j
  · subst h
    by_cases h2 : i < n
    · simp [h2]
    · simp [h2]
      omega
  · simp [h]

theorem eq_replicate_of_getD {α : Type} (l : List α) (n : Nat) (a d : α)
    (hl : l.length = n) (h : ∀ i, i < n → l.getD i d = a) : l = List.replicate n a := by
  rw [List.eq_replicate_iff]
  refine ⟨hl, ?_⟩
  intro b hb
  obtain ⟨i, hi, rfl⟩ := List.getElem_of_mem hb
  have := h i (hl ▸ hi)
  rw [List.getD_eq_getElem?_getD, List.getElem?_eq_getElem hi] at this
  simpa using this

/-- The parameter loop of the constructor produces scale 1, bias 0 and zero momenta and
changes nothing else. -/
theorem init_params_spec (L : MaxPoolingLayer) (n : Nat)
    (h : L.params = (List.replicate n 0, List.replicate n 0, List.replicate n 0,
      List.replicate n 0)) :
    (init_params L n).params = (List.replicate n 1, List.replicate n 0, List.replicate n 0,
        List.replicate n 0)
      ∧ (init_params L n).geom = L.geom ∧ (init_params L n).cache = L.cache
      ∧ (init_params L n).edge_io = L.edge_io ∧ (init_params L n).edge_oi = L.edge_oi := by
  simp only [MaxPoolingLayer.params, Prod.mk.injEq] at h
  obtain ⟨hs, hb, hds, hdb⟩ := h
  have key := foldl_range_inv (fun k acc =>
      (acc.scale.length = n ∧ ∀ i, i < n → acc.scale.getD i 0 = if i < k then 1 else 0)
        ∧ acc.bias = List.replicate n 0 ∧ acc.dscale = List.replicate n 0
        ∧ acc.dbias = List.replicate n 0
        ∧ acc.geom = L.geom ∧ acc.cache = L.cache
        ∧ acc.edge_io = L.edge_io ∧ acc.edge_oi = L.edge_oi)
    (fun acc i =>
      { acc with
        scale := acc.scale.set i 1
        bias := acc.bias.set i 0
        dscale := acc.dscale.set i 0
        dbias := acc.dbias.set i 0 }) L n ?_ ?_
  · obtain ⟨⟨hl, hsc⟩, h2, h3, h4, h5, h6, h7, h8⟩ := key
    refine ⟨?_, h5, h6, h7, h8⟩
    simp only [MaxPoolingLayer.params, Prod.mk.injEq]
    refine ⟨?_, h2, h3, h4⟩
    apply eq_replicate_of_getD _ n 1 0 hl
    intro i hi
    have := hsc i hi
    simpa [hi] using this
  · refine ⟨⟨by rw [hs]; simp, ?_⟩, hb, hds, hdb, rfl, rfl, rfl, rfl⟩
    intro i hi
    rw [hs]
    simp [List.getD_eq_getElem?_getD, hi]
  · intro k hk acc ⟨⟨hl, hsc⟩, h2, h3, h4, h5, h6, h7, h8⟩
    refine ⟨⟨by simp [hl], ?_⟩, ?_, ?_, ?_, h5, h6, h7, h8⟩
    · intro i hi
      by_cases hik : k = i
      · subst hik
        simp only []
        rw [getD_set_self _ _ _ _ (by rw [hl]; exact hi)]
        simp
      · simp only []
        rw [getD_set_ne _ _ _ _ _ hik, hsc i hi]
        by_cases h9 : i < k
        · simp [h9, Nat.lt_succ_of_lt h9]
        · have : ¬ i < k + 1 := by omega
          simp [h9, this]
    · simp only [h2, set_replicate_self]
    · simp only [h3, set_replicate_self]
    · simp only [h4, set_replicate_self]

/-- The constructor body after the assertion: parameter loop, then `initialize`. -/
theorem construct_spec (L0 : MaxPoolingLayer) (n : Nat) (hG : L0.geom.Valid)
    (hio : L0.edge_io = List.replicate L0.geom.n_input [])
    (hoi : L0.edge_oi = List.replicate L0.geom.n_output [])
    (hpar : L0.params = (List.replicate n 0, List.replicate n 0, List.replicate n 0,
      List.replicate n 0)) :
    (initialize_layer (init_params L0 n)).geom = L0.geom
      ∧ Tables L0.geom (fun _ _ => false) (initialize_layer (init_params L0 n)).edge_io
          (initialize_layer (init_params L0 n)).edge_oi
      ∧ (initialize_layer (init_params L0 n)).params = (List.replicate n 1, List.replicate n 0,
          List.replicate n 0, List.replicate n 0)
      ∧ (initialize_layer (init_params L0 n)).cache = L0.cache := by
  obtain ⟨p1, p2, p3, p4, p5⟩ := init_params_spec L0 n hpar
  have hi := initialize_layer_tables (init_params L0 n) (by rw [p2]; exact hG) (by
    rw [p2, p4, p5, hio, hoi]
    refine ⟨by simp, by simp, ?_, ?_⟩
    · intro o ho
      simp [List.getD_eq_getElem?_getD]
    · intro o m ho hm
      simp [List.getD_eq_getElem?_getD])
  obtain ⟨i1, i2, i3, i4⟩ := hi
  rw [p2] at i1 i2
  exact ⟨i2, i1, i3.trans p1, i4.trans p3⟩

/-- What a successful construction returns. -/
theorem new_spec (input_size pool_size : Size) (n_featmap : Nat) (L : MaxPoolingLayer)
    (hpr : 0 < pool_size.rows) (hpc : 0 < pool_size.cols)
    (h : MaxPoolingLayer.new input_size pool_size n_featmap = Except.ok L) :
    L.geom = ⟨input_size, pool_size,
        ⟨input_size.rows / pool_size.rows, input_size.cols / pool_size.cols⟩, n_featmap⟩
      ∧ L.geom.Valid
      ∧ Tables L.geom (fun _ _ => false) L.edge_io L.edge_oi
      ∧ L.params = (List.replicate n_featmap 1, List.replicate n_featmap 0,
          List.replicate n_featmap 0, List.replicate n_featmap 0)
      ∧ L.cache = (Matrix.Zero 0 0, Matrix.Zero 0 0) := by
  unfold MaxPoolingLayer.new MaxPoolingLayer.build Assertion at h
  by_cases hc : (input_size.rows % pool_size.rows == 0
      && input_size.cols % pool_size.cols == 0) = true
  · rw [if_pos hc] at h
    simp only [Except.bind] at h
    injection h with h
    simp only [Bool.and_eq_true, beq_iff_eq] at hc
    obtain ⟨hr, hcl⟩ := hc
    have hvalid : (⟨input_size, pool_size,
        ⟨input_size.rows / pool_size.rows, input_size.cols / pool_size.cols⟩,
        n_featmap⟩ : Geom).Valid :=
      ⟨hpr, hpc, (Nat.div_mul_cancel (Nat.dvd_of_mod_eq_zero hr)).symm,
        (Nat.div_mul_cancel (Nat.dvd_of_mod_eq_zero hcl)).symm⟩
    have hs := construct_spec
      { input_size_ := input_size
        pool_size_ := pool_size
        output_size_ := ⟨input_size.rows / pool_size.rows, input_size.cols / pool_size.cols⟩
        n_featmap_ := n_featmap
        edge_io := List.replicate (input_size.total * n_featmap) []
        edge_oi := List.replicate
          ((⟨input_size.rows / pool_size.rows, input_size.cols / pool_size.cols⟩ : Size).total
            * n_featmap) []
        scale := List.replicate n_featmap 0
        bias := List.replicate n_featmap 0
        dscale := List.replicate n_featmap 0
        dbias := List.replicate n_featmap 0
        input_ := Matrix.Zero 0 0
        output_ := Matrix.Zero 0 0 } n_featmap hvalid rfl rfl rfl
    rw [h] at hs
    obtain ⟨s1, s2, s3, s4⟩ := hs
    refine ⟨s1, ?_, ?_, s3, s4⟩
    · rw [s1]; exact hvalid
    · rw [s1]; exact s2
  · rw [if_neg hc] at h
    simp [Except.bind] at h

/-! ## Winner flags -/

theorem map_range_set {α : Type} (f : Nat → α) (n m : Nat) (a : α) :
    ((List.range n).map f).set m a = (List.range n).map (fun j => if j = m then a else f j) := by
  apply List.ext_getElem?
  intro j
  rw [List.getElem?_set]
  by_cases hj : j < n
  · by_cases h : m = j
    · subst h
      simp [List.getElem?_map, List.getElem?_range hj, hj]
    · have h2 : ¬ j = m := fun e => h e.symm
      simp [List.getElem?_map, List.getElem?_range hj, h, h2]
  · have hlen : ((List.range n).map f).length ≤ j := by simp; omega
    have hlen2 : ((List.range n).map (fun j => if j = m then a else f j)).length ≤ j := by
      simp; omega
    rw [List.getElem?_eq_none hlen, List.getElem?_eq_none hlen2]
    by_cases h : m = j
    · subst h
      simp [hj]
    · simp [h]

theorem getD_map_range {α : Type} (f : Nat → α) (n m : Nat) (d : α) (h : m < n) :
    ((List.range n).map f).getD m d = f m := by
  simp [List.getD_eq_getElem?_getD, List.getElem?_map, List.getElem?_range h]

theorem setActive_length (t : List (List Edge)) (n e : Nat) (b : Bool) :
    (setActive t n e b).length = t.length := by
  simp [setActive]

theorem setActive_getD (t : List (List Edge)) (n e m : Nat) (b : Bool) :
    (setActive t n e b).getD m [] =
      if m = n then
        (t.getD n []).set e { (t.getD n []).getD e default with active := b }
      else t.getD m [] := by
  unfold setActive
  by_cases h : m = n
  · subst h
    rw [if_pos rfl]
    by_cases hl : m < t.length
    · rw [getD_set_self _ _ _ _ hl]
    · have hl2 : t.length ≤ m := by omega
      rw [List.set_eq_of_length_le hl2]
      have : t.getD m [] = [] := by
        simp [List.getD_eq_getElem?_getD, List.getElem?_eq_none hl2]
      rw [this]
      simp
  · rw [if_neg h, getD_set_ne _ _ _ _ _ (fun e => h e.symm)]

/-- The tables depend on the flag function only at window cells. -/
theorem Tables.congr {G : Geom} {φ ψ : Nat → Nat → Bool} {io oi : List (List Edge)}
    (h : Tables G φ io oi)
    (hφ : ∀ o m, o < G.n_output → m < G.window_size → φ o m = ψ o m) :
    Tables G ψ io oi := by
  obtain ⟨h1, h2, h3, h4⟩ := h
  refine ⟨h1, h2, ?_, ?_⟩
  · intro o ho
    rw [h3 o ho]
    apply List.map_congr_left
    intro m hm
    simp only [Geom.oi_edge, hφ o m ho (List.mem_range.mp hm)]
  · intro o m ho hm
    rw [h4 o m ho hm]
    simp only [Geom.io_edge, hφ o m ho hm]

/-- Setting the flag of edge `(o, m)` and of its mirror keeps the tables canonical. -/
theorem Tables.setActive {G : Geom} (hG : G.Valid) {φ : Nat → Nat → Bool}
    {io oi : List (List Edge)} (h : Tables G φ io oi) {o m : Nat} (ho : o < G.n_output)
    (hm : m < G.window_size) (b : Bool) :
    Tables G (fun o2 m2 => if o2 = o ∧ m2 = m then b else φ o2 m2)
      (EduCNN.setActive io (G.window_input o m) 0 b) (EduCNN.setActive oi o m b) := by
  obtain ⟨h1, h2, h3, h4⟩ := h
  refine ⟨by rw [setActive_length]; exact h1, by rw [setActive_length]; exact h2, ?_, ?_⟩
  · intro o2 ho2
    rw [setActive_getD]
    by_cases e : o2 = o
    · subst e
      rw [if_pos rfl, h3 o2 ho2, map_range_set]
      apply List.map_congr_left
      intro j hj
      have hj2 : j < G.window_size := List.mem_range.mp hj
      by_cases e2 : j = m
      · subst e2
        rw [getD_map_range _ _ _ _ hj2]
        simp [Geom.oi_edge]
      · simp [e2, Geom.oi_edge]
    · rw [if_neg e, h3 o2 ho2]
      apply List.map_congr_left
      intro j _
      simp [Geom.oi_edge, e]
  · intro o2 m2 ho2 hm2
    rw [setActive_getD]
    by_cases e : G.window_input o2 m2 = G.window_input o m
    · obtain ⟨e1, e2⟩ := G.window_input_inj hG ho2 hm2 ho hm e
      subst e1; subst e2
      rw [if_pos rfl, h4 o2 m2 ho2 hm2]
      simp [Geom.io_edge]
    · rw [if_neg e, h4 o2 m2 ho2 hm2]
      have : ¬ (o2 = o ∧ m2 = m) := fun ⟨e1, e2⟩ => e (by rw [e1, e2])
      simp [Geom.io_edge, this]

/-- The edge stored at position `m` of `edge_oi[o]`. -/
theorem Tables.oi_get {G : Geom} {φ : Nat → Nat → Bool} {io oi : List (List Edge)}
    (h : Tables G φ io oi) {o m : Nat} (ho : o < G.n_output) (hm : m < G.window_size) :
    (oi.getD o []).getD m default = G.oi_edge φ o m := by
  rw [h.2.2.1 o ho, getD_map_range _ _ _ _ hm]

theorem Tables.oi_length {G : Geom} {φ : Nat → Nat → Bool} {io oi : List (List Edge)}
    (h : Tables G φ io oi) {o : Nat} (ho : o < G.n_output) :
    (oi.getD o []).length = G.window_size := by
  rw [h.2.2.1 o ho]; simp

/-! ## The scan for the maximum -/

theorem scan_succ (INFTY : ℚ) (v : Nat → ℚ) (n : Nat) :
    scan INFTY v (n + 1) = scan_step v (scan INFTY v n) n := by
  simp [scan, List.range_succ, List.foldl_append]

/-- What the scan returns: an upper bound of the candidates, and either no candidate
exceeds `-INFTY` and position 0 is kept, or the first position holding the maximum. -/
theorem scan_spec (INFTY : ℚ) (v : Nat → ℚ) (n : Nat) :
    (∀ e, e < n → v e ≤ (scan INFTY v n).1) ∧
    (((scan INFTY v n).1 = -INFTY ∧ (scan INFTY v n).2 = 0)
      ∨ ((scan INFTY v n).2 < n ∧ v (scan INFTY v n).2 = (scan INFTY v n).1
          ∧ -INFTY < (scan INFTY v n).1
          ∧ ∀ e, e < (scan INFTY v n).2 → v e < (scan INFTY v n).1)) := by
  induction n with
  | zero => simp [scan]
  | succ n ih =>
    obtain ⟨hub, hcase⟩ := ih
    rw [scan_succ]
    unfold scan_step
    by_cases hlt : (scan INFTY v n).1 < v n
    · rw [if_pos hlt]
      refine ⟨?_, Or.inr ⟨Nat.lt_succ_self n, rfl, ?_, ?_⟩⟩
      · intro e he
        rcases Nat.lt_succ_iff_lt_or_eq.mp he with h | h
        · exact le_of_lt (lt_of_le_of_lt (hub e h) hlt)
        · rw [h]
      · rcases hcase with ⟨h1, _⟩ | ⟨_, _, h3, _⟩
        · rw [← h1]; exact hlt
        · exact lt_trans h3 hlt
      · intro e he
        exact lt_of_le_of_lt (hub e he) hlt
    · rw [if_neg hlt]
      refine ⟨?_, ?_⟩
      · intro e he
        rcases Nat.lt_succ_iff_lt_or_eq.mp he with h | h
        · exact hub e h
        · rw [h]; exact not_lt.mp hlt
      · rcases hcase with h | ⟨h1, h2, h3, h4⟩
        · exact Or.inl h
        · exact Or.inr ⟨Nat.lt_succ_of_lt h1, h2, h3, h4⟩

theorem scan_index_lt (INFTY : ℚ) (v : Nat → ℚ) {n : Nat} (hn : 0 < n) :
    (scan INFTY v n).2 < n := by
  rcases (scan_spec INFTY v n).2 with ⟨_, h⟩ | ⟨h, _⟩
  · rw [h]; exact hn
  · exact h

theorem Geom.window_size_pos (G : Geom) (hG : G.Valid) : 0 < G.window_size :=
  Nat.mul_pos hG.1 hG.2.1

theorem Geom.winner_lt (G : Geom) (hG : G.Valid) (INFTY : ℚ) (input : Matrix) (o d : Nat) :
    G.winner INFTY input o d < G.window_size :=
  scan_index_lt INFTY _ (G.window_size_pos hG)

/-! ## Forward propagation: one output node -/

/-- The loop over the candidate edges of output node `o`: all flags of the window are
cleared and `(maxval, active_index)` is the result of `scan`. -/
theorem forward_scan_loop {G : Geom} (hG : G.Valid) {φ : Nat → Nat → Bool}
    {io oi : List (List Edge)} (h : Tables G φ io oi) (INFTY : ℚ) (input : Matrix)
    (d : Nat) {o : Nat} (ho : o < G.n_output) (k : Nat) (hk : k ≤ G.window_size) :
    Tables G (fun o2 m2 => if o2 = o ∧ m2 < k then false else φ o2 m2)
        ((List.range k).foldl (forward_scan input d o) ⟨io, oi, -INFTY, 0⟩).edge_io
        ((List.range k).foldl (forward_scan input d o) ⟨io, oi, -INFTY, 0⟩).edge_oi
      ∧ (((List.range k).foldl (forward_scan input d o) ⟨io, oi, -INFTY, 0⟩).maxval,
          ((List.range k).foldl (forward_scan input d o) ⟨io, oi, -INFTY, 0⟩).active_index)
        = scan INFTY (fun e => input.coeff (G.window_input o e) d) k := by
  induction k with
  | zero =>
    refine ⟨?_, by simp [scan]⟩
    simpa using h
  | succ k ih =>
    obtain ⟨ht, hs⟩ := ih (Nat.le_of_succ_le hk)
    have hk2 : k < G.window_size := hk
    rw [List.range_succ, List.foldl_append, scan_succ, ← hs]
    simp only [List.foldl_cons, List.foldl_nil]
    generalize (List.range k).foldl (forward_scan input d o) ⟨io, oi, -INFTY, 0⟩ = s at ht hs ⊢
    have hedge := ht.oi_get ho hk2
    have hset := ht.setActive hG ho hk2 false
    have hfun : Tables G (fun o2 m2 => if o2 = o ∧ m2 < k + 1 then false else φ o2 m2)
        (setActive s.edge_io (G.window_input o k) 0 false) (setActive s.edge_oi o k false) := by
      apply hset.congr
      intro o2 m2 _ _
      by_cases e1 : o2 = o
      · by_cases e2 : m2 = k
        · simp [e1, e2]
        · by_cases e3 : m2 < k
          · simp [e1, e2, e3, Nat.lt_succ_of_lt e3]
          · have : ¬ m2 < k + 1 := by omega
            simp [e1, e2, e3, this]
      · simp [e1]
    unfold forward_scan scan_step
    rw [hedge]
    simp only [Geom.oi_edge]
    by_cases hlt : s.maxval < input.coeff (G.window_input o k) d
    · rw [if_pos hlt, if_pos hlt]
      exact ⟨hfun, rfl⟩
    · rw [if_neg hlt, if_neg hlt]
      exact ⟨hfun, rfl⟩

/-- The body of the loop over `o`: the winner of the window gets the only set flag of
the window, the output entry `(o, d)` is written, nothing else changes. -/
theorem forward_node_spec (L : MaxPoolingLayer) (hG : L.geom.Valid) {φ : Nat → Nat → Bool}
    (h : Tables L.geom φ L.edge_io L.edge_oi) (INFTY : ℚ) (input : Matrix) (d : Nat)
    {o : Nat} (ho : o < L.geom.n_output) :
    Tables L.geom
        (fun o2 m2 => if o2 = o then decide (m2 = L.geom.winner INFTY input o d) else φ o2 m2)
        (forward_node INFTY input d L o).edge_io (forward_node INFTY input d L o).edge_oi
      ∧ (forward_node INFTY input d L o).output_ = L.output_.set o d
          (L.scale.getD (o / L.output_size_.total) 0
              * input.coeff (L.geom.window_input o (L.geom.winner INFTY input o d)) d
            + L.bias.getD (o / L.output_size_.total) 0)
      ∧ (forward_node INFTY input d L o).geom = L.geom
      ∧ (forward_node INFTY input d L o).params = L.params
      ∧ (forward_node INFTY input d L o).input_ = L.input_ := by
  have hloop := forward_scan_loop hG h INFTY input d ho L.geom.window_size (Nat.le_refl _)
  have hw := L.geom.winner_lt hG INFTY input o d
  unfold forward_node
  rw [h.oi_length ho]
  generalize (List.range L.geom.window_size).foldl (forward_scan input d o)
    ⟨L.edge_io, L.edge_oi, -INFTY, 0⟩ = s at hloop ⊢
  obtain ⟨ht, hs⟩ := hloop
  have ha : s.active_index = L.geom.winner INFTY input o d := by
    unfold Geom.winner
    rw [← hs]
  simp only []
  rw [ha, ht.oi_get ho hw]
  constructor
  swap
  · repeat' constructor
  have hset := ht.setActive hG ho hw true
  apply hset.congr
  intro o2 m2 _ hm2
  by_cases e1 : o2 = o
  · by_cases e2 : m2 = L.geom.winner INFTY input o d
    · simp [e1, e2]
    · simp [e1, e2, hm2]
  · simp [e1]

/-! ## Forward propagation: the loops over output nodes and samples -/

/-- The loop over `o` for sample `d`. -/
theorem forward_sample_spec (L : MaxPoolingLayer) (hG : L.geom.Valid) {φ : Nat → Nat → Bool}
    (h : Tables L.geom φ L.edge_io L.edge_oi) (INFTY : ℚ) (input : Matrix) (d : Nat)
    (k : Nat) (hk : k ≤ L.geom.n_output) :
    Tables L.geom
        (fun o2 m2 => if o2 < k then decide (m2 = L.geom.winner INFTY input o2 d) else φ o2 m2)
        (forward_sample INFTY input k L d).edge_io (forward_sample INFTY input k L d).edge_oi
      ∧ (forward_sample INFTY input k L d).output_ = ⟨L.output_.rows, L.output_.cols,
          fun a b => if a < k ∧ b = d then L.geom.out_value INFTY L.scale L.bias input a d
            else L.output_.coeff a b⟩
      ∧ (forward_sample INFTY input k L d).geom = L.geom
      ∧ (forward_sample INFTY input k L d).params = L.params
      ∧ (forward_sample INFTY input k L d).input_ = L.input_ := by
  unfold forward_sample
  induction k with
  | zero =>
    refine ⟨by simpa using h, ?_, rfl, rfl, rfl⟩
    simp
  | succ k ih =>
    obtain ⟨ht, hout, hg, hpar, hin⟩ := ih (Nat.le_of_succ_le hk)
    have hk2 : k < L.geom.n_output := hk
    rw [List.range_succ, List.foldl_append]
    simp only [List.foldl_cons, List.foldl_nil]
    generalize (List.range k).foldl (forward_node INFTY input d) L = acc at ht hout hg hpar hin ⊢
    have hos : acc.output_size_ = L.output_size_ := congrArg Geom.output_size hg
    have hsc : acc.scale = L.scale := congrArg (fun p => p.1) hpar
    have hbi : acc.bias = L.bias := congrArg (fun p => p.2.1) hpar
    have hnode := forward_node_spec acc (by rw [hg]; exact hG) (by rw [hg]; exact ht)
      INFTY input d (by rw [hg]; exact hk2)
    rw [hg, hos, hsc, hbi] at hnode
    obtain ⟨n1, n2, n3, n4, n5⟩ := hnode
    refine ⟨?_, ?_, n3, n4.trans hpar, n5.trans hin⟩
    · apply n1.congr
      intro o2 m2 _ _
      by_cases e1 : o2 = k
      · subst e1
        simp
      · by_cases e2 : o2 < k
        · simp [e1, e2, Nat.lt_succ_of_lt e2]
        · have : ¬ o2 < k + 1 := by omega
          simp [e1, e2, this]
    · rw [n2, hout]
      simp only [Matrix.set, Matrix.mk.injEq, true_and]
      funext a b
      by_cases e1 : a = k
      · subst e1
        by_cases e3 : b = d
        · subst e3
          simp [Geom.out_value]
          rfl
        · simp [e3]
      · by_cases e2 : a < k
        · simp [e1, e2, Nat.lt_succ_of_lt e2]
        · have : ¬ a < k + 1 := by omega
          simp [e1, e2, this]

/-- The state `forward_propagation` leaves behind. -/
theorem forward_propagation_spec (L : MaxPoolingLayer) (hG : L.geom.Valid)
    {φ : Nat → Nat → Bool} (h : Tables L.geom φ L.edge_io L.edge_oi) (INFTY : ℚ)
    (input : Matrix) :
    Tables L.geom (L.geom.flags_after INFTY input φ input.cols)
        (forward_propagation INFTY L input).2.edge_io
        (forward_propagation INFTY L input).2.edge_oi
      ∧ (forward_propagation INFTY L input).2.output_ = ⟨L.geom.n_output, input.cols,
          fun a b => if a < L.geom.n_output ∧ b < input.cols then
            L.geom.out_value INFTY L.scale L.bias input a b else 0⟩
      ∧ (forward_propagation INFTY L input).1 = (forward_propagation INFTY L input).2.output_
      ∧ (forward_propagation INFTY L input).2.geom = L.geom
      ∧ (forward_propagation INFTY L input).2.params = L.params
      ∧ (forward_propagation INFTY L input).2.input_ = input := by
  unfold forward_propagation
  simp only []
  rw [h.2.1]
  generalize input.cols = n
  have key : ∀ k,
      Tables L.geom (L.geom.flags_after INFTY input φ k)
        ((List.range k).foldl (forward_sample INFTY input L.geom.n_output)
          { L with input_ := input, output_ := Matrix.Zero L.geom.n_output n }).edge_io
        ((List.range k).foldl (forward_sample INFTY input L.geom.n_output)
          { L with input_ := input, output_ := Matrix.Zero L.geom.n_output n }).edge_oi
      ∧ ((List.range k).foldl (forward_sample INFTY input L.geom.n_output)
          { L with input_ := input, output_ := Matrix.Zero L.geom.n_output n }).output_
        = ⟨L.geom.n_output, n, fun a b => if a < L.geom.n_output ∧ b < k then
            L.geom.out_value INFTY L.scale L.bias input a b else 0⟩
      ∧ ((List.range k).foldl (forward_sample INFTY input L.geom.n_output)
          { L with input_ := input, output_ := Matrix.Zero L.geom.n_output n }).geom = L.geom
      ∧ ((List.range k).foldl (forward_sample INFTY input L.geom.n_output)
          { L with input_ := input, output_ := Matrix.Zero L.geom.n_output n }).params
        = L.params
      ∧ ((List.range k).foldl (forward_sample INFTY input L.geom.n_output)
          { L with input_ := input, output_ := Matrix.Zero L.geom.n_output n }).input_
        = input := by
    intro k
    induction k with
    | zero =>
      refine ⟨?_, ?_, rfl, rfl, rfl⟩
      · simpa [Geom.flags_after] using h
      · simp [Matrix.Zero]
    | succ k ih =>
      obtain ⟨ht, hout, hg, hpar, hin⟩ := ih
      rw [List.range_succ, List.foldl_append]
      simp only [List.foldl_cons, List.foldl_nil]
      generalize (List.range k).foldl (forward_sample INFTY input L.geom.n_output)
        { L with input_ := input, output_ := Matrix.Zero L.geom.n_output n } = acc
        at ht hout hg hpar hin ⊢
      have hsc : acc.scale = L.scale := congrArg (fun p => p.1) hpar
      have hbi : acc.bias = L.bias := congrArg (fun p => p.2.1) hpar
      have hs := forward_sample_spec acc (by rw [hg]; exact hG) (by rw [hg]; exact ht)
        INFTY input k L.geom.n_output (by rw [hg])
      rw [hg, hsc, hbi, hout] at hs
      obtain ⟨s1, s2, s3, s4, s5⟩ := hs
      refine ⟨?_, ?_, s3, s4.trans hpar, s5.trans hin⟩
      · apply s1.congr
        intro o2 m2 ho2 _
        simp [Geom.flags_after, ho2]
      · rw [s2]
        simp only [Matrix.mk.injEq, true_and]
        funext a b
        by_cases e1 : a < L.geom.n_output
        · by_cases e2 : b = k
          · subst e2
            simp [e1]
          · by_cases e3 : b < k
            · simp [e1, e2, e3, Nat.lt_succ_of_lt e3]
            · have : ¬ b < k + 1 := by omega
              simp [e1, e2, e3, this]
        · simp [e1]
  obtain ⟨k1, k2, k3, k4, k5⟩ := key n
  exact ⟨k1, k2, trivial, k3, k4, k5⟩

/-! ## Back propagation: the error handed to the previous layer -/

/-- A loop over the positions of a vector is a fold over its elements. -/
theorem foldl_range_getD {σ α : Type} (f : σ → α → σ) (l : List α) (dflt : α) (s0 : σ) :
    (List.range l.length).foldl (fun s e => f s (l.getD e dflt)) s0 = l.foldl f s0 := by
  induction l using List.reverseRecOn with
  | nil => simp
  | append_singleton l a ih =>
    rw [List.length_append, List.length_singleton, List.range_succ, List.foldl_append,
      List.foldl_append]
    simp only [List.foldl_cons, List.foldl_nil]
    have h1 : (List.range l.length).foldl (fun s e => f s ((l ++ [a]).getD e dflt)) s0
        = (List.range l.length).foldl (fun s e => f s (l.getD e dflt)) s0 := by
      apply foldl_congr_mem
      intro s e he
      have he2 : e < l.length := List.mem_range.mp he
      simp [List.getD_eq_getElem?_getD, List.getElem?_append_left he2]
    rw [h1, ih]
    simp [List.getD_eq_getElem?_getD]

theorem Matrix.set_coeff_self (m : Matrix) (i j : Nat) : m.set i j (m.coeff i j) = m := by
  cases m with
  | mk r c f =>
    simp only [Matrix.set, Matrix.mk.injEq, true_and]
    funext a b
    by_cases h : a = i ∧ b = j
    · obtain ⟨h1, h2⟩ := h
      subst h1; subst h2; simp
    · simp [h]

theorem Matrix.set_set (m : Matrix) (i j : Nat) (x y : ℚ) :
    (m.set i j x).set i j y = m.set i j y := by
  simp only [Matrix.set, Matrix.mk.injEq, true_and]
  funext a b
  by_cases h : a = i ∧ b = j
  · simp [h]
  · simp [h]

theorem Matrix.coeff_set_self (m : Matrix) (i j : Nat) (x : ℚ) :
    (m.set i j x).coeff i j = x := by
  simp [Matrix.set]

/-- The loop over the edges of input node `i` adds the node's `edge_sum` to entry
`(i, d)` and touches no other entry. -/
theorem prev_error_edges (scale : List ℚ) (error : Matrix) (i d : Nat) (l : List Edge)
    (pe : Matrix) :
    l.foldl (fun pe edge =>
        if edge.active then
          pe.set i d (pe.coeff i d + scale.getD edge.featmap 0 * error.coeff edge.to_ d)
        else pe) pe
      = pe.set i d (l.foldl (fun acc edge =>
          if edge.active then acc + scale.getD edge.featmap 0 * error.coeff edge.to_ d
          else acc) (pe.coeff i d)) := by
  induction l generalizing pe with
  | nil => simp [Matrix.set_coeff_self]
  | cons a t ih =>
    simp only [List.foldl_cons]
    by_cases h : a.active = true
    · rw [if_pos h, if_pos h, ih, Matrix.set_set, Matrix.coeff_set_self]
    · rw [if_neg h, if_neg h, ih]

theorem foldl_add_init (scale : List ℚ) (error : Matrix) (d : Nat) (l : List Edge) (x : ℚ) :
    l.foldl (fun acc edge =>
        if edge.active then acc + scale.getD edge.featmap 0 * error.coeff edge.to_ d
        else acc) x
      = x + edge_sum scale error d l := by
  unfold edge_sum
  induction l generalizing x with
  | nil => simp
  | cons a t ih =>
    simp only [List.foldl_cons]
    by_cases h : a.active = true
    · rw [if_pos h, if_pos h, ih, ih (0 + _)]
      ring
    · rw [if_neg h, if_neg h, ih]

/-- The first loop nest of `back_propagation`: entry `(i, d)` of the result is the
`edge_sum` of input node `i` for sample `d`. -/
theorem prev_error_loop_spec (L : MaxPoolingLayer) (error : Matrix) (n_data n_input : Nat) :
    prev_error_loop L error n_data n_input = ⟨n_input, n_data,
      fun a b => if a < n_input ∧ b < n_data then
        edge_sum L.scale error b (L.edge_io.getD a []) else 0⟩ := by
  unfold prev_error_loop
  have inner : ∀ (pe : Matrix) (d i : Nat),
      (List.range (L.edge_io.getD i []).length).foldl (fun pe e =>
        let edge := (L.edge_io.getD i []).getD e default
        if edge.active then
          pe.set i d (pe.coeff i d + L.scale.getD edge.featmap 0 * error.coeff edge.to_ d)
        else pe) pe
      = pe.set i d (pe.coeff i d + edge_sum L.scale error d (L.edge_io.getD i [])) := by
    intro pe d i
    rw [← foldl_add_init]
    rw [← prev_error_edges]
    exact foldl_range_getD (fun pe edge =>
        if edge.active then
          pe.set i d (pe.coeff i d + L.scale.getD edge.featmap 0 * error.coeff edge.to_ d)
        else pe) (L.edge_io.getD i []) default pe
  simp only [inner]
  have mid : ∀ (pe : Matrix) (d k : Nat), (∀ a, pe.coeff a d = 0) →
      (List.range k).foldl (fun pe i =>
        pe.set i d (pe.coeff i d + edge_sum L.scale error d (L.edge_io.getD i []))) pe
      = ⟨pe.rows, pe.cols, fun a b => if a < k ∧ b = d then
          edge_sum L.scale error d (L.edge_io.getD a []) else pe.coeff a b⟩ := by
    intro pe d k hz
    induction k with
    | zero => simp
    | succ k ih =>
      rw [List.range_succ, List.foldl_append, ih]
      simp only [List.foldl_cons, List.foldl_nil, Matrix.set, Matrix.mk.injEq, true_and]
      funext a b
      by_cases e1 : a = k
      · subst e1
        by_cases e2 : b = d
        · subst e2
          simp [hz]
        · simp [e2]
      · by_cases e2 : a < k
        · simp [e1, e2, Nat.lt_succ_of_lt e2]
        · have : ¬ a < k + 1 := by omega
          simp [e1, e2, this]
  have outer : ∀ k,
      (List.range k).foldl (fun pe d =>
        (List.range n_input).foldl (fun pe i =>
          pe.set i d (pe.coeff i d + edge_sum L.scale error d (L.edge_io.getD i []))) pe)
        (Matrix.Zero n_input n_data)
      = ⟨n_input, n_data, fun a b => if a < n_input ∧ b < k then
          edge_sum L.scale error b (L.edge_io.getD a []) else 0⟩ := by
    intro k
    induction k with
    | zero => simp [Matrix.Zero]
    | succ k ih =>
      rw [List.range_succ, List.foldl_append, ih]
      simp only [List.foldl_cons, List.foldl_nil]
      rw [mid]
      · simp only [Matrix.mk.injEq, true_and]
        funext a b
        by_cases e1 : a < n_input
        · by_cases e2 : b = k
          · subst e2
            simp [e1]
          · by_cases e3 : b < k
            · simp [e1, e2, e3, Nat.lt_succ_of_lt e3]
            · have : ¬ b < k + 1 := by omega
              simp [e1, e2, e3, this]
        · simp [e1]
      · intro a
        simp
  exact outer n_data

/-! ## Back propagation: the parameter update and the frame -/

/-- The momentum update changes neither the tables, the geometry, the cache nor the
lengths of the parameter vectors. -/
theorem update_params_frame (L : MaxPoolingLayer) (eta momentum : ℚ) (g : List ℚ × List ℚ) :
    (update_params L eta momentum g).edge_io = L.edge_io
      ∧ (update_params L eta momentum g).edge_oi = L.edge_oi
      ∧ (update_params L eta momentum g).geom = L.geom
      ∧ (update_params L eta momentum g).cache = L.cache
      ∧ (update_params L eta momentum g).scale.length = L.scale.length
      ∧ (update_params L eta momentum g).bias.length = L.bias.length
      ∧ (update_params L eta momentum g).dscale.length = L.dscale.length
      ∧ (update_params L eta momentum g).dbias.length = L.dbias.length := by
  unfold update_params
  refine foldl_range_inv (fun _ acc =>
      acc.edge_io = L.edge_io ∧ acc.edge_oi = L.edge_oi ∧ acc.geom = L.geom
        ∧ acc.cache = L.cache ∧ acc.scale.length = L.scale.length
        ∧ acc.bias.length = L.bias.length ∧ acc.dscale.length = L.dscale.length
        ∧ acc.dbias.length = L.dbias.length) _ L _ ⟨rfl, rfl, rfl, rfl, rfl, rfl, rfl, rfl⟩ ?_
  intro k _ acc ⟨h1, h2, h3, h4, h5, h6, h7, h8⟩
  refine ⟨h1, h2, h3, h4, ?_, ?_, ?_, ?_⟩
  · simpa using h5
  · simpa using h6
  · simpa using h7
  · simpa using h8

/-- The momentum update, per feature map: the recurrence of the last loop of
`back_propagation`. -/
theorem update_params_values (L : MaxPoolingLayer) (eta momentum : ℚ) (g : List ℚ × List ℚ)
    (hs : L.scale.length = L.n_featmap_) (hb : L.bias.length = L.n_featmap_)
    (hds : L.dscale.length = L.n_featmap_) (hdb : L.dbias.length = L.n_featmap_)
    (i : Nat) (hi : i < L.n_featmap_) :
    (update_params L eta momentum g).dscale.getD i 0
        = momentum * L.dscale.getD i 0 + eta * g.1.getD i 0
      ∧ (update_params L eta momentum g).dbias.getD i 0
        = momentum * L.dbias.getD i 0 + eta * g.2.getD i 0
      ∧ (update_params L eta momentum g).scale.getD i 0
        = L.scale.getD i 0 + (momentum * L.dscale.getD i 0 + eta * g.1.getD i 0)
      ∧ (update_params L eta momentum g).bias.getD i 0
        = L.bias.getD i 0 + (momentum * L.dbias.getD i 0 + eta * g.2.getD i 0) := by
  unfold update_params
  have key := foldl_range_inv (fun k acc =>
      (acc.scale.length = L.n_featmap_ ∧ acc.bias.length = L.n_featmap_
        ∧ acc.dscale.length = L.n_featmap_ ∧ acc.dbias.length = L.n_featmap_)
      ∧ acc.dscale.getD i 0
          = (if i < k then momentum * L.dscale.getD i 0 + eta * g.1.getD i 0
              else L.dscale.getD i 0)
      ∧ acc.dbias.getD i 0
          = (if i < k then momentum * L.dbias.getD i 0 + eta * g.2.getD i 0
              else L.dbias.getD i 0)
      ∧ acc.scale.getD i 0
          = (if i < k then L.scale.getD i 0 + (momentum * L.dscale.getD i 0 + eta * g.1.getD i 0)
              else L.scale.getD i 0)
      ∧ acc.bias.getD i 0
          = (if i < k then L.bias.getD i 0 + (momentum * L.dbias.getD i 0 + eta * g.2.getD i 0)
              else L.bias.getD i 0))
    (fun acc i =>
      let dscale := acc.dscale.set i (momentum * acc.dscale.getD i 0 + eta * g.1.getD i 0)
      let dbias := acc.dbias.set i (momentum * acc.dbias.getD i 0 + eta * g.2.getD i 0)
      { acc with
        dscale := dscale
        dbias := dbias
        scale := acc.scale.set i (acc.scale.getD i 0 + dscale.getD i 0)
        bias := acc.bias.set i (acc.bias.getD i 0 + dbias.getD i 0) })
    L L.n_featmap_ ?_ ?_
  · obtain ⟨_, k1, k2, k3, k4⟩ := key
    simp only [if_pos hi] at k1 k2 k3 k4
    exact ⟨k1, k2, k3, k4⟩
  · exact ⟨⟨hs, hb, hds, hdb⟩, by simp, by simp, by simp, by simp⟩
  · intro k hk acc ⟨⟨l1, l2, l3, l4⟩, v1, v2, v3, v4⟩
    refine ⟨⟨by simpa using l1, by simpa using l2, by simpa using l3, by simpa using l4⟩, ?_⟩
    by_cases e : k = i
    · subst e
      simp only [Nat.lt_irrefl, if_false] at v1 v2 v3 v4
      simp only [Nat.lt_succ_self, if_true]
      rw [getD_set_self _ _ _ _ (by rw [l3]; exact hi),
        getD_set_self _ _ _ _ (by rw [l4]; exact hi),
        getD_set_self _ _ _ _ (by rw [l1]; exact hi),
        getD_set_self _ _ _ _ (by rw [l2]; exact hi), v1, v2, v3, v4]
      exact ⟨rfl, rfl, rfl, rfl⟩
    · simp only []
      rw [getD_set_ne _ _ _ _ _ e, getD_set_ne _ _ _ _ _ e, getD_set_ne _ _ _ _ _ e,
        getD_set_ne _ _ _ _ _ e, v1, v2, v3, v4]
      by_cases e2 : i < k
      · simp [e2, Nat.lt_succ_of_lt e2]
      · have : ¬ i < k + 1 := by omega
        simp [e2, this]

theorem back_propagation_snd (L : MaxPoolingLayer) (error : Matrix) (eta momentum : ℚ) :
    (back_propagation L error eta momentum).2
      = update_params L eta momentum
          (gradient_loop L error error.cols (L.input_size_.total * L.n_featmap_)) := rfl

theorem back_propagation_fst (L : MaxPoolingLayer) (error : Matrix) (eta momentum : ℚ) :
    (back_propagation L error eta momentum).1
      = prev_error_loop L error error.cols (L.input_size_.total * L.n_featmap_) := rfl

/-! ## The invariant of reachable layers -/

theorem Inv.forward {L : MaxPoolingLayer} {φ : Nat → Nat → Bool} (h : Inv L φ) (INFTY : ℚ)
    (input : Matrix) :
    Inv (forward_propagation INFTY L input).2 (L.geom.flags_after INFTY input φ input.cols) := by
  obtain ⟨hG, ht, l1, l2, l3, l4⟩ := h
  obtain ⟨f1, _, _, f4, f5, _⟩ := forward_propagation_spec L hG ht INFTY input
  simp only [MaxPoolingLayer.params, Prod.mk.injEq] at f5
  obtain ⟨p1, p2, p3, p4⟩ := f5
  have hn : (forward_propagation INFTY L input).2.n_featmap_ = L.n_featmap_ :=
    congrArg Geom.n_featmap f4
  refine ⟨by rw [f4]; exact hG, by rw [f4]; exact f1, ?_, ?_, ?_, ?_⟩
  · rw [p1, hn]; exact l1
  · rw [p2, hn]; exact l2
  · rw [p3, hn]; exact l3
  · rw [p4, hn]; exact l4

theorem Inv.backward {L : MaxPoolingLayer} {φ : Nat → Nat → Bool} (h : Inv L φ)
    (error : Matrix) (eta momentum : ℚ) :
    Inv (back_propagation L error eta momentum).2 φ := by
  obtain ⟨hG, ht, l1, l2, l3, l4⟩ := h
  rw [back_propagation_snd]
  obtain ⟨u1, u2, u3, _, u5, u6, u7, u8⟩ := update_params_frame L eta momentum
    (gradient_loop L error error.cols (L.input_size_.total * L.n_featmap_))
  have hn : (update_params L eta momentum
      (gradient_loop L error error.cols (L.input_size_.total * L.n_featmap_))).n_featmap_
      = L.n_featmap_ := congrArg Geom.n_featmap u3
  refine ⟨by rw [u3]; exact hG, by rw [u3, u1, u2]; exact ht, ?_, ?_, ?_, ?_⟩
  · rw [u5, hn]; exact l1
  · rw [u6, hn]; exact l2
  · rw [u7, hn]; exact l3
  · rw [u8, hn]; exact l4

theorem Inv.construct {input_size pool_size : Size} {n_featmap : Nat} {L : MaxPoolingLayer}
    (hpr : 0 < pool_size.rows) (hpc : 0 < pool_size.cols)
    (h : MaxPoolingLayer.new input_size pool_size n_featmap = Except.ok L) :
    Inv L (fun _ _ => false) := by
  obtain ⟨s1, s2, s3, s4, _⟩ := new_spec input_size pool_size n_featmap L hpr hpc h
  have hn : L.n_featmap_ = n_featmap := congrArg Geom.n_featmap s1
  simp only [MaxPoolingLayer.params, Prod.mk.injEq] at s4
  obtain ⟨p1, p2, p3, p4⟩ := s4
  refine ⟨s2, s3, ?_, ?_, ?_, ?_⟩
  · rw [p1, hn]; simp
  · rw [p2, hn]; simp
  · rw [p3, hn]; simp
  · rw [p4, hn]; simp

/-- Every reachable layer satisfies the invariant for some assignment of winner flags. -/
theorem Reachable.inv {L : MaxPoolingLayer} (h : Reachable L) : ∃ φ, Inv L φ := by
  induction h with
  | construct input_size pool_size n_featmap L hpr hpc hnew =>
    exact ⟨_, Inv.construct hpr hpc hnew⟩
  | forward L INFTY input _ ih =>
    obtain ⟨φ, hφ⟩ := ih
    exact ⟨_, hφ.forward INFTY input⟩
  | backward L error eta momentum _ ih =>
    obtain ⟨φ, hφ⟩ := ih
    exact ⟨φ, hφ.backward error eta momentum⟩

/-! ## The selected edge holds the first maximum of its window -/

/-- Entry `(o, d)` of the matrix returned by `forward_propagation`. -/
theorem forward_output_coeff (L : MaxPoolingLayer) {φ : Nat → Nat → Bool} (h : Inv L φ)
    (INFTY : ℚ) (input : Matrix) {o d : Nat} (ho : o < L.geom.n_output) (hd : d < input.cols) :
    (forward_propagation INFTY L input).1.coeff o d
      = L.geom.out_value INFTY L.scale L.bias input o d := by
  obtain ⟨_, f2, f3, _⟩ := forward_propagation_spec L h.1 h.2.1 INFTY input
  rw [f3, f2]
  simp [ho, hd]

/-! ## Where back propagation sends the error -/

/-- The error that `back_propagation` hands to the input at window cell `(o, m)`: the
scaled upstream error of `o` when the edge's winner flag is set, and zero otherwise. -/
theorem backward_prev_error_cell (L : MaxPoolingLayer) {φ : Nat → Nat → Bool} (h : Inv L φ)
    (error : Matrix) (eta momentum : ℚ) {o m d : Nat} (ho : o < L.geom.n_output)
    (hm : m < L.geom.window_size) (hd : d < error.cols) :
    (back_propagation L error eta momentum).1.coeff (L.geom.window_input o m) d
      = if φ o m = true then L.scale.getD (o / L.output_size_.total) 0 * error.coeff o d
        else 0 := by
  obtain ⟨hG, ht, _⟩ := h
  have hlt : L.geom.window_input o m < L.input_size_.total * L.n_featmap_ :=
    L.geom.window_input_lt hG ho hm
  rw [back_propagation_fst, prev_error_loop_spec]
  simp only [hlt, hd, and_self, if_true]
  rw [ht.2.2.2 o m ho hm]
  by_cases hφ : φ o m = true
  · simp [edge_sum, Geom.io_edge, hφ]
    exact Or.inl rfl
  · simp [edge_sum, Geom.io_edge, hφ]

/-- After a forward pass over a batch with at least one sample, `back_propagation` sends
the error of every sample through the edge selected for the last sample of the batch. -/
theorem backward_after_forward_cell (L : MaxPoolingLayer) {φ : Nat → Nat → Bool}
    (h : Inv L φ) (INFTY : ℚ) (input error : Matrix) (eta momentum : ℚ) {o m d : Nat}
    (ho : o < L.geom.n_output) (hm : m < L.geom.window_size) (hd : d < error.cols)
    (hn : 0 < input.cols) :
    (back_propagation (forward_propagation INFTY L input).2 error eta momentum).1.coeff
        (L.geom.window_input o m) d
      = if m = L.geom.winner INFTY input o (input.cols - 1) then
          L.scale.getD (o / L.output_size_.total) 0 * error.coeff o d
        else 0 := by
  have hf := h.forward INFTY input
  obtain ⟨_, _, _, f4, f5, _⟩ := forward_propagation_spec L h.1 h.2.1 INFTY input
  have hos : (forward_propagation INFTY L input).2.output_size_ = L.output_size_ :=
    congrArg Geom.output_size f4
  have hsc : (forward_propagation INFTY L input).2.scale = L.scale :=
    congrArg (fun p => p.1) f5
  have key := backward_prev_error_cell (forward_propagation INFTY L input).2 hf error eta
    momentum (o := o) (m := m) (d := d) (by rw [f4]; exact ho) (by rw [f4]; exact hm) hd
  rw [f4, hos, hsc] at key
  rw [key]
  have hne : input.cols ≠ 0 := by omega
  simp [Geom.flags_after, hne]

/-- Every input node is a window cell: the cell `pos i` of the window of `owner i`. -/
theorem Geom.owner_pos_facts (G : Geom) (hG : G.Valid) {i : Nat} (hi : i < G.n_input) :
    G.owner i < G.n_output ∧ G.pos i < G.window_size
      ∧ G.window_input (G.owner i) (G.pos i) = i := by
  obtain ⟨hpr, hpc, hir, hic⟩ := hG
  unfold Geom.n_input at hi
  unfold Geom.n_output Geom.window_size Geom.window_input Geom.owner Geom.pos
  simp only [Size.total] at *
  rw [hir, hic] at hi ⊢
  generalize G.output_size.rows = orr at *
  generalize G.output_size.cols = oc at *
  generalize G.pool_size.rows = pr at *
  generalize G.pool_size.cols = pc at *
  generalize G.n_featmap = nf at *
  have hit : 0 < orr * pr * (oc * pc) := by
    rcases Nat.eq_zero_or_pos (orr * pr * (oc * pc)) with h0 | h0
    · rw [h0] at hi; simp at hi
    · exact h0
  have hf : i / (orr * pr * (oc * pc)) < nf := by
    apply Nat.div_lt_of_lt_mul; exact hi
  have hc : i % (orr * pr * (oc * pc)) < orr * pr * (oc * pc) := Nat.mod_lt _ hit
  have hy : i % (orr * pr * (oc * pc)) / (oc * pc) < orr * pr := div_lt_of_lt_mul_right hc
  have hicpos : 0 < oc * pc := pos_of_lt_mul_right hc
  have hx : i % (orr * pr * (oc * pc)) % (oc * pc) < oc * pc := Nat.mod_lt _ hicpos
  have e0 := unflat i (orr * pr * (oc * pc))
  have e1 := unflat (i % (orr * pr * (oc * pc))) (oc * pc)
  generalize i / (orr * pr * (oc * pc)) = f at *
  generalize i % (orr * pr * (oc * pc)) / (oc * pc) = y at *
  generalize i % (orr * pr * (oc * pc)) % (oc * pc) = x at *
  have hyo : y / pr < orr := div_lt_of_lt_mul_right hy
  have hdy : y % pr < pr := Nat.mod_lt _ hpr
  have hxo : x / pc < oc := div_lt_of_lt_mul_right hx
  have hdx : x % pc < pc := Nat.mod_lt _ hpc
  have e2 := unflat y pr
  have e3 := unflat x pc
  generalize y / pr = yo at *
  generalize y % pr = dy at *
  generalize x / pc = xo at *
  generalize x % pc = dx at *
  have hcell : yo * oc + xo < orr * oc := flat_lt hyo hxo
  refine ⟨?_, flat_lt hdy hdx, ?_⟩
  · rw [Nat.mul_comm _ nf]; exact flat_lt hf hcell
  · rw [flat_div hcell, flat_mod hcell, flat_div hxo, flat_mod hxo, flat_div hdx, flat_mod hdx,
      e2, e3, e1, e0]

/-- The single edge of an input node in the tables of a constructed layer. -/
theorem Tables.io_get {G : Geom} (hG : G.Valid) {φ : Nat → Nat → Bool}
    {io oi : List (List Edge)} (h : Tables G φ io oi) {i : Nat} (hi : i < G.n_input) :
    io.getD i [] = [G.io_edge φ (G.owner i) (G.pos i)] := by
  obtain ⟨h1, h2, h3⟩ := G.owner_pos_facts hG hi
  have := h.2.2.2 (G.owner i) (G.pos i) h1 h2
  rw [h3] at this
  exact this

/-! ## Flat indices in grid coordinates -/

/-- The window cell `(o, m)` of the output node at feature map `f`, row `yout`, column
`xout`, in coordinates. -/
theorem Geom.window_input_coords (G : Geom) (f yout xout m : Nat)
    (hyo : yout < G.output_size.rows) (hxo : xout < G.output_size.cols) :
    G.window_input (f * G.output_size.total + (yout * G.output_size.cols + xout)) m
        = f * G.input_size.total
          + ((yout * G.pool_size.rows + m / G.pool_size.cols) * G.input_size.cols
            + (xout * G.pool_size.cols + m % G.pool_size.cols))
      ∧ (f * G.output_size.total + (yout * G.output_size.cols + xout)) / G.output_size.total
        = f := by
  have hcell : yout * G.output_size.cols + xout < G.output_size.total := flat_lt hyo hxo
  unfold Geom.window_input
  rw [flat_div hcell, flat_mod hcell, flat_div hxo, flat_mod hxo]
  exact ⟨rfl, rfl⟩

/-- The window that owns the input node at feature map `f`, row `y`, column `x`, and the
node's offset in that window, in coordinates. -/
theorem Geom.owner_pos_coords (G : Geom) (f y x : Nat)
    (hy : y < G.input_size.rows) (hx : x < G.input_size.cols) :
    G.owner (f * G.input_size.total + (y * G.input_size.cols + x))
        = f * G.output_size.total
          + ((y / G.pool_size.rows) * G.output_size.cols + x / G.pool_size.cols)
      ∧ G.pos (f * G.input_size.total + (y * G.input_size.cols + x))
        = (y % G.pool_size.rows) * G.pool_size.cols + x % G.pool_size.cols := by
  have hcell : y * G.input_size.cols + x < G.input_size.total := flat_lt hy hx
  unfold Geom.owner Geom.pos
  rw [flat_div hcell, flat_mod hcell, flat_div hx, flat_mod hx]
  exact ⟨rfl, rfl⟩

theorem Geom.output_index_lt (G : Geom) {f yout xout : Nat} (hf : f < G.n_featmap)
    (hyo : yout < G.output_size.rows) (hxo : xout < G.output_size.cols) :
    f * G.output_size.total + (yout * G.output_size.cols + xout) < G.n_output := by
  unfold Geom.n_output
  rw [Nat.mul_comm _ G.n_featmap]
  exact flat_lt hf (flat_lt hyo hxo)

theorem Geom.input_index_lt (G : Geom) {f y x : Nat} (hf : f < G.n_featmap)
    (hy : y < G.input_size.rows) (hx : x < G.input_size.cols) :
    f * G.input_size.total + (y * G.input_size.cols + x) < G.n_input := by
  unfold Geom.n_input
  rw [Nat.mul_comm _ G.n_featmap]
  exact flat_lt hf (flat_lt hy hx)

/-- A window cell lies in the feature map of its output node. -/
theorem Geom.window_input_featmap (G : Geom) (hG : G.Valid) (f yout xout m : Nat)
    (hyo : yout < G.output_size.rows) (hxo : xout < G.output_size.cols)
    (hm : m < G.window_size) :
    f * G.input_size.total
        ≤ G.window_input (f * G.output_size.total + (yout * G.output_size.cols + xout)) m
      ∧ G.window_input (f * G.output_size.total + (yout * G.output_size.cols + xout)) m
        < (f + 1) * G.input_size.total := by
  obtain ⟨_, hpc, hir, hic⟩ := hG
  rw [(G.window_input_coords f yout xout m hyo hxo).1]
  have hdy : m / G.pool_size.cols < G.pool_size.rows := div_lt_of_lt_mul_right hm
  have hdx : m % G.pool_size.cols < G.pool_size.cols := Nat.mod_lt _ hpc
  have hy : yout * G.pool_size.rows + m / G.pool_size.cols < G.input_size.rows := by
    rw [hir]; exact flat_lt hyo hdy
  have hx : xout * G.pool_size.cols + m % G.pool_size.cols < G.input_size.cols := by
    rw [hic]; exact flat_lt hxo hdx
  have hcell : (yout * G.pool_size.rows + m / G.pool_size.cols) * G.input_size.cols
      + (xout * G.pool_size.cols + m % G.pool_size.cols) < G.input_size.total :=
    flat_lt hy hx
  refine ⟨Nat.le_add_right _ _, ?_⟩
  rw [Nat.succ_mul]
  omega

/-- The gradient accumulators read only the input-side table, the cached input, the
output size and the number of feature maps. -/
theorem gradient_loop_congr (L L2 : MaxPoolingLayer) (error : Matrix) (n_data n_input : Nat)
    (h1 : L2.edge_io = L.edge_io) (h2 : L2.input_ = L.input_)
    (h3 : L2.output_size_ = L.output_size_) (h4 : L2.n_featmap_ = L.n_featmap_) :
    gradient_loop L2 error n_data n_input = gradient_loop L error n_data n_input := by
  unfold gradient_loop
  rw [h1, h2, h3, h4]

/-- A `back_propagation` call leaves the gradient of a following call with the same
upstream error unchanged. -/
theorem gradient_loop_after_backward (L : MaxPoolingLayer) (error error2 : Matrix)
    (eta momentum : ℚ) :
    gradient_loop (back_propagation L error2 eta momentum).2 error error.cols
        ((back_propagation L error2 eta momentum).2.input_size_.total
          * (back_propagation L error2 eta momentum).2.n_featmap_)
      = gradient_loop L error error.cols (L.input_size_.total * L.n_featmap_) := by
  rw [back_propagation_snd]
  obtain ⟨u1, _, u3, u4, _⟩ := update_params_frame L eta momentum
    (gradient_loop L error2 error2.cols (L.input_size_.total * L.n_featmap_))
  have e1 := congrArg Geom.input_size u3
  have e2 := congrArg Geom.n_featmap u3
  have e3 := congrArg Geom.output_size u3
  have e4 := congrArg Prod.fst u4
  simp only [MaxPoolingLayer.geom, MaxPoolingLayer.cache] at e1 e2 e3 e4
  rw [e1, e2]
  exact gradient_loop_congr L _ error _ _ u1 e4 e3 e2

/-! ## Inputs at or below the start value of the scan -/

/-- When no input of the window exceeds `-INFTY`, the scan keeps position 0. -/
theorem Geom.winner_eq_zero_of_le (G : Geom) (INFTY : ℚ) (input : Matrix) (o d : Nat)
    (h : ∀ m, m < G.window_size → input.coeff (G.window_input o m) d ≤ -INFTY) :
    G.winner INFTY input o d = 0 := by
  unfold Geom.winner
  have key : ∀ k, k ≤ G.window_size →
      scan INFTY (fun e => input.coeff (G.window_input o e) d) k = (-INFTY, 0) := by
    intro k
    induction k with
    | zero => intro _; simp [scan]
    | succ k ih =>
      intro hk
      rw [scan_succ, ih (Nat.le_of_succ_le hk)]
      unfold scan_step
      rw [if_neg (not_lt.mpr (h k hk))]
  rw [key _ (Nat.le_refl _)]

/-! ## Frames of the two passes on arbitrary layers -/

/-- On any layer, `forward_propagation` leaves the four parameter vectors and the
geometry as they were. -/
theorem forward_propagation_params (K : MaxPoolingLayer) (INFTY : ℚ) (input : Matrix) :
    (forward_propagation INFTY K input).2.params = K.params
      ∧ (forward_propagation INFTY K input).2.geom = K.geom := by
  unfold forward_propagation
  simp only []
  refine foldl_range_inv (fun _ (acc : MaxPoolingLayer) => acc.params = K.params ∧ acc.geom = K.geom) _ _ _
    ⟨rfl, rfl⟩ ?_
  intro d _ acc hacc
  unfold forward_sample
  refine foldl_range_inv (fun _ (acc2 : MaxPoolingLayer) => acc2.params = K.params ∧ acc2.geom = K.geom) _ _ _
    hacc ?_
  intro o _ acc2 hacc2
  exact hacc2

/-! ## The topology of the tables does not depend on the winner flags -/

theorem getD_out_of_range {α : Type} (l : List α) (n : Nat) (d : α) (h : l.length ≤ n) :
    l.getD n d = d := by
  simp [List.getD_eq_getElem?_getD, List.getElem?_eq_none h]

/-- Two canonical tables over the same geometry hold, at every position, edges with the
same counterpart index, feature-map id and mirror index. -/
theorem Tables.same_topology {G : Geom} (hG : G.Valid) {φ ψ : Nat → Nat → Bool}
    {io oi io2 oi2 : List (List Edge)} (h1 : Tables G φ io oi) (h2 : Tables G ψ io2 oi2) :
    io.length = io2.length ∧ oi.length = oi2.length
    ∧ (∀ n, (io.getD n []).length = (io2.getD n []).length
        ∧ (oi.getD n []).length = (oi2.getD n []).length)
    ∧ (∀ n e, ((io.getD n []).getD e default).to_ = ((io2.getD n []).getD e default).to_
        ∧ ((io.getD n []).getD e default).featmap
          = ((io2.getD n []).getD e default).featmap
        ∧ ((io.getD n []).getD e default).rev = ((io2.getD n []).getD e default).rev
        ∧ ((oi.getD n []).getD e default).to_ = ((oi2.getD n []).getD e default).to_
        ∧ ((oi.getD n []).getD e default).featmap
          = ((oi2.getD n []).getD e default).featmap
        ∧ ((oi.getD n []).getD e default).rev = ((oi2.getD n []).getD e default).rev) := by
  have hio : ∀ n, (io.getD n []).length = (io2.getD n []).length
      ∧ ∀ e, ((io.getD n []).getD e default).to_ = ((io2.getD n []).getD e default).to_
        ∧ ((io.getD n []).getD e default).featmap
          = ((io2.getD n []).getD e default).featmap
        ∧ ((io.getD n []).getD e default).rev = ((io2.getD n []).getD e default).rev := by
    intro n
    by_cases hn : n < G.n_input
    · rw [h1.io_get hG hn, h2.io_get hG hn]
      refine ⟨rfl, ?_⟩
      intro e
      cases e with
      | zero => simp [Geom.io_edge]
      | succ e => simp
    · rw [getD_out_of_range io n [] (by rw [h1.1]; omega),
        getD_out_of_range io2 n [] (by rw [h2.1]; omega)]
      exact ⟨rfl, fun _ => ⟨rfl, rfl, rfl⟩⟩
  have hoi : ∀ n, (oi.getD n []).length = (oi2.getD n []).length
      ∧ ∀ e, ((oi.getD n []).getD e default).to_ = ((oi2.getD n []).getD e default).to_
        ∧ ((oi.getD n []).getD e default).featmap
          = ((oi2.getD n []).getD e default).featmap
        ∧ ((oi.getD n []).getD e default).rev = ((oi2.getD n []).getD e default).rev := by
    intro n
    by_cases hn : n < G.n_output
    · refine ⟨by rw [h1.oi_length hn, h2.oi_length hn], ?_⟩
      intro e
      by_cases he : e < G.window_size
      · rw [h1.oi_get hn he, h2.oi_get hn he]
        simp [Geom.oi_edge]
      · rw [getD_out_of_range _ e default (by rw [h1.oi_length hn]; omega),
          getD_out_of_range _ e default (by rw [h2.oi_length hn]; omega)]
        exact ⟨rfl, rfl, rfl⟩
    · rw [getD_out_of_range oi n [] (by rw [h1.2.1]; omega),
        getD_out_of_range oi2 n [] (by rw [h2.2.1]; omega)]
      exact ⟨rfl, fun _ => ⟨rfl, rfl, rfl⟩⟩
  refine ⟨by rw [h1.1, h2.1], by rw [h1.2.1, h2.2.1], fun n => ⟨(hio n).1, (hoi n).1⟩, ?_⟩
  intro n e
  obtain ⟨a1, a2, a3⟩ := (hio n).2 e
  obtain ⟨b1, b2, b3⟩ := (hoi n).2 e
  exact ⟨a1, a2, a3, b1, b2, b3⟩

/-- A layer that evolved from a constructed layer keeps its geometry and has canonical
tables over it. -/
theorem Evolves.keeps_inv {L0 L : MaxPoolingLayer} {φ0 : Nat → Nat → Bool} (h0 : Inv L0 φ0)
    (h : Evolves L0 L) : L.geom = L0.geom ∧ L.params.1.length = L0.params.1.length
      ∧ ∃ φ, Inv L φ := by
  induction h with
  | start => exact ⟨rfl, rfl, φ0, h0⟩
  | forward L INFTY input _ ih =>
    obtain ⟨hg, hp, φ, hφ⟩ := ih
    obtain ⟨fp, fg⟩ := forward_propagation_params L INFTY input
    exact ⟨fg.trans hg, by rw [fp]; exact hp, _, hφ.forward INFTY input⟩
  | backward L error eta momentum _ ih =>
    obtain ⟨hg, hp, φ, hφ⟩ := ih
    have hb := hφ.backward error eta momentum
    rw [back_propagation_snd] at hb ⊢
    obtain ⟨_, _, u3, _, u5, _⟩ := update_params_frame L eta momentum
      (gradient_loop L error error.cols (L.input_size_.total * L.n_featmap_))
    exact ⟨u3.trans hg, by
      show (update_params L eta momentum _).scale.length = _
      rw [u5]; exact hp, φ, hb⟩

/-- On any tables, the position that the scan over the candidates of output node `o`
selects is a valid position of the list, provided the list is not empty. -/
theorem forward_scan_index_lt (io oi : List (List Edge)) (INFTY : ℚ) (input : Matrix)
    (d o n : Nat) (hn : 0 < n) :
    ((List.range n).foldl (forward_scan input d o) ⟨io, oi, -INFTY, 0⟩).active_index < n := by
  have key := foldl_range_inv (fun (_ : Nat) (s : ScanState) => s.active_index < n)
    (forward_scan input d o) ⟨io, oi, -INFTY, 0⟩ n hn ?_
  · exact key
  · intro k hk s hs
    unfold forward_scan
    simp only []
    split
    · exact hk
    · exact hs

/-! ## Sums over input nodes, window by window -/

/-- A sum over all input nodes is the sum, over all output nodes, of the sums over the
cells of their windows: the windows partition the input nodes. -/
theorem Geom.sum_inputs_eq_sum_windows {M : Type} [AddCommMonoid M] (G : Geom)
    (hG : G.Valid) (F : Nat → M) :
    ∑ i ∈ Finset.range G.n_input, F i
      = ∑ o ∈ Finset.range G.n_output, ∑ m ∈ Finset.range G.window_size,
          F (G.window_input o m) := by
  rw [← Finset.sum_product']
  apply Finset.sum_nbij' (fun i => (G.owner i, G.pos i)) (fun p => G.window_input p.1 p.2)
  · intro i hi
    obtain ⟨h1, h2, _⟩ := G.owner_pos_facts hG (Finset.mem_range.mp hi)
    exact Finset.mem_product.mpr ⟨Finset.mem_range.mpr h1, Finset.mem_range.mpr h2⟩
  · intro p hp
    obtain ⟨h1, h2⟩ := Finset.mem_product.mp hp
    exact Finset.mem_range.mpr
      (G.window_input_lt hG (Finset.mem_range.mp h1) (Finset.mem_range.mp h2))
  · intro i hi
    exact (G.owner_pos_facts hG (Finset.mem_range.mp hi)).2.2
  · intro p hp
    obtain ⟨h1, h2⟩ := Finset.mem_product.mp hp
    obtain ⟨_, f2, f3⟩ := G.window_input_facts hG (Finset.mem_range.mp h1)
      (Finset.mem_range.mp h2)
    exact Prod.ext f2 f3
  · intro i hi
    simp only []
    rw [(G.owner_pos_facts hG (Finset.mem_range.mp hi)).2.2]

/-- The part of a sum over `b * n` flat indices that belongs to block `f`. -/
theorem sum_block {M : Type} [AddCommMonoid M] (b n f : Nat) (hf : f < n) (H : Nat → M) :
    ∑ k ∈ Finset.range (b * n), (if k / b = f then H k else 0)
      = ∑ c ∈ Finset.range b, H (f * b + c) := by
  rw [← Finset.sum_filter]
  apply Finset.sum_nbij' (fun k => k % b) (fun c => f * b + c)
  · intro k hk
    obtain ⟨h1, _⟩ := Finset.mem_filter.mp hk
    have hb : 0 < b := by
      rcases Nat.eq_zero_or_pos b with h0 | h0
      · subst h0; simp at h1
      · exact h0
    exact Finset.mem_range.mpr (Nat.mod_lt _ hb)
  · intro c hc
    have hc2 : c < b := Finset.mem_range.mp hc
    refine Finset.mem_filter.mpr ⟨Finset.mem_range.mpr ?_, flat_div hc2⟩
    rw [Nat.mul_comm b n]
    exact flat_lt hf hc2
  · intro k hk
    obtain ⟨_, h2⟩ := Finset.mem_filter.mp hk
    show f * b + k % b = k
    rw [← h2]
    exact unflat k b
  · intro c hc
    exact flat_mod (Finset.mem_range.mp hc)
  · intro k hk
    obtain ⟨_, h2⟩ := Finset.mem_filter.mp hk
    show H k = H (f * b + k % b)
    rw [← h2, unflat k b]

/-- A window cell lies in the feature map of its output node (flat form). -/
theorem Geom.window_input_div (G : Geom) (hG : G.Valid) {o m : Nat} (ho : o < G.n_output)
    (hm : m < G.window_size) :
    G.window_input o m / G.input_size.total = o / G.output_size.total := by
  have hot : 0 < G.output_size.total := by
    rcases Nat.eq_zero_or_pos G.output_size.total with h0 | h0
    · unfold Geom.n_output at ho; rw [h0] at ho; simp at ho
    · exact h0
  have hcell : o % G.output_size.total < G.output_size.total := Nat.mod_lt _ hot
  have hyo : o % G.output_size.total / G.output_size.cols < G.output_size.rows :=
    div_lt_of_lt_mul_right hcell
  have hxo : o % G.output_size.total % G.output_size.cols < G.output_size.cols :=
    Nat.mod_lt _ (pos_of_lt_mul_right hcell)
  have hb := G.window_input_featmap hG (o / G.output_size.total)
    (o % G.output_size.total / G.output_size.cols)
    (o % G.output_size.total % G.output_size.cols) m hyo hxo hm
  rw [unflat, unflat] at hb
  exact Nat.div_eq_of_lt_le hb.1 hb.2

/-! ## Back propagation: the gradient accumulators in closed form -/

theorem addAt_length (v : List ℚ) (k : Nat) (x : ℚ) : (addAt v k x).length = v.length := by
  simp [addAt]

theorem addAt_getD (v : List ℚ) (k f : Nat) (x : ℚ) (hf : f < v.length) :
    (addAt v k x).getD f 0 = v.getD f 0 + (if k = f then x else 0) := by
  unfold addAt
  by_cases h : k = f
  · subst h
    rw [getD_set_self _ _ _ _ hf]
    simp
  · rw [getD_set_ne _ _ _ _ _ h]
    simp [h]

/-- A loop that adds `a k` and `b k` at position `idx k` of two vectors whenever `c k`
holds: lengths are kept and position `f` receives the sum of the selected terms. -/
theorem accumulate_loop (c : Nat → Bool) (idx : Nat → Nat) (a b : Nat → ℚ) (n : Nat)
    (g0 : List ℚ × List ℚ) :
    ((List.range n).foldl (fun (g : List ℚ × List ℚ) k =>
        if c k = true then (addAt g.1 (idx k) (a k), addAt g.2 (idx k) (b k)) else g)
        g0).1.length = g0.1.length
    ∧ ((List.range n).foldl (fun (g : List ℚ × List ℚ) k =>
        if c k = true then (addAt g.1 (idx k) (a k), addAt g.2 (idx k) (b k)) else g)
        g0).2.length = g0.2.length
    ∧ (∀ f, f < g0.1.length →
        ((List.range n).foldl (fun (g : List ℚ × List ℚ) k =>
          if c k = true then (addAt g.1 (idx k) (a k), addAt g.2 (idx k) (b k)) else g)
          g0).1.getD f 0
        = g0.1.getD f 0
          + ∑ k ∈ Finset.range n, (if c k = true ∧ idx k = f then a k else 0))
    ∧ (∀ f, f < g0.2.length →
        ((List.range n).foldl (fun (g : List ℚ × List ℚ) k =>
          if c k = true then (addAt g.1 (idx k) (a k), addAt g.2 (idx k) (b k)) else g)
          g0).2.getD f 0
        = g0.2.getD f 0
          + ∑ k ∈ Finset.range n, (if c k = true ∧ idx k = f then b k else 0)) := by
  induction n with
  | zero => simp
  | succ n ih =>
    obtain ⟨l1, l2, v1, v2⟩ := ih
    rw [List.range_succ, List.foldl_append]
    simp only [List.foldl_cons, List.foldl_nil]
    generalize (List.range n).foldl (fun (g : List ℚ × List ℚ) k =>
        if c k = true then (addAt g.1 (idx k) (a k), addAt g.2 (idx k) (b k)) else g)
        g0 = r at l1 l2 v1 v2 ⊢
    by_cases hc : c n = true
    · rw [if_pos hc]
      refine ⟨by simp [addAt_length, l1], by simp [addAt_length, l2], ?_, ?_⟩
      · intro f hf
        simp only []
        rw [addAt_getD _ _ _ _ (by rw [l1]; exact hf), v1 f hf, Finset.sum_range_succ]
        simp [hc, add_assoc]
      · intro f hf
        simp only []
        rw [addAt_getD _ _ _ _ (by rw [l2]; exact hf), v2 f hf, Finset.sum_range_succ]
        simp [hc, add_assoc]
    · rw [if_neg hc]
      refine ⟨l1, l2, ?_, ?_⟩
      · intro f hf
        rw [v1 f hf, Finset.sum_range_succ]
        simp [hc]
      · intro f hf
        rw [v2 f hf, Finset.sum_range_succ]
        simp [hc]

/-- The accumulators `(current_dscale, current_dbias)` of `back_propagation` on a layer
with canonical tables and winner flags `φ`: feature map `f` receives, for every sample
and every flagged window cell of an output node of `f`, the term of the source. -/
theorem gradient_loop_spec (L : MaxPoolingLayer) {φ : Nat → Nat → Bool} (h : Inv L φ)
    (error : Matrix) (n_data f : Nat) (hf : f < L.n_featmap_) :
    (gradient_loop L error n_data (L.input_size_.total * L.n_featmap_)).1.getD f 0
      = ∑ d ∈ Finset.range n_data, ∑ o ∈ Finset.range L.geom.n_output,
          ∑ m ∈ Finset.range L.geom.window_size,
            (if φ o m = true ∧ o / L.output_size_.total = f then
              L.input_.coeff (L.geom.window_input o m) d * error.coeff o d
                / ((n_data * L.output_size_.total : Nat) : ℚ)
            else 0)
    ∧ (gradient_loop L error n_data (L.input_size_.total * L.n_featmap_)).2.getD f 0
      = ∑ d ∈ Finset.range n_data, ∑ o ∈ Finset.range L.geom.n_output,
          ∑ m ∈ Finset.range L.geom.window_size,
            (if φ o m = true ∧ o / L.output_size_.total = f then
              error.coeff o d / ((n_data * L.output_size_.total : Nat) : ℚ)
            else 0) := by
  obtain ⟨hG, ht, _⟩ := h
  unfold gradient_loop
  have inner : ∀ (g : List ℚ × List ℚ) (d i : Nat), i < L.geom.n_input →
      (List.range (L.edge_io.getD i []).length).foldl (fun (g : List ℚ × List ℚ) e =>
        let edge := (L.edge_io.getD i []).getD e default
        if edge.active then
          (addAt g.1 edge.featmap
              (L.input_.coeff i d * error.coeff edge.to_ d
                / ((n_data * L.output_size_.total : Nat) : ℚ)),
           addAt g.2 edge.featmap
              (error.coeff edge.to_ d / ((n_data * L.output_size_.total : Nat) : ℚ)))
        else g) g
      = if φ (L.geom.owner i) (L.geom.pos i) = true then
          (addAt g.1 (L.geom.owner i / L.output_size_.total)
              (L.input_.coeff i d * error.coeff (L.geom.owner i) d
                / ((n_data * L.output_size_.total : Nat) : ℚ)),
           addAt g.2 (L.geom.owner i / L.output_size_.total)
              (error.coeff (L.geom.owner i) d
                / ((n_data * L.output_size_.total : Nat) : ℚ)))
        else g := by
    intro g d i hi
    rw [ht.io_get hG hi]
    simp [Geom.io_edge]
    rfl
  have mid : ∀ (g : List ℚ × List ℚ) (d : Nat),
      (List.range (L.input_size_.total * L.n_featmap_)).foldl (fun (g : List ℚ × List ℚ) i =>
        (List.range (L.edge_io.getD i []).length).foldl (fun (g : List ℚ × List ℚ) e =>
          let edge := (L.edge_io.getD i []).getD e default
          if edge.active then
            (addAt g.1 edge.featmap
                (L.input_.coeff i d * error.coeff edge.to_ d
                  / ((n_data * L.output_size_.total : Nat) : ℚ)),
             addAt g.2 edge.featmap
                (error.coeff edge.to_ d / ((n_data * L.output_size_.total : Nat) : ℚ)))
          else g) g) g
      = (List.range L.geom.n_input).foldl (fun (g : List ℚ × List ℚ) i =>
          if φ (L.geom.owner i) (L.geom.pos i) = true then
            (addAt g.1 (L.geom.owner i / L.output_size_.total)
                (L.input_.coeff i d * error.coeff (L.geom.owner i) d
                  / ((n_data * L.output_size_.total : Nat) : ℚ)),
             addAt g.2 (L.geom.owner i / L.output_size_.total)
                (error.coeff (L.geom.owner i) d
                  / ((n_data * L.output_size_.total : Nat) : ℚ)))
          else g) g := by
    intro g d
    exact foldl_congr_mem _ _ _ _ (fun s x hx => inner s d x (List.mem_range.mp hx))
  simp only [mid]
  have reindex : ∀ (F : Nat → Nat → ℚ) (d : Nat),
      ∑ i ∈ Finset.range L.geom.n_input,
        (if φ (L.geom.owner i) (L.geom.pos i) = true ∧ L.geom.owner i / L.output_size_.total = f
          then F i (L.geom.owner i) else 0)
      = ∑ o ∈ Finset.range L.geom.n_output, ∑ m ∈ Finset.range L.geom.window_size,
        (if φ o m = true ∧ o / L.output_size_.total = f
          then F (L.geom.window_input o m) o else 0) := by
    intro F d
    rw [L.geom.sum_inputs_eq_sum_windows hG]
    apply Finset.sum_congr rfl
    intro o ho
    apply Finset.sum_congr rfl
    intro m hm
    obtain ⟨_, f2, f3⟩ := L.geom.window_input_facts hG (Finset.mem_range.mp ho)
      (Finset.mem_range.mp hm)
    rw [f2, f3]
  have outer : ∀ k,
      ((List.range k).foldl (fun (g : List ℚ × List ℚ) d =>
        (List.range L.geom.n_input).foldl (fun (g : List ℚ × List ℚ) i =>
          if φ (L.geom.owner i) (L.geom.pos i) = true then
            (addAt g.1 (L.geom.owner i / L.output_size_.total)
                (L.input_.coeff i d * error.coeff (L.geom.owner i) d
                  / ((n_data * L.output_size_.total : Nat) : ℚ)),
             addAt g.2 (L.geom.owner i / L.output_size_.total)
                (error.coeff (L.geom.owner i) d
                  / ((n_data * L.output_size_.total : Nat) : ℚ)))
          else g) g)
        (List.replicate L.n_featmap_ 0, List.replicate L.n_featmap_ 0)).1.length
          = L.n_featmap_
      ∧ ((List.range k).foldl (fun (g : List ℚ × List ℚ) d =>
        (List.range L.geom.n_input).foldl (fun (g : List ℚ × List ℚ) i =>
          if φ (L.geom.owner i) (L.geom.pos i) = true then
            (addAt g.1 (L.geom.owner i / L.output_size_.total)
                (L.input_.coeff i d * error.coeff (L.geom.owner i) d
                  / ((n_data * L.output_size_.total : Nat) : ℚ)),
             addAt g.2 (L.geom.owner i / L.output_size_.total)
                (error.coeff (L.geom.owner i) d
                  / ((n_data * L.output_size_.total : Nat) : ℚ)))
          else g) g)
        (List.replicate L.n_featmap_ 0, List.replicate L.n_featmap_ 0)).2.length
          = L.n_featmap_
      ∧ ((List.range k).foldl (fun (g : List ℚ × List ℚ) d =>
        (List.range L.geom.n_input).foldl (fun (g : List ℚ × List ℚ) i =>
          if φ (L.geom.owner i) (L.geom.pos i) = true then
            (addAt g.1 (L.geom.owner i / L.output_size_.total)
                (L.input_.coeff i d * error.coeff (L.geom.owner i) d
                  / ((n_data * L.output_size_.total : Nat) : ℚ)),
             addAt g.2 (L.geom.owner i / L.output_size_.total)
                (error.coeff (L.geom.owner i) d
                  / ((n_data * L.output_size_.total : Nat) : ℚ)))
          else g) g)
        (List.replicate L.n_featmap_ 0, List.replicate L.n_featmap_ 0)).1.getD f 0
        = ∑ d ∈ Finset.range k, ∑ o ∈ Finset.range L.geom.n_output,
          ∑ m ∈ Finset.range L.geom.window_size,
            (if φ o m = true ∧ o / L.output_size_.total = f then
              L.input_.coeff (L.geom.window_input o m) d * error.coeff o d
                / ((n_data * L.output_size_.total : Nat) : ℚ)
            else 0)
      ∧ ((List.range k).foldl (fun (g : List ℚ × List ℚ) d =>
        (List.range L.geom.n_input).foldl (fun (g : List ℚ × List ℚ) i =>
          if φ (L.geom.owner i) (L.geom.pos i) = true then
            (addAt g.1 (L.geom.owner i / L.output_size_.total)
                (L.input_.coeff i d * error.coeff (L.geom.owner i) d
                  / ((n_data * L.output_size_.total : Nat) : ℚ)),
             addAt g.2 (L.geom.owner i / L.output_size_.total)
                (error.coeff (L.geom.owner i) d
                  / ((n_data * L.output_size_.total : Nat) : ℚ)))
          else g) g)
        (List.replicate L.n_featmap_ 0, List.replicate L.n_featmap_ 0)).2.getD f 0
        = ∑ d ∈ Finset.range k, ∑ o ∈ Finset.range L.geom.n_output,
          ∑ m ∈ Finset.range L.geom.window_size,
            (if φ o m = true ∧ o / L.output_size_.total = f then
              error.coeff o d / ((n_data * L.output_size_.total : Nat) : ℚ)
            else 0) := by
    intro k
    induction k with
    | zero =>
      refine ⟨by simp, by simp, ?_, ?_⟩ <;> simp [List.getD_eq_getElem?_getD, hf]
    | succ k ih =>
      obtain ⟨l1, l2, v1, v2⟩ := ih
      rw [List.range_succ, List.foldl_append]
      simp only [List.foldl_cons, List.foldl_nil]
      generalize (List.range k).foldl (fun (g : List ℚ × List ℚ) d =>
        (List.range L.geom.n_input).foldl (fun (g : List ℚ × List ℚ) i =>
          if φ (L.geom.owner i) (L.geom.pos i) = true then
            (addAt g.1 (L.geom.owner i / L.output_size_.total)
                (L.input_.coeff i d * error.coeff (L.geom.owner i) d
                  / ((n_data * L.output_size_.total : Nat) : ℚ)),
             addAt g.2 (L.geom.owner i / L.output_size_.total)
                (error.coeff (L.geom.owner i) d
                  / ((n_data * L.output_size_.total : Nat) : ℚ)))
          else g) g)
        (List.replicate L.n_featmap_ 0, List.replicate L.n_featmap_ 0) = r at l1 l2 v1 v2 ⊢
      obtain ⟨a1, a2, a3, a4⟩ := accumulate_loop
        (fun i => φ (L.geom.owner i) (L.geom.pos i))
        (fun i => L.geom.owner i / L.output_size_.total)
        (fun i => L.input_.coeff i k * error.coeff (L.geom.owner i) k
                  / ((n_data * L.output_size_.total : Nat) : ℚ))
        (fun i => error.coeff (L.geom.owner i) k
                  / ((n_data * L.output_size_.total : Nat) : ℚ))
        L.geom.n_input r
      refine ⟨a1.trans l1, a2.trans l2, ?_, ?_⟩
      · rw [a3 f (by rw [l1]; exact hf), v1, Finset.sum_range_succ]
        congr 1
        exact reindex (fun i o => L.input_.coeff i k * error.coeff o k
                  / ((n_data * L.output_size_.total : Nat) : ℚ)) k
      · rw [a4 f (by rw [l2]; exact hf), v2, Finset.sum_range_succ]
        congr 1
        exact reindex (fun _ o => error.coeff o k
                  / ((n_data * L.output_size_.total : Nat) : ℚ)) k
  obtain ⟨_, _, o3, o4⟩ := outer n_data
  exact ⟨o3, o4⟩

/-- After `forward_propagation` over a batch with at least one sample, the accumulators
of a following `back_propagation`: the scale gradient of feature map `f` sums, over all
samples `d` and all output nodes `o` of `f`, the input of sample `d` at the cell selected
for `o` by the LAST sample of the batch times the upstream error; the bias gradient sums
the upstream error; both are divided by `n_data * output_size.total()`. -/
theorem gradient_after_forward (L : MaxPoolingLayer) {φ : Nat → Nat → Bool} (h : Inv L φ)
    (INFTY : ℚ) (input error : Matrix) (hn : 0 < input.cols) (f : Nat)
    (hf : f < L.n_featmap_) :
    (gradient_loop (forward_propagation INFTY L input).2 error error.cols
        ((forward_propagation INFTY L input).2.input_size_.total
          * (forward_propagation INFTY L input).2.n_featmap_)).1.getD f 0
      = (∑ d ∈ Finset.range error.cols, ∑ c ∈ Finset.range L.output_size_.total,
          input.coeff (L.geom.window_input (f * L.output_size_.total + c)
              (L.geom.winner INFTY input (f * L.output_size_.total + c) (input.cols - 1))) d
            * error.coeff (f * L.output_size_.total + c) d)
        / ((error.cols * L.output_size_.total : Nat) : ℚ)
    ∧ (gradient_loop (forward_propagation INFTY L input).2 error error.cols
        ((forward_propagation INFTY L input).2.input_size_.total
          * (forward_propagation INFTY L input).2.n_featmap_)).2.getD f 0
      = (∑ d ∈ Finset.range error.cols, ∑ c ∈ Finset.range L.output_size_.total,
          error.coeff (f * L.output_size_.total + c) d)
        / ((error.cols * L.output_size_.total : Nat) : ℚ) := by
  have hf1 := h.forward INFTY input
  obtain ⟨_, _, _, f4, _, f6⟩ := forward_propagation_spec L h.1 h.2.1 INFTY input
  have hos : (forward_propagation INFTY L input).2.output_size_ = L.output_size_ :=
    congrArg Geom.output_size f4
  have hnf : (forward_propagation INFTY L input).2.n_featmap_ = L.n_featmap_ :=
    congrArg Geom.n_featmap f4
  obtain ⟨g1, g2⟩ := gradient_loop_spec (forward_propagation INFTY L input).2 hf1 error
    error.cols f (by rw [hnf]; exact hf)
  rw [g1, g2, f4, hos, f6]
  have hne : input.cols ≠ 0 := by omega
  have hG := h.1
  have collapse : ∀ (X : Nat → Nat → ℚ) (d : Nat),
      ∑ o ∈ Finset.range L.geom.n_output, ∑ m ∈ Finset.range L.geom.window_size,
        (if L.geom.flags_after INFTY input φ input.cols o m = true
            ∧ o / L.output_size_.total = f then X o m else 0)
      = ∑ c ∈ Finset.range L.output_size_.total,
          X (f * L.output_size_.total + c)
            (L.geom.winner INFTY input (f * L.output_size_.total + c) (input.cols - 1)) := by
    intro X d
    have hrow : ∀ o ∈ Finset.range L.geom.n_output,
        ∑ m ∈ Finset.range L.geom.window_size,
          (if L.geom.flags_after INFTY input φ input.cols o m = true
              ∧ o / L.output_size_.total = f then X o m else 0)
        = if o / L.output_size_.total = f then
            X o (L.geom.winner INFTY input o (input.cols - 1)) else 0 := by
      intro o _
      by_cases hof : o / L.output_size_.total = f
      · have hcell : ∀ m ∈ Finset.range L.geom.window_size,
            (if L.geom.flags_after INFTY input φ input.cols o m = true
                ∧ o / L.output_size_.total = f then X o m else 0)
            = if m = L.geom.winner INFTY input o (input.cols - 1) then X o m else 0 := by
          intro m _
          simp [Geom.flags_after, hne, hof]
        rw [Finset.sum_congr rfl hcell, Finset.sum_ite_eq', if_pos hof]
        simp [L.geom.winner_lt hG INFTY input o (input.cols - 1)]
      · simp [hof]
    rw [Finset.sum_congr rfl hrow]
    exact sum_block L.output_size_.total L.n_featmap_ f hf
      (fun o => X o (L.geom.winner INFTY input o (input.cols - 1)))
  constructor
  · rw [Finset.sum_div]
    apply Finset.sum_congr rfl
    intro d _
    rw [Finset.sum_div]
    exact collapse (fun o m => input.coeff (L.geom.window_input o m) d * error.coeff o d
      / ((error.cols * L.output_size_.total : Nat) : ℚ)) d
  · rw [Finset.sum_div]
    apply Finset.sum_congr rfl
    intro d _
    rw [Finset.sum_div]
    exact collapse (fun o _ => error.coeff o d
      / ((error.cols * L.output_size_.total : Nat) : ℚ)) d

/-! ## Back propagation before any forward pass -/

/-- With no winner flag set, `back_propagation` returns the zero matrix and leaves the
four parameter vectors at scale 1, bias 0 and zero momenta. -/
theorem backward_without_flags (L : MaxPoolingLayer) (h : Inv L (fun _ _ => false))
    (hp : L.params = (List.replicate L.n_featmap_ 1, List.replicate L.n_featmap_ 0,
      List.replicate L.n_featmap_ 0, List.replicate L.n_featmap_ 0))
    (error : Matrix) (eta momentum : ℚ) :
    (back_propagation L error eta momentum).1
        = Matrix.Zero (L.input_size_.total * L.n_featmap_) error.cols
      ∧ (back_propagation L error eta momentum).2.params = L.params := by
  obtain ⟨hG, ht, l1, l2, l3, l4⟩ := h
  simp only [MaxPoolingLayer.params, Prod.mk.injEq] at hp
  obtain ⟨p1, p2, p3, p4⟩ := hp
  constructor
  · rw [back_propagation_fst, prev_error_loop_spec]
    simp only [Matrix.Zero, Matrix.mk.injEq, true_and]
    funext a b
    by_cases hab : a < L.input_size_.total * L.n_featmap_ ∧ b < error.cols
    · rw [if_pos hab, ht.io_get hG hab.1]
      simp [edge_sum, Geom.io_edge]
    · rw [if_neg hab]
  · have hzero : ∀ f, f < L.n_featmap_ →
        (gradient_loop L error error.cols (L.input_size_.total * L.n_featmap_)).1.getD f 0 = 0
        ∧ (gradient_loop L error error.cols
            (L.input_size_.total * L.n_featmap_)).2.getD f 0 = 0 := by
      intro f hf
      obtain ⟨g1, g2⟩ := gradient_loop_spec L ⟨hG, ht, l1, l2, l3, l4⟩ error error.cols f hf
      rw [g1, g2]
      simp
    have hvals : ∀ f, f < L.n_featmap_ →
        (back_propagation L error eta momentum).2.dscale.getD f 0 = 0
        ∧ (back_propagation L error eta momentum).2.dbias.getD f 0 = 0
        ∧ (back_propagation L error eta momentum).2.scale.getD f 0 = 1
        ∧ (back_propagation L error eta momentum).2.bias.getD f 0 = 0 := by
      intro f hf
      obtain ⟨v1, v2, v3, v4⟩ := update_params_values L eta momentum
        (gradient_loop L error error.cols (L.input_size_.total * L.n_featmap_))
        l1 l2 l3 l4 f hf
      obtain ⟨z1, z2⟩ := hzero f hf
      rw [back_propagation_snd, v1, v2, v3, v4, z1, z2, p1, p2, p3, p4]
      simp [List.getD_eq_getElem?_getD, hf]
    obtain ⟨_, _, _, _, u5, u6, u7, u8⟩ := update_params_frame L eta momentum
      (gradient_loop L error error.cols (L.input_size_.total * L.n_featmap_))
    rw [← back_propagation_snd] at u5 u6 u7 u8
    simp only [MaxPoolingLayer.params, Prod.mk.injEq]
    refine ⟨?_, ?_, ?_, ?_⟩
    · rw [p1]
      exact eq_replicate_of_getD _ _ 1 0 (u5.trans l1) (fun i hi => (hvals i hi).2.2.1)
    · rw [p2]
      exact eq_replicate_of_getD _ _ 0 0 (u6.trans l2) (fun i hi => (hvals i hi).2.2.2)
    · rw [p3]
      exact eq_replicate_of_getD _ _ 0 0 (u7.trans l3) (fun i hi => (hvals i hi).1)
    · rw [p4]
      exact eq_replicate_of_getD _ _ 0 0 (u8.trans l4) (fun i hi => (hvals i hi).2.1)

/-- A layer that has seen no forward pass has no winner flag set and its initial
parameters. -/
theorem NoForwardYet.fresh_inv {L : MaxPoolingLayer} (h : NoForwardYet L) :
    Inv L (fun _ _ => false)
      ∧ L.params = (List.replicate L.n_featmap_ 1, List.replicate L.n_featmap_ 0,
          List.replicate L.n_featmap_ 0, List.replicate L.n_featmap_ 0) := by
  induction h with
  | construct input_size pool_size n_featmap L hpr hpc hnew =>
    obtain ⟨s1, _, _, s4, _⟩ := new_spec input_size pool_size n_featmap L hpr hpc hnew
    have hn : L.n_featmap_ = n_featmap := congrArg Geom.n_featmap s1
    rw [hn]
    exact ⟨Inv.construct hpr hpc hnew, s4⟩
  | backward L error eta momentum _ ih =>
    obtain ⟨hinv, hp⟩ := ih
    have hb := (backward_without_flags L hinv hp error eta momentum).2
    have hn : (back_propagation L error eta momentum).2.n_featmap_ = L.n_featmap_ := by
      rw [back_propagation_snd]
      exact congrArg Geom.n_featmap (update_params_frame L eta momentum _).2.2.1
    rw [hn]
    exact ⟨hinv.backward error eta momentum, hb.trans hp⟩

/-! ## Forward propagation reads only the rows of the input nodes -/

theorem scan_congr (INFTY : ℚ) (v v2 : Nat → ℚ) (n : Nat) (h : ∀ e, e < n → v e = v2 e) :
    scan INFTY v n = scan INFTY v2 n := by
  induction n with
  | zero => rfl
  | succ n ih =>
    rw [scan_succ, scan_succ, ih (fun e he => h e (Nat.lt_succ_of_lt he))]
    unfold scan_step
    rw [h n (Nat.lt_succ_self n)]

/-- Two inputs with the same columns that agree on the rows of the input nodes give the
same output. -/
theorem forward_output_congr (L : MaxPoolingLayer) {φ : Nat → Nat → Bool} (h : Inv L φ)
    (INFTY : ℚ) (input input2 : Matrix) (hcols : input2.cols = input.cols)
    (hagree : ∀ i d, i < L.input_size_.total * L.n_featmap_ →
      input2.coeff i d = input.coeff i d) (o d : Nat) :
    (forward_propagation INFTY L input2).1.coeff o d
      = (forward_propagation INFTY L input).1.coeff o d := by
  obtain ⟨hG, ht, _⟩ := h
  obtain ⟨_, a2, a3, _⟩ := forward_propagation_spec L hG ht INFTY input
  obtain ⟨_, b2, b3, _⟩ := forward_propagation_spec L hG ht INFTY input2
  rw [a3, a2, b3, b2, hcols]
  simp only []
  by_cases hod : o < L.geom.n_output ∧ d < input.cols
  · rw [if_pos hod, if_pos hod]
    have hw : L.geom.winner INFTY input2 o d = L.geom.winner INFTY input o d := by
      unfold Geom.winner
      rw [scan_congr INFTY _ (fun e => input.coeff (L.geom.window_input o e) d)]
      intro e he
      exact hagree _ d (L.geom.window_input_lt hG hod.1 he)
    unfold Geom.out_value
    rw [hw, hagree _ d (L.geom.window_input_lt hG hod.1 (L.geom.winner_lt hG _ _ _ _))]
  · rw [if_neg hod, if_neg hod]

/-! ## The start value of the scan -/

/-- C2 (the code at the failing input). One 1x2 window, two samples: sample 0 holds 5 at
input 0 (`A`) and 1 at input 1 (`B`), sample 1 holds 1 at `A` and 5 at `B`; the upstream
error is 7 for sample 0 and 11 for sample 1. After `forward_propagation` the winner flags
are those of sample 1 only, so `back_propagation` sends the error of sample 0 to `B`:
`prev_error(A, 0) = 0` and `prev_error(B, 0) = 7`, where batch isolation asks for 7 and 0. -/
theorem batch_isolation_fails_on_shared_flag :
    (back_propagation
        (forward_propagation (10 ^ 20) (MaxPoolingLayer.build ⟨1, 2⟩ ⟨1, 2⟩ 1)
          (Matrix.mk 2 2 (fun i d => if i = d then 5 else 1))).2
        (Matrix.mk 1 2 (fun _ d => if d = 0 then 7 else 11)) (1 / 10) (1 / 2)).1.coeff 0 0 = 0
    ∧ (back_propagation
        (forward_propagation (10 ^ 20) (MaxPoolingLayer.build ⟨1, 2⟩ ⟨1, 2⟩ 1)
          (Matrix.mk 2 2 (fun i d => if i = d then 5 else 1))).2
        (Matrix.mk 1 2 (fun _ d => if d = 0 then 7 else 11)) (1 / 10) (1 / 2)).1.coeff 1 0 = 7
    ∧ (back_propagation
        (forward_propagation (10 ^ 20) (MaxPoolingLayer.build ⟨1, 2⟩ ⟨1, 2⟩ 1)
          (Matrix.mk 2 2 (fun i d => if i = d then 5 else 1))).2
        (Matrix.mk 1 2 (fun _ d => if d = 0 then 7 else 11)) (1 / 10) (1 / 2)).1.coeff 1 1 = 11
    ∧ (back_propagation
        (forward_propagation (10 ^ 20) (MaxPoolingLayer.build ⟨1, 2⟩ ⟨1, 2⟩ 1)
          (Matrix.mk 2 2 (fun i d => if i = d then 5 else 1))).2
        (Matrix.mk 1 2 (fun _ d => if d = 0 then 7 else 11)) (1 / 10) (1 / 2)).1.coeff 0 1 = 0
    ∧ (forward_propagation (10 ^ 20) (MaxPoolingLayer.build ⟨1, 2⟩ ⟨1, 2⟩ 1)
          (Matrix.mk 2 2 (fun i d => if i = d then 5 else 1))).2.scale = [1]
    ∧ (forward_propagation (10 ^ 20) (MaxPoolingLayer.build ⟨1, 2⟩ ⟨1, 2⟩ 1)
          (Matrix.mk 2 2 (fun i d => if i = d then 5 else 1))).2.edge_io
        = [[⟨0, 0, 0, false⟩], [⟨0, 0, 1, true⟩]] := by
  decide!

/-- C4. For positive pool dimensions, construction fails, with the message of the
assertion and without returning a layer, exactly when `input_size.rows` is not divisible
by `pool_size.rows` or `input_size.cols` is not divisible by `pool_size.cols` (positive
pool dimensions are the domain on which `%` is defined in the source); the assertion is
the first step, so the failure does not depend on the rest of the
constructor (`k` below), and a construction that does not fail returns
`MaxPoolingLayer.build`. -/
theorem construction_fails_iff_incompatible (input_size pool_size : Size) (n_featmap : Nat)
    (_hpr : 0 < pool_size.rows) (_hpc : 0 < pool_size.cols) :
    ((MaxPoolingLayer.new input_size pool_size n_featmap
          = Except.error "input size and pool size are not compatible!!")
        ↔ (¬ pool_size.rows ∣ input_size.rows ∨ ¬ pool_size.cols ∣ input_size.cols))
    ∧ ((¬ pool_size.rows ∣ input_size.rows ∨ ¬ pool_size.cols ∣ input_size.cols) →
        ∀ k : Unit → Except String MaxPoolingLayer,
          (Assertion (input_size.rows % pool_size.rows == 0
              && input_size.cols % pool_size.cols == 0)
            "input size and pool size are not compatible!!").bind k
          = Except.error "input size and pool size are not compatible!!")
    ∧ ((pool_size.rows ∣ input_size.rows ∧ pool_size.cols ∣ input_size.cols) →
        MaxPoolingLayer.new input_size pool_size n_featmap
          = Except.ok (MaxPoolingLayer.build input_size pool_size n_featmap)) := by
  have hcond : (input_size.rows % pool_size.rows == 0
      && input_size.cols % pool_size.cols == 0) = true
      ↔ (pool_size.rows ∣ input_size.rows ∧ pool_size.cols ∣ input_size.cols) := by
    simp only [Bool.and_eq_true, beq_iff_eq, Nat.dvd_iff_mod_eq_zero]
  refine ⟨?_, ?_, ?_⟩
  · unfold MaxPoolingLayer.new Assertion
    by_cases hc : (input_size.rows % pool_size.rows == 0
        && input_size.cols % pool_size.cols == 0) = true
    · rw [if_pos hc]
      have hd := hcond.mp hc
      simp only [Except.bind]
      constructor
      · intro h; cases h
      · intro h
        rcases h with h | h
        · exact absurd hd.1 h
        · exact absurd hd.2 h
    · rw [if_neg hc]
      simp only [Except.bind, true_iff]
      by_contra hn
      push_neg at hn
      exact hc (hcond.mpr hn)
  · intro h k
    have hc : ¬ (input_size.rows % pool_size.rows == 0
        && input_size.cols % pool_size.cols == 0) = true := by
      intro hc
      have hd := hcond.mp hc
      rcases h with h | h
      · exact h hd.1
      · exact h hd.2
    unfold Assertion
    rw [if_neg hc]
    rfl
  · intro h
    unfold MaxPoolingLayer.new Assertion
    rw [if_pos (hcond.mpr h)]
    rfl

/-- Witness for C4: a 5x5 input with a 2x2 pool is rejected, a 4x4 input with a 2x2 pool
is accepted. -/
theorem construction_fails_iff_incompatible_witness :
    MaxPoolingLayer.new ⟨5, 5⟩ ⟨2, 2⟩ 1
        = Except.error "input size and pool size are not compatible!!"
    ∧ MaxPoolingLayer.new ⟨4, 4⟩ ⟨2, 2⟩ 1
        = Except.ok (MaxPoolingLayer.build ⟨4, 4⟩ ⟨2, 2⟩ 1) :=
  ⟨(construction_fails_iff_incompatible ⟨5, 5⟩ ⟨2, 2⟩ 1 (by decide) (by decide)).1.mpr
      (Or.inl (by decide)),
    (construction_fails_iff_incompatible ⟨4, 4⟩ ⟨2, 2⟩ 1 (by decide) (by decide)).2.2
      ⟨by decide, by decide⟩⟩

/-- C5. Mirror invariant: in every reachable layer (constructed, then any sequence of
`forward_propagation` and `back_propagation` calls), every edge `edge_oi[o][e]`, pointing
to input `i` with mirror index `r` and feature map `f`, has `i` and `r` in range and
`edge_io[i][r]` points to `o` with mirror index `e` and feature map `f`; and every edge
`edge_io[i][r]` has its counterpart in range and that counterpart points back to `i` with
mirror index `r` and the same feature map. -/
theorem mirror_invariant (L : MaxPoolingLayer) (hL : Reachable L) :
    (∀ o e, o < L.edge_oi.length → e < (L.edge_oi.getD o []).length →
      ((L.edge_oi.getD o []).getD e default).to_ < L.edge_io.length
      ∧ ((L.edge_oi.getD o []).getD e default).rev
          < (L.edge_io.getD ((L.edge_oi.getD o []).getD e default).to_ []).length
      ∧ ((L.edge_io.getD ((L.edge_oi.getD o []).getD e default).to_ []).getD
          ((L.edge_oi.getD o []).getD e default).rev default).to_ = o
      ∧ ((L.edge_io.getD ((L.edge_oi.getD o []).getD e default).to_ []).getD
          ((L.edge_oi.getD o []).getD e default).rev default).rev = e
      ∧ ((L.edge_io.getD ((L.edge_oi.getD o []).getD e default).to_ []).getD
          ((L.edge_oi.getD o []).getD e default).rev default).featmap
        = ((L.edge_oi.getD o []).getD e default).featmap)
    ∧ (∀ i r, i < L.edge_io.length → r < (L.edge_io.getD i []).length →
      ((L.edge_io.getD i []).getD r default).to_ < L.edge_oi.length
      ∧ ((L.edge_io.getD i []).getD r default).rev
          < (L.edge_oi.getD ((L.edge_io.getD i []).getD r default).to_ []).length
      ∧ ((L.edge_oi.getD ((L.edge_io.getD i []).getD r default).to_ []).getD
          ((L.edge_io.getD i []).getD r default).rev default).to_ = i
      ∧ ((L.edge_oi.getD ((L.edge_io.getD i []).getD r default).to_ []).getD
          ((L.edge_io.getD i []).getD r default).rev default).rev = r
      ∧ ((L.edge_oi.getD ((L.edge_io.getD i []).getD r default).to_ []).getD
          ((L.edge_io.getD i []).getD r default).rev default).featmap
        = ((L.edge_io.getD i []).getD r default).featmap) := by
  obtain ⟨φ, hG, ht, _⟩ := hL.inv
  refine ⟨?_, ?_⟩
  · intro o e ho he
    rw [ht.2.1] at ho
    rw [ht.oi_length ho] at he
    rw [ht.oi_get ho he]
    simp only [Geom.oi_edge]
    rw [ht.2.2.2 o e ho he, ht.1]
    refine ⟨L.geom.window_input_lt hG ho he, by simp, ?_, ?_, ?_⟩ <;> simp [Geom.io_edge]
  · intro i r hi hr
    rw [ht.1] at hi
    obtain ⟨h1, h2, h3⟩ := L.geom.owner_pos_facts hG hi
    rw [ht.io_get hG hi] at hr ⊢
    have hr0 : r = 0 := by simpa using hr
    subst hr0
    simp only [List.getD_cons_zero, Geom.io_edge]
    rw [ht.2.1, ht.oi_length h1, ht.oi_get h1 h2]
    refine ⟨h1, h2, ?_, ?_, ?_⟩ <;> simp [Geom.oi_edge, h3]

/-- Witness for C5: two feature maps, 2x4 inputs, 1x2 windows, after one forward pass;
the edge at position 1 of output node 3 points to input 7, whose edge points back to
output node 3 with mirror index 1. -/
theorem mirror_invariant_witness :
    (((forward_propagation 1 (MaxPoolingLayer.build ⟨2, 4⟩ ⟨1, 2⟩ 2)
        (Matrix.Zero 16 1)).2.edge_oi.getD 3 []).getD 1 default).to_ = 7
    ∧ (((forward_propagation 1 (MaxPoolingLayer.build ⟨2, 4⟩ ⟨1, 2⟩ 2)
        (Matrix.Zero 16 1)).2.edge_io.getD
          (((forward_propagation 1 (MaxPoolingLayer.build ⟨2, 4⟩ ⟨1, 2⟩ 2)
            (Matrix.Zero 16 1)).2.edge_oi.getD 3 []).getD 1 default).to_ []).getD
          (((forward_propagation 1 (MaxPoolingLayer.build ⟨2, 4⟩ ⟨1, 2⟩ 2)
            (Matrix.Zero 16 1)).2.edge_oi.getD 3 []).getD 1 default).rev default).to_ = 3
    ∧ (((forward_propagation 1 (MaxPoolingLayer.build ⟨2, 4⟩ ⟨1, 2⟩ 2)
        (Matrix.Zero 16 1)).2.edge_io.getD
          (((forward_propagation 1 (MaxPoolingLayer.build ⟨2, 4⟩ ⟨1, 2⟩ 2)
            (Matrix.Zero 16 1)).2.edge_oi.getD 3 []).getD 1 default).to_ []).getD
          (((forward_propagation 1 (MaxPoolingLayer.build ⟨2, 4⟩ ⟨1, 2⟩ 2)
            (Matrix.Zero 16 1)).2.edge_oi.getD 3 []).getD 1 default).rev default).rev = 1 :=
  ⟨by decide!,
    ((mirror_invariant _
      (Reachable.forward _ 1 (Matrix.Zero 16 1)
        (Reachable.construct ⟨2, 4⟩ ⟨1, 2⟩ 2 (MaxPoolingLayer.build ⟨2, 4⟩ ⟨1, 2⟩ 2)
          (by decide) (by decide) rfl))).1 3 1 (by decide!) (by decide!)).2.2.1,
    ((mirror_invariant _
      (Reachable.forward _ 1 (Matrix.Zero 16 1)
        (Reachable.construct ⟨2, 4⟩ ⟨1, 2⟩ 2 (MaxPoolingLayer.build ⟨2, 4⟩ ⟨1, 2⟩ 2)
          (by decide) (by decide) rfl))).1 3 1 (by decide!) (by decide!)).2.2.2.1⟩

/-- C6. After a successful construction with positive pool dimensions, the input node at
feature map `f`, row `y`, column `x` has exactly one edge: it points to the output node
`f * output_total + (y / pool_rows) * output_cols + x / pool_cols` that owns its window,
carries feature-map id `f`, and its mirror index is the node's offset in the window.
Every input node has exactly one edge, and lies in the window of exactly one output
node: the windows partition the input nodes. -/
theorem input_node_has_one_edge (input_size pool_size : Size) (n_featmap : Nat)
    (L : MaxPoolingLayer) (hpr : 0 < pool_size.rows) (hpc : 0 < pool_size.cols)
    (h : MaxPoolingLayer.new input_size pool_size n_featmap = Except.ok L) :
    (∀ f y x, f < n_featmap → y < input_size.rows → x < input_size.cols →
      L.edge_io.getD (f * input_size.total + y * input_size.cols + x) []
        = [⟨f * ((input_size.rows / pool_size.rows) * (input_size.cols / pool_size.cols))
              + (y / pool_size.rows) * (input_size.cols / pool_size.cols)
              + x / pool_size.cols,
            f, (y % pool_size.rows) * pool_size.cols + x % pool_size.cols, false⟩])
    ∧ (∀ i, i < L.edge_io.length → (L.edge_io.getD i []).length = 1)
    ∧ (∀ i, i < L.edge_io.length →
        ∃! o, o < L.edge_oi.length ∧ ∃ e, e ∈ L.edge_oi.getD o [] ∧ e.to_ = i) := by
  obtain ⟨s1, s2, s3, _⟩ := new_spec input_size pool_size n_featmap L hpr hpc h
  refine ⟨?_, ?_, ?_⟩
  · intro f y x hf hy hx
    have e1 : L.geom.input_size = input_size := congrArg Geom.input_size s1
    have e2 : L.geom.pool_size = pool_size := congrArg Geom.pool_size s1
    have e3 : L.geom.n_featmap = n_featmap := congrArg Geom.n_featmap s1
    have e4 : L.geom.output_size.rows = input_size.rows / pool_size.rows :=
      congrArg (fun G => G.output_size.rows) s1
    have e5 : L.geom.output_size.cols = input_size.cols / pool_size.cols :=
      congrArg (fun G => G.output_size.cols) s1
    rw [← e4, ← e5, ← e1, ← e2]
    rw [← e1] at hy hx
    rw [← e3] at hf
    have hi := L.geom.input_index_lt hf hy hx
    have hc := L.geom.owner_pos_coords f y x hy hx
    have hyo : y / L.geom.pool_size.rows < L.geom.output_size.rows :=
      Nat.div_lt_of_lt_mul (by rw [Nat.mul_comm, ← s2.2.2.1]; exact hy)
    have hxo : x / L.geom.pool_size.cols < L.geom.output_size.cols :=
      Nat.div_lt_of_lt_mul (by rw [Nat.mul_comm, ← s2.2.2.2]; exact hx)
    have hfm := (L.geom.window_input_coords f (y / L.geom.pool_size.rows)
      (x / L.geom.pool_size.cols) 0 hyo hxo).2
    have hg := s3.io_get s2 hi
    rw [hc.1, hc.2] at hg
    simp only [Geom.io_edge] at hg
    rw [hfm] at hg
    simp only [Size.total] at hg ⊢
    rw [Nat.add_assoc, Nat.add_assoc]
    exact hg
  · intro i hi
    rw [s3.1] at hi
    rw [s3.io_get s2 hi]
    rfl
  · intro i hi
    rw [s3.1] at hi
    obtain ⟨h1, h2, h3⟩ := L.geom.owner_pos_facts s2 hi
    refine ⟨L.geom.owner i, ⟨by rw [s3.2.1]; exact h1, ?_⟩, ?_⟩
    · refine ⟨L.geom.oi_edge (fun _ _ => false) (L.geom.owner i) (L.geom.pos i), ?_, ?_⟩
      · rw [s3.2.2.1 _ h1]
        exact List.mem_map.mpr ⟨L.geom.pos i, List.mem_range.mpr h2, rfl⟩
      · exact h3
    · rintro o ⟨ho, e, he, hto⟩
      rw [s3.2.1] at ho
      rw [s3.2.2.1 o ho] at he
      obtain ⟨m, hm, rfl⟩ := List.mem_map.mp he
      have hm2 : m < L.geom.window_size := List.mem_range.mp hm
      have heq : L.geom.window_input o m = L.geom.window_input (L.geom.owner i) (L.geom.pos i) := by
        rw [h3]; exact hto
      exact (L.geom.window_input_inj s2 ho hm2 h1 h2 heq).1

/-- Witness for C6: 4x4 input, 2x2 pool, one feature map; the input at row 3, column 2
(flat index 14) has the single edge to output node 3, with mirror index 2. -/
theorem input_node_has_one_edge_witness :
    (MaxPoolingLayer.build ⟨4, 4⟩ ⟨2, 2⟩ 1).edge_io.getD 14 [] = [⟨3, 0, 2, false⟩] :=
  (input_node_has_one_edge ⟨4, 4⟩ ⟨2, 2⟩ 1 (MaxPoolingLayer.build ⟨4, 4⟩ ⟨2, 2⟩ 1)
    (by decide) (by decide) rfl).1 0 3 2 (by decide) (by decide) (by decide)

/-- C7. After a successful construction with positive pool dimensions, the output node
at feature map `f`, row `yout`, column `xout` has exactly `pool_rows * pool_cols` edges;
the edge at position `dy * pool_cols + dx` points to the input node
`f * input_total + (yout * pool_rows + dy) * input_cols + (xout * pool_cols + dx)` and
carries feature-map id `f`; the targets of the list are pairwise distinct, and every edge
of the list has feature-map id `f` and a target among the input nodes of feature map `f`. -/
theorem output_node_window_edges (input_size pool_size : Size) (n_featmap : Nat)
    (L : MaxPoolingLayer) (hpr : 0 < pool_size.rows) (hpc : 0 < pool_size.cols)
    (h : MaxPoolingLayer.new input_size pool_size n_featmap = Except.ok L)
    (f yout xout : Nat) (hf : f < n_featmap) (hyo : yout < input_size.rows / pool_size.rows)
    (hxo : xout < input_size.cols / pool_size.cols) :
    (L.edge_oi.getD (f * ((input_size.rows / pool_size.rows)
        * (input_size.cols / pool_size.cols))
        + yout * (input_size.cols / pool_size.cols) + xout) []).length
      = pool_size.rows * pool_size.cols
    ∧ (∀ dy dx, dy < pool_size.rows → dx < pool_size.cols →
        ((L.edge_oi.getD (f * ((input_size.rows / pool_size.rows)
            * (input_size.cols / pool_size.cols))
            + yout * (input_size.cols / pool_size.cols) + xout) []).getD
          (dy * pool_size.cols + dx) default).to_
          = f * input_size.total + (yout * pool_size.rows + dy) * input_size.cols
            + (xout * pool_size.cols + dx)
        ∧ ((L.edge_oi.getD (f * ((input_size.rows / pool_size.rows)
            * (input_size.cols / pool_size.cols))
            + yout * (input_size.cols / pool_size.cols) + xout) []).getD
          (dy * pool_size.cols + dx) default).featmap = f)
    ∧ ((L.edge_oi.getD (f * ((input_size.rows / pool_size.rows)
        * (input_size.cols / pool_size.cols))
        + yout * (input_size.cols / pool_size.cols) + xout) []).map Edge.to_).Nodup
    ∧ (∀ e, e ∈ L.edge_oi.getD (f * ((input_size.rows / pool_size.rows)
        * (input_size.cols / pool_size.cols))
        + yout * (input_size.cols / pool_size.cols) + xout) [] →
        e.featmap = f ∧ f * input_size.total ≤ e.to_ ∧ e.to_ < (f + 1) * input_size.total) := by
  obtain ⟨s1, s2, s3, _⟩ := new_spec input_size pool_size n_featmap L hpr hpc h
  have e1 : L.geom.input_size = input_size := congrArg Geom.input_size s1
  have e2 : L.geom.pool_size = pool_size := congrArg Geom.pool_size s1
  have e3 : L.geom.n_featmap = n_featmap := congrArg Geom.n_featmap s1
  have e4 : L.geom.output_size.rows = input_size.rows / pool_size.rows :=
    congrArg (fun G => G.output_size.rows) s1
  have e5 : L.geom.output_size.cols = input_size.cols / pool_size.cols :=
    congrArg (fun G => G.output_size.cols) s1
  rw [← e4] at hyo
  rw [← e5] at hxo
  rw [← e3] at hf
  rw [← e4, ← e5, ← e1, ← e2, Nat.add_assoc]
  have ho := L.geom.output_index_lt hf hyo hxo
  have hlist := s3.2.2.1 _ ho
  simp only [Size.total] at hlist ho
  rw [hlist]
  refine ⟨by simp [Geom.window_size], ?_, ?_, ?_⟩
  · intro dy dx hdy hdx
    have hm : dy * L.geom.pool_size.cols + dx < L.geom.window_size := flat_lt hdy hdx
    rw [getD_map_range _ _ _ _ hm]
    have hc := L.geom.window_input_coords f yout xout (dy * L.geom.pool_size.cols + dx)
      hyo hxo
    simp only [Size.total] at hc
    simp only [Geom.oi_edge, Size.total]
    rw [hc.1, hc.2, flat_div hdx, flat_mod hdx]
    exact ⟨by rw [Nat.add_assoc], rfl⟩
  · rw [List.map_map]
    apply List.Nodup.map_on _ (List.nodup_range _)
    intro a ha b hb hab
    exact (L.geom.window_input_inj s2 ho (List.mem_range.mp ha) ho (List.mem_range.mp hb)
      hab).2
  · intro e he
    obtain ⟨m, hm, rfl⟩ := List.mem_map.mp he
    have hm2 : m < L.geom.window_size := List.mem_range.mp hm
    have hc := L.geom.window_input_coords f yout xout m hyo hxo
    have hb := L.geom.window_input_featmap s2 f yout xout m hyo hxo hm2
    simp only [Size.total] at hc hb
    simp only [Geom.oi_edge, Size.total]
    exact ⟨hc.2, hb.1, hb.2⟩

/-- Witness for C7: 4x4 input, 2x2 pool, one feature map; the output node at row 1,
column 0 (flat index 2) has four edges, the one at position `1 * 2 + 1` points to the
input at row 3, column 1 (flat index 13). -/
theorem output_node_window_edges_witness :
    ((MaxPoolingLayer.build ⟨4, 4⟩ ⟨2, 2⟩ 1).edge_oi.getD 2 []).length = 4
    ∧ (((MaxPoolingLayer.build ⟨4, 4⟩ ⟨2, 2⟩ 1).edge_oi.getD 2 []).getD 3 default).to_ = 13 :=
  ⟨(output_node_window_edges ⟨4, 4⟩ ⟨2, 2⟩ 1 (MaxPoolingLayer.build ⟨4, 4⟩ ⟨2, 2⟩ 1)
      (by decide) (by decide) rfl 0 1 0 (by decide) (by decide) (by decide)).1,
    ((output_node_window_edges ⟨4, 4⟩ ⟨2, 2⟩ 1 (MaxPoolingLayer.build ⟨4, 4⟩ ⟨2, 2⟩ 1)
      (by decide) (by decide) rfl 0 1 0 (by decide) (by decide) (by decide)).2.1
        1 1 (by decide) (by decide)).1⟩

/-- C8. After a successful construction with positive pool dimensions the output size is
the quotient `input_size / pool_size` (and multiplies back to the input size), `edge_io`
has `input_size.total() * n_featmap` entries and `edge_oi` has
`output_size.total() * n_featmap` entries; and on every reachable layer
`forward_propagation` on an input with `n` columns returns a matrix with
`output_size.total() * n_featmap` rows and `n` columns. -/
theorem construction_and_output_sizes (input_size pool_size : Size) (n_featmap : Nat)
    (L : MaxPoolingLayer) (hpr : 0 < pool_size.rows) (hpc : 0 < pool_size.cols)
    (h : MaxPoolingLayer.new input_size pool_size n_featmap = Except.ok L) :
    L.output_size_.rows = input_size.rows / pool_size.rows
    ∧ L.output_size_.cols = input_size.cols / pool_size.cols
    ∧ L.output_size_.rows * pool_size.rows = input_size.rows
    ∧ L.output_size_.cols * pool_size.cols = input_size.cols
    ∧ L.input_size_ = input_size ∧ L.pool_size_ = pool_size ∧ L.n_featmap_ = n_featmap
    ∧ L.edge_io.length = input_size.total * n_featmap
    ∧ L.edge_oi.length = L.output_size_.total * n_featmap
    ∧ ∀ L2, Reachable L2 → ∀ (INFTY : ℚ) (input : Matrix),
        (forward_propagation INFTY L2 input).1.rows = L2.output_size_.total * L2.n_featmap_
        ∧ (forward_propagation INFTY L2 input).1.cols = input.cols := by
  obtain ⟨s1, s2, s3, _⟩ := new_spec input_size pool_size n_featmap L hpr hpc h
  have e1 : L.geom.input_size = input_size := congrArg Geom.input_size s1
  have e2 : L.geom.pool_size = pool_size := congrArg Geom.pool_size s1
  have e3 : L.geom.n_featmap = n_featmap := congrArg Geom.n_featmap s1
  have e4 : L.geom.output_size.rows = input_size.rows / pool_size.rows :=
    congrArg (fun G => G.output_size.rows) s1
  have e5 : L.geom.output_size.cols = input_size.cols / pool_size.cols :=
    congrArg (fun G => G.output_size.cols) s1
  obtain ⟨_, _, v3, v4⟩ := s2
  rw [e1, e2] at v3 v4
  refine ⟨e4, e5, v3.symm, v4.symm, e1, e2, e3, ?_, ?_, ?_⟩
  · rw [s3.1, ← e1, ← e3]; rfl
  · rw [s3.2.1, ← e3]; rfl
  · intro L2 hL2 INFTY input
    obtain ⟨φ, hG, ht, _⟩ := hL2.inv
    obtain ⟨_, f2, f3, _⟩ := forward_propagation_spec L2 hG ht INFTY input
    rw [f3, f2]
    exact ⟨rfl, rfl⟩

/-- Witness for C8: 4x6 input, 2x3 pool, 3 feature maps: a 2x2 output grid, 72 input
nodes, 12 output nodes, and a forward pass over 5 samples returns a 12x5 matrix. -/
theorem construction_and_output_sizes_witness :
    (MaxPoolingLayer.build ⟨4, 6⟩ ⟨2, 3⟩ 3).output_size_.rows = 4 / 2
    ∧ (MaxPoolingLayer.build ⟨4, 6⟩ ⟨2, 3⟩ 3).edge_io.length = (Size.mk 4 6).total * 3
    ∧ (MaxPoolingLayer.build ⟨4, 6⟩ ⟨2, 3⟩ 3).edge_oi.length
        = (MaxPoolingLayer.build ⟨4, 6⟩ ⟨2, 3⟩ 3).output_size_.total * 3
    ∧ (forward_propagation 1 (MaxPoolingLayer.build ⟨4, 6⟩ ⟨2, 3⟩ 3)
        (Matrix.Zero 72 5)).1.rows
        = (MaxPoolingLayer.build ⟨4, 6⟩ ⟨2, 3⟩ 3).output_size_.total
          * (MaxPoolingLayer.build ⟨4, 6⟩ ⟨2, 3⟩ 3).n_featmap_
    ∧ (forward_propagation 1 (MaxPoolingLayer.build ⟨4, 6⟩ ⟨2, 3⟩ 3)
        (Matrix.Zero 72 5)).1.cols = (Matrix.Zero 72 5).cols :=
  ⟨(construction_and_output_sizes ⟨4, 6⟩ ⟨2, 3⟩ 3 (MaxPoolingLayer.build ⟨4, 6⟩ ⟨2, 3⟩ 3)
      (by decide) (by decide) rfl).1,
    (construction_and_output_sizes ⟨4, 6⟩ ⟨2, 3⟩ 3 (MaxPoolingLayer.build ⟨4, 6⟩ ⟨2, 3⟩ 3)
      (by decide) (by decide) rfl).2.2.2.2.2.2.2.1,
    (construction_and_output_sizes ⟨4, 6⟩ ⟨2, 3⟩ 3 (MaxPoolingLayer.build ⟨4, 6⟩ ⟨2, 3⟩ 3)
      (by decide) (by decide) rfl).2.2.2.2.2.2.2.2.1,
    (construction_and_output_sizes ⟨4, 6⟩ ⟨2, 3⟩ 3 (MaxPoolingLayer.build ⟨4, 6⟩ ⟨2, 3⟩ 3)
      (by decide) (by decide) rfl).2.2.2.2.2.2.2.2.2 _
        (Reachable.construct ⟨4, 6⟩ ⟨2, 3⟩ 3 _ (by decide) (by decide) rfl) 1
        (Matrix.Zero 72 5)⟩

/-- C10. Momentum recurrence, in exact arithmetic, for every reachable layer and every
feature map `i`. With `g = (current_dscale, current_dbias)` the accumulators of the call,
`back_propagation` sets `dscale[i] = momentum * dscale[i] + eta * g_scale[i]`,
`dbias[i] = momentum * dbias[i] + eta * g_bias[i]`, then `scale[i] += dscale[i]` and
`bias[i] += dbias[i]`. Starting from `dscale[i] = 0`, after one `forward_propagation` and
two `back_propagation` calls with the same upstream error, learning rate and momentum,
the scale gradient `g` is the same in both calls, the second `dscale[i]` is
`momentum * (eta * g) + eta * g`, and `scale[i]` has advanced by
`eta * g + (momentum * eta * g + eta * g)`. -/
theorem momentum_recurrence (L : MaxPoolingLayer) (hL : Reachable L) (error : Matrix)
    (eta momentum : ℚ) (i : Nat) (hi : i < L.n_featmap_) :
    ((back_propagation L error eta momentum).2.dscale.getD i 0
        = momentum * L.dscale.getD i 0
          + eta * (gradient_loop L error error.cols
              (L.input_size_.total * L.n_featmap_)).1.getD i 0
      ∧ (back_propagation L error eta momentum).2.dbias.getD i 0
        = momentum * L.dbias.getD i 0
          + eta * (gradient_loop L error error.cols
              (L.input_size_.total * L.n_featmap_)).2.getD i 0
      ∧ (back_propagation L error eta momentum).2.scale.getD i 0
        = L.scale.getD i 0 + (back_propagation L error eta momentum).2.dscale.getD i 0
      ∧ (back_propagation L error eta momentum).2.bias.getD i 0
        = L.bias.getD i 0 + (back_propagation L error eta momentum).2.dbias.getD i 0)
    ∧ ∀ (INFTY : ℚ) (input : Matrix), L.dscale.getD i 0 = 0 →
      (gradient_loop
          (back_propagation (forward_propagation INFTY L input).2 error eta momentum).2
          error error.cols
          ((back_propagation (forward_propagation INFTY L input).2 error eta
              momentum).2.input_size_.total
            * (back_propagation (forward_propagation INFTY L input).2 error eta
              momentum).2.n_featmap_)).1.getD i 0
        = (gradient_loop (forward_propagation INFTY L input).2 error error.cols
            ((forward_propagation INFTY L input).2.input_size_.total
              * (forward_propagation INFTY L input).2.n_featmap_)).1.getD i 0
      ∧ (back_propagation
          (back_propagation (forward_propagation INFTY L input).2 error eta momentum).2
          error eta momentum).2.dscale.getD i 0
        = momentum * (eta * (gradient_loop (forward_propagation INFTY L input).2 error
              error.cols ((forward_propagation INFTY L input).2.input_size_.total
                * (forward_propagation INFTY L input).2.n_featmap_)).1.getD i 0)
          + eta * (gradient_loop (forward_propagation INFTY L input).2 error
              error.cols ((forward_propagation INFTY L input).2.input_size_.total
                * (forward_propagation INFTY L input).2.n_featmap_)).1.getD i 0
      ∧ (back_propagation
          (back_propagation (forward_propagation INFTY L input).2 error eta momentum).2
          error eta momentum).2.scale.getD i 0
        = L.scale.getD i 0
          + (eta * (gradient_loop (forward_propagation INFTY L input).2 error
                error.cols ((forward_propagation INFTY L input).2.input_size_.total
                  * (forward_propagation INFTY L input).2.n_featmap_)).1.getD i 0
            + (momentum * eta * (gradient_loop (forward_propagation INFTY L input).2 error
                  error.cols ((forward_propagation INFTY L input).2.input_size_.total
                    * (forward_propagation INFTY L input).2.n_featmap_)).1.getD i 0
              + eta * (gradient_loop (forward_propagation INFTY L input).2 error
                  error.cols ((forward_propagation INFTY L input).2.input_size_.total
                    * (forward_propagation INFTY L input).2.n_featmap_)).1.getD i 0)) := by
  have step : ∀ (K : MaxPoolingLayer), Reachable K → i < K.n_featmap_ →
      (back_propagation K error eta momentum).2.dscale.getD i 0
        = momentum * K.dscale.getD i 0
          + eta * (gradient_loop K error error.cols
              (K.input_size_.total * K.n_featmap_)).1.getD i 0
      ∧ (back_propagation K error eta momentum).2.dbias.getD i 0
        = momentum * K.dbias.getD i 0
          + eta * (gradient_loop K error error.cols
              (K.input_size_.total * K.n_featmap_)).2.getD i 0
      ∧ (back_propagation K error eta momentum).2.scale.getD i 0
        = K.scale.getD i 0 + (back_propagation K error eta momentum).2.dscale.getD i 0
      ∧ (back_propagation K error eta momentum).2.bias.getD i 0
        = K.bias.getD i 0 + (back_propagation K error eta momentum).2.dbias.getD i 0 := by
    intro K hK hiK
    obtain ⟨φ, _, _, l1, l2, l3, l4⟩ := hK.inv
    obtain ⟨v1, v2, v3, v4⟩ := update_params_values K eta momentum
      (gradient_loop K error error.cols (K.input_size_.total * K.n_featmap_)) l1 l2 l3 l4 i hiK
    rw [back_propagation_snd]
    refine ⟨v1, v2, ?_, ?_⟩
    · rw [v3, v1]
    · rw [v4, v2]
  refine ⟨step L hL hi, ?_⟩
  intro INFTY input hz
  have hL1 : Reachable (forward_propagation INFTY L input).2 := Reachable.forward L INFTY input hL
  have hL2 := Reachable.backward _ error eta momentum hL1
  obtain ⟨φ, hφ⟩ := hL.inv
  obtain ⟨_, _, _, f4, f5, _⟩ := forward_propagation_spec L hφ.1 hφ.2.1 INFTY input
  have hn1 : (forward_propagation INFTY L input).2.n_featmap_ = L.n_featmap_ :=
    congrArg Geom.n_featmap f4
  have hsc : (forward_propagation INFTY L input).2.scale = L.scale :=
    congrArg (fun p => p.1) f5
  have hds : (forward_propagation INFTY L input).2.dscale = L.dscale :=
    congrArg (fun p => p.2.2.1) f5
  have hg := gradient_loop_after_backward (forward_propagation INFTY L input).2 error error
    eta momentum
  have hn2 : (back_propagation (forward_propagation INFTY L input).2 error eta
      momentum).2.n_featmap_ = L.n_featmap_ := by
    rw [back_propagation_snd]
    exact (congrArg Geom.n_featmap (update_params_frame _ eta momentum _).2.2.1).trans hn1
  obtain ⟨a1, _, a3, _⟩ := step _ hL1 (by rw [hn1]; exact hi)
  obtain ⟨b1, _, b3, _⟩ := step _ hL2 (by rw [hn2]; exact hi)
  rw [hg] at b1 ⊢
  refine ⟨rfl, ?_, ?_⟩
  · rw [b1, a1, hds, hz]
    ring
  · rw [b3, b1, a3, a1, hds, hsc, hz]
    ring

/-- Witness for C10: one 1x2 window, fresh layer (`dscale = 0`), inputs 5 and 7, upstream
error 11, `eta = 1/10`, `momentum = 1/2`: the gradient is 77, the second `dscale` is
`1/2 * (1/10 * 77) + 1/10 * 77` and `scale` ends at `1 + 77/10 + 231/20`. -/
theorem momentum_recurrence_witness :
    (back_propagation
        (back_propagation
          (forward_propagation 1 (MaxPoolingLayer.build ⟨1, 2⟩ ⟨1, 2⟩ 1)
            (Matrix.mk 2 1 (fun i _ => if i = 0 then 5 else 7))).2
          (Matrix.mk 1 1 (fun _ _ => 11)) (1 / 10) (1 / 2)).2
        (Matrix.mk 1 1 (fun _ _ => 11)) (1 / 10) (1 / 2)).2.dscale.getD 0 0
      = 1 / 2 * (1 / 10 * (gradient_loop
            (forward_propagation 1 (MaxPoolingLayer.build ⟨1, 2⟩ ⟨1, 2⟩ 1)
              (Matrix.mk 2 1 (fun i _ => if i = 0 then 5 else 7))).2
            (Matrix.mk 1 1 (fun _ _ => 11)) (Matrix.mk 1 1 (fun _ _ => 11)).cols
            ((forward_propagation 1 (MaxPoolingLayer.build ⟨1, 2⟩ ⟨1, 2⟩ 1)
              (Matrix.mk 2 1 (fun i _ => if i = 0 then 5 else 7))).2.input_size_.total
              * (forward_propagation 1 (MaxPoolingLayer.build ⟨1, 2⟩ ⟨1, 2⟩ 1)
              (Matrix.mk 2 1 (fun i _ => if i = 0 then 5 else 7))).2.n_featmap_)).1.getD 0 0)
        + 1 / 10 * (gradient_loop
            (forward_propagation 1 (MaxPoolingLayer.build ⟨1, 2⟩ ⟨1, 2⟩ 1)
              (Matrix.mk 2 1 (fun i _ => if i = 0 then 5 else 7))).2
            (Matrix.mk 1 1 (fun _ _ => 11)) (Matrix.mk 1 1 (fun _ _ => 11)).cols
            ((forward_propagation 1 (MaxPoolingLayer.build ⟨1, 2⟩ ⟨1, 2⟩ 1)
              (Matrix.mk 2 1 (fun i _ => if i = 0 then 5 else 7))).2.input_size_.total
              * (forward_propagation 1 (MaxPoolingLayer.build ⟨1, 2⟩ ⟨1, 2⟩ 1)
              (Matrix.mk 2 1 (fun i _ => if i = 0 then 5 else 7))).2.n_featmap_)).1.getD 0 0
    ∧ (back_propagation
        (back_propagation
          (forward_propagation 1 (MaxPoolingLayer.build ⟨1, 2⟩ ⟨1, 2⟩ 1)
            (Matrix.mk 2 1 (fun i _ => if i = 0 then 5 else 7))).2
          (Matrix.mk 1 1 (fun _ _ => 11)) (1 / 10) (1 / 2)).2
        (Matrix.mk 1 1 (fun _ _ => 11)) (1 / 10) (1 / 2)).2.scale.getD 0 0
      = 1 + 77 / 10 + 231 / 20 :=
  ⟨((momentum_recurrence (MaxPoolingLayer.build ⟨1, 2⟩ ⟨1, 2⟩ 1)
      (Reachable.construct ⟨1, 2⟩ ⟨1, 2⟩ 1 _ (by decide) (by decide) rfl)
      (Matrix.mk 1 1 (fun _ _ => 11)) (1 / 10) (1 / 2) 0 (by decide)).2 1
      (Matrix.mk 2 1 (fun i _ => if i = 0 then 5 else 7)) (by decide!)).2.1,
    by decide!⟩

/-- C15. Immediately after a successful construction with positive pool dimensions and
`n_featmap` feature maps, `scale`, `bias`, `dscale` and `dbias` each have exactly
`n_featmap` entries, all equal to 1, 0, 0 and 0 respectively; and on every layer
`forward_propagation` leaves these four vectors as they were. -/
theorem parameters_initialised_and_kept_by_forward (input_size pool_size : Size)
    (n_featmap : Nat) (L : MaxPoolingLayer) (hpr : 0 < pool_size.rows)
    (hpc : 0 < pool_size.cols)
    (h : MaxPoolingLayer.new input_size pool_size n_featmap = Except.ok L) :
    (L.scale = List.replicate n_featmap 1 ∧ L.bias = List.replicate n_featmap 0
      ∧ L.dscale = List.replicate n_featmap 0 ∧ L.dbias = List.replicate n_featmap 0)
    ∧ (L.scale.length = n_featmap ∧ L.bias.length = n_featmap
      ∧ L.dscale.length = n_featmap ∧ L.dbias.length = n_featmap)
    ∧ (∀ f, f < n_featmap → L.scale.getD f 0 = 1 ∧ L.bias.getD f 0 = 0
      ∧ L.dscale.getD f 0 = 0 ∧ L.dbias.getD f 0 = 0)
    ∧ ∀ (K : MaxPoolingLayer) (INFTY : ℚ) (input : Matrix),
        (forward_propagation INFTY K input).2.scale = K.scale
        ∧ (forward_propagation INFTY K input).2.bias = K.bias
        ∧ (forward_propagation INFTY K input).2.dscale = K.dscale
        ∧ (forward_propagation INFTY K input).2.dbias = K.dbias := by
  obtain ⟨_, _, _, s4, _⟩ := new_spec input_size pool_size n_featmap L hpr hpc h
  simp only [MaxPoolingLayer.params, Prod.mk.injEq] at s4
  obtain ⟨p1, p2, p3, p4⟩ := s4
  refine ⟨⟨p1, p2, p3, p4⟩, ?_, ?_, ?_⟩
  · rw [p1, p2, p3, p4]; simp
  · intro f hf
    rw [p1, p2, p3, p4]
    simp [List.getD_eq_getElem?_getD, hf]
  · intro K INFTY input
    have hp := (forward_propagation_params K INFTY input).1
    simp only [MaxPoolingLayer.params, Prod.mk.injEq] at hp
    exact hp

/-- Witness for C15: three feature maps on a 4x4 input with a 2x2 pool. -/
theorem parameters_initialised_and_kept_by_forward_witness :
    (MaxPoolingLayer.build ⟨4, 4⟩ ⟨2, 2⟩ 3).scale = [1, 1, 1]
    ∧ (MaxPoolingLayer.build ⟨4, 4⟩ ⟨2, 2⟩ 3).bias = [0, 0, 0]
    ∧ (MaxPoolingLayer.build ⟨4, 4⟩ ⟨2, 2⟩ 3).dscale = [0, 0, 0]
    ∧ (MaxPoolingLayer.build ⟨4, 4⟩ ⟨2, 2⟩ 3).dbias = [0, 0, 0] :=
  (parameters_initialised_and_kept_by_forward ⟨4, 4⟩ ⟨2, 2⟩ 3
    (MaxPoolingLayer.build ⟨4, 4⟩ ⟨2, 2⟩ 3) (by decide) (by decide) rfl).1

/-- C16. Backward frame: on every layer `back_propagation` leaves both adjacency tables
(every edge with its counterpart index, feature-map id, mirror index and winner flag),
the geometry (`input_size_`, `pool_size_`, `output_size_`, `n_featmap_`) and the cached
input and output matrices as they were; only `scale`, `bias`, `dscale` and `dbias` can
differ, and they keep their lengths. -/
theorem back_propagation_frame (L : MaxPoolingLayer) (error : Matrix) (eta momentum : ℚ) :
    (back_propagation L error eta momentum).2.edge_io = L.edge_io
    ∧ (back_propagation L error eta momentum).2.edge_oi = L.edge_oi
    ∧ (back_propagation L error eta momentum).2.input_size_ = L.input_size_
    ∧ (back_propagation L error eta momentum).2.pool_size_ = L.pool_size_
    ∧ (back_propagation L error eta momentum).2.output_size_ = L.output_size_
    ∧ (back_propagation L error eta momentum).2.n_featmap_ = L.n_featmap_
    ∧ (back_propagation L error eta momentum).2.input_ = L.input_
    ∧ (back_propagation L error eta momentum).2.output_ = L.output_
    ∧ (back_propagation L error eta momentum).2.scale.length = L.scale.length
    ∧ (back_propagation L error eta momentum).2.bias.length = L.bias.length
    ∧ (back_propagation L error eta momentum).2.dscale.length = L.dscale.length
    ∧ (back_propagation L error eta momentum).2.dbias.length = L.dbias.length := by
  rw [back_propagation_snd]
  obtain ⟨u1, u2, u3, u4, u5, u6, u7, u8⟩ := update_params_frame L eta momentum
    (gradient_loop L error error.cols (L.input_size_.total * L.n_featmap_))
  exact ⟨u1, u2, congrArg Geom.input_size u3, congrArg Geom.pool_size u3,
    congrArg Geom.output_size u3, congrArg Geom.n_featmap u3, congrArg Prod.fst u4,
    congrArg Prod.snd u4, u5, u6, u7, u8⟩

/-- C17. Topology immutability: let `L0` be the layer a successful construction (positive
pool dimensions) returns and `L` any layer obtained from it by `forward_propagation` and
`back_propagation` calls. Then `L` has as many adjacency lists as `L0` in `edge_io` and in
`edge_oi`, every list has the length it has in `L0`, and every edge has the counterpart
index (`to`), feature-map id and mirror index (`rev`) it has in `L0`; and a further
`forward_propagation` leaves the geometry and the four parameter vectors as they are, so
it alters only winner flags and the cached input and output. -/
theorem topology_immutable (input_size pool_size : Size) (n_featmap : Nat)
    (L0 L : MaxPoolingLayer) (hpr : 0 < pool_size.rows) (hpc : 0 < pool_size.cols)
    (h : MaxPoolingLayer.new input_size pool_size n_featmap = Except.ok L0)
    (hL : Evolves L0 L) :
    L.edge_io.length = L0.edge_io.length ∧ L.edge_oi.length = L0.edge_oi.length
    ∧ (∀ n, (L.edge_io.getD n []).length = (L0.edge_io.getD n []).length
        ∧ (L.edge_oi.getD n []).length = (L0.edge_oi.getD n []).length)
    ∧ (∀ n e,
        ((L.edge_io.getD n []).getD e default).to_
          = ((L0.edge_io.getD n []).getD e default).to_
        ∧ ((L.edge_io.getD n []).getD e default).featmap
          = ((L0.edge_io.getD n []).getD e default).featmap
        ∧ ((L.edge_io.getD n []).getD e default).rev
          = ((L0.edge_io.getD n []).getD e default).rev
        ∧ ((L.edge_oi.getD n []).getD e default).to_
          = ((L0.edge_oi.getD n []).getD e default).to_
        ∧ ((L.edge_oi.getD n []).getD e default).featmap
          = ((L0.edge_oi.getD n []).getD e default).featmap
        ∧ ((L.edge_oi.getD n []).getD e default).rev
          = ((L0.edge_oi.getD n []).getD e default).rev)
    ∧ ∀ (INFTY : ℚ) (input : Matrix),
        (forward_propagation INFTY L input).2.input_size_ = L.input_size_
        ∧ (forward_propagation INFTY L input).2.pool_size_ = L.pool_size_
        ∧ (forward_propagation INFTY L input).2.output_size_ = L.output_size_
        ∧ (forward_propagation INFTY L input).2.n_featmap_ = L.n_featmap_
        ∧ (forward_propagation INFTY L input).2.scale = L.scale
        ∧ (forward_propagation INFTY L input).2.bias = L.bias
        ∧ (forward_propagation INFTY L input).2.dscale = L.dscale
        ∧ (forward_propagation INFTY L input).2.dbias = L.dbias := by
  have h0 := Inv.construct hpr hpc h
  obtain ⟨hg, _, φ, hφ⟩ := hL.keeps_inv h0
  have ht := hφ.2.1
  rw [hg] at ht
  obtain ⟨t1, t2, t3, t4⟩ := ht.same_topology h0.1 h0.2.1
  refine ⟨t1, t2, t3, t4, ?_⟩
  intro INFTY input
  obtain ⟨fp, fg⟩ := forward_propagation_params L INFTY input
  simp only [MaxPoolingLayer.params, Prod.mk.injEq] at fp
  exact ⟨congrArg Geom.input_size fg, congrArg Geom.pool_size fg,
    congrArg Geom.output_size fg, congrArg Geom.n_featmap fg, fp.1, fp.2.1, fp.2.2.1, fp.2.2.2⟩

/-- Witness for C17: a 2x4 input with a 1x2 pool and two feature maps, after a forward
pass, a backward pass and another forward pass: still 16 input lists and 8 output lists,
and the edge at position 1 of output node 5 still points to input 11. -/
theorem topology_immutable_witness :
    (forward_propagation 1
        (back_propagation
          (forward_propagation 1 (MaxPoolingLayer.build ⟨2, 4⟩ ⟨1, 2⟩ 2)
            (Matrix.mk 16 1 (fun i _ => i))).2
          (Matrix.mk 8 1 (fun _ _ => 1)) (1 / 10) (1 / 2)).2
        (Matrix.mk 16 1 (fun i _ => 16 - i))).2.edge_io.length
      = (MaxPoolingLayer.build ⟨2, 4⟩ ⟨1, 2⟩ 2).edge_io.length
    ∧ (((forward_propagation 1
        (back_propagation
          (forward_propagation 1 (MaxPoolingLayer.build ⟨2, 4⟩ ⟨1, 2⟩ 2)
            (Matrix.mk 16 1 (fun i _ => i))).2
          (Matrix.mk 8 1 (fun _ _ => 1)) (1 / 10) (1 / 2)).2
        (Matrix.mk 16 1 (fun i _ => 16 - i))).2.edge_oi.getD 5 []).getD 1 default).to_
      = (((MaxPoolingLayer.build ⟨2, 4⟩ ⟨1, 2⟩ 2).edge_oi.getD 5 []).getD 1 default).to_
    ∧ (((MaxPoolingLayer.build ⟨2, 4⟩ ⟨1, 2⟩ 2).edge_oi.getD 5 []).getD 1 default).to_ = 11 :=
  ⟨(topology_immutable ⟨2, 4⟩ ⟨1, 2⟩ 2 (MaxPoolingLayer.build ⟨2, 4⟩ ⟨1, 2⟩ 2) _
      (by decide) (by decide) rfl
      (Evolves.forward _ 1 (Matrix.mk 16 1 (fun i _ => 16 - i))
        (Evolves.backward _ (Matrix.mk 8 1 (fun _ _ => 1)) (1 / 10) (1 / 2)
          (Evolves.forward _ 1 (Matrix.mk 16 1 (fun i _ => i)) Evolves.start)))).1,
    ((topology_immutable ⟨2, 4⟩ ⟨1, 2⟩ 2 (MaxPoolingLayer.build ⟨2, 4⟩ ⟨1, 2⟩ 2) _
      (by decide) (by decide) rfl
      (Evolves.forward _ 1 (Matrix.mk 16 1 (fun i _ => 16 - i))
        (Evolves.backward _ (Matrix.mk 8 1 (fun _ _ => 1)) (1 / 10) (1 / 2)
          (Evolves.forward _ 1 (Matrix.mk 16 1 (fun i _ => i)) Evolves.start)))).2.2.2.1
        5 1).2.2.2.1,
    by decide⟩

/-- C19. Index safety: let `L0` be the layer a successful construction (positive pool
dimensions) returns, `L` any layer obtained from it by `forward_propagation` and
`back_propagation` calls, `input` a matrix with `input_size.total() * n_featmap` rows and
`error` a matrix with `output_size.total() * n_featmap` rows and as many columns as
`input`. Then the tables have one list per row of `input` and of `error`, the parameter
vectors have `n_featmap` entries, every edge of `edge_oi` has its `to` below the number
of input nodes, its `rev` a valid position of the counterpart's list and its `featmap`
below `n_featmap`, likewise every edge of `edge_io` with the number of output nodes;
every list of `edge_oi` is non-empty and the `active_index` chosen by the scan is a
valid position of it (on any tables, whatever the flags); the output of
`forward_propagation` has one row per output node and one column per sample, and the
input it caches is `input`, so the following `back_propagation` reads inside it. -/
theorem indices_in_range (input_size pool_size : Size) (n_featmap : Nat)
    (L0 L : MaxPoolingLayer) (hpr : 0 < pool_size.rows) (hpc : 0 < pool_size.cols)
    (h : MaxPoolingLayer.new input_size pool_size n_featmap = Except.ok L0)
    (hL : Evolves L0 L) (INFTY : ℚ) (input error : Matrix)
    (hrows : input.rows = input_size.total * n_featmap)
    (herows : error.rows
      = (input_size.rows / pool_size.rows) * (input_size.cols / pool_size.cols) * n_featmap)
    (hecols : error.cols = input.cols) :
    (L.edge_io.length = input.rows ∧ L.edge_oi.length = error.rows
      ∧ L.input_size_.total * L.n_featmap_ = input.rows
      ∧ L.scale.length = n_featmap ∧ L.bias.length = n_featmap
      ∧ L.dscale.length = n_featmap ∧ L.dbias.length = n_featmap)
    ∧ (∀ o e, o < L.edge_oi.length → e < (L.edge_oi.getD o []).length →
        ((L.edge_oi.getD o []).getD e default).to_ < input.rows
        ∧ ((L.edge_oi.getD o []).getD e default).rev
            < (L.edge_io.getD ((L.edge_oi.getD o []).getD e default).to_ []).length
        ∧ ((L.edge_oi.getD o []).getD e default).featmap < n_featmap)
    ∧ (∀ i e, i < L.edge_io.length → e < (L.edge_io.getD i []).length →
        ((L.edge_io.getD i []).getD e default).to_ < error.rows
        ∧ ((L.edge_io.getD i []).getD e default).rev
            < (L.edge_oi.getD ((L.edge_io.getD i []).getD e default).to_ []).length
        ∧ ((L.edge_io.getD i []).getD e default).featmap < n_featmap)
    ∧ (∀ o, o < L.edge_oi.length → 0 < (L.edge_oi.getD o []).length)
    ∧ (∀ (io oi : List (List Edge)) (d o : Nat), 0 < (oi.getD o []).length →
        ((List.range (oi.getD o []).length).foldl (forward_scan input d o)
          ⟨io, oi, -INFTY, 0⟩).active_index < (oi.getD o []).length)
    ∧ ((forward_propagation INFTY L input).1.rows = error.rows
      ∧ (forward_propagation INFTY L input).1.cols = error.cols
      ∧ (forward_propagation INFTY L input).2.input_ = input
      ∧ (forward_propagation INFTY L input).2.input_.rows
          = (forward_propagation INFTY L input).2.input_size_.total
            * (forward_propagation INFTY L input).2.n_featmap_) := by
  have h0 := Inv.construct hpr hpc h
  obtain ⟨s1, _⟩ := new_spec input_size pool_size n_featmap L0 hpr hpc h
  obtain ⟨hg, _, φ, hG, ht, l1, l2, l3, l4⟩ := hL.keeps_inv h0
  have e1 : L.geom.input_size = input_size := congrArg Geom.input_size (hg.trans s1)
  have e3 : L.geom.n_featmap = n_featmap := congrArg Geom.n_featmap (hg.trans s1)
  have e4 : L.geom.output_size.rows = input_size.rows / pool_size.rows :=
    congrArg (fun G => G.output_size.rows) (hg.trans s1)
  have e5 : L.geom.output_size.cols = input_size.cols / pool_size.cols :=
    congrArg (fun G => G.output_size.cols) (hg.trans s1)
  have hni : L.geom.n_input = input.rows := by
    rw [hrows, ← e1, ← e3]; rfl
  have hno : L.geom.n_output = error.rows := by
    rw [herows, ← e4, ← e5, ← e3]; rfl
  have hnf : L.n_featmap_ = n_featmap := e3
  have hfm : ∀ o, o < L.geom.n_output → o / L.geom.output_size.total < n_featmap := by
    intro o ho
    rw [← e3]
    exact Nat.div_lt_of_lt_mul ho
  refine ⟨⟨ht.1.trans hni, ht.2.1.trans hno, hni, ?_, ?_, ?_, ?_⟩, ?_, ?_, ?_, ?_, ?_⟩
  · rw [l1, hnf]
  · rw [l2, hnf]
  · rw [l3, hnf]
  · rw [l4, hnf]
  · intro o e ho he
    rw [ht.2.1] at ho
    rw [ht.oi_length ho] at he
    rw [ht.oi_get ho he]
    simp only [Geom.oi_edge]
    rw [ht.2.2.2 o e ho he, ← hni]
    exact ⟨L.geom.window_input_lt hG ho he, by simp, hfm o ho⟩
  · intro i e hi he
    rw [ht.1] at hi
    obtain ⟨o1, o2, _⟩ := L.geom.owner_pos_facts hG hi
    rw [ht.io_get hG hi] at he ⊢
    have he0 : e = 0 := by simpa using he
    subst he0
    simp only [List.getD_cons_zero, Geom.io_edge]
    rw [ht.oi_length o1, ← hno]
    exact ⟨o1, o2, hfm _ o1⟩
  · intro o ho
    rw [ht.2.1] at ho
    rw [ht.oi_length ho]
    exact L.geom.window_size_pos hG
  · intro io oi d o hpos
    exact forward_scan_index_lt io oi INFTY input d o _ hpos
  · obtain ⟨_, f2, f3, f4, _, f6⟩ := forward_propagation_spec L hG ht INFTY input
    refine ⟨?_, ?_, f6, ?_⟩
    · rw [f3, f2]; exact hno
    · rw [f3, f2]; exact hecols.symm
    · rw [f6]
      have : (forward_propagation INFTY L input).2.geom.n_input = L.geom.n_input := by
        rw [f4]
      rw [← hni, ← this]
      rfl

/-- Witness for C19: a 4x4 input with a 2x2 pool and two feature maps, after one forward
pass; the inputs have 32 rows, the upstream errors 8 rows. -/
theorem indices_in_range_witness :
    (forward_propagation 1 (MaxPoolingLayer.build ⟨4, 4⟩ ⟨2, 2⟩ 2)
        (Matrix.Zero 32 3)).2.edge_io.length = (Matrix.Zero 32 3).rows
    ∧ (forward_propagation 1 (MaxPoolingLayer.build ⟨4, 4⟩ ⟨2, 2⟩ 2)
        (Matrix.Zero 32 3)).2.edge_oi.length = (Matrix.Zero 8 3).rows
    ∧ (∀ o, o < (forward_propagation 1 (MaxPoolingLayer.build ⟨4, 4⟩ ⟨2, 2⟩ 2)
        (Matrix.Zero 32 3)).2.edge_oi.length →
        0 < ((forward_propagation 1 (MaxPoolingLayer.build ⟨4, 4⟩ ⟨2, 2⟩ 2)
          (Matrix.Zero 32 3)).2.edge_oi.getD o []).length) :=
  ⟨(indices_in_range ⟨4, 4⟩ ⟨2, 2⟩ 2 (MaxPoolingLayer.build ⟨4, 4⟩ ⟨2, 2⟩ 2) _
      (by decide) (by decide) rfl
      (Evolves.forward _ 1 (Matrix.Zero 32 3) Evolves.start) 1
      (Matrix.Zero 32 3) (Matrix.Zero 8 3) (by decide) (by decide) rfl).1.1,
    (indices_in_range ⟨4, 4⟩ ⟨2, 2⟩ 2 (MaxPoolingLayer.build ⟨4, 4⟩ ⟨2, 2⟩ 2) _
      (by decide) (by decide) rfl
      (Evolves.forward _ 1 (Matrix.Zero 32 3) Evolves.start) 1
      (Matrix.Zero 32 3) (Matrix.Zero 8 3) (by decide) (by decide) rfl).1.2.1,
    (indices_in_range ⟨4, 4⟩ ⟨2, 2⟩ 2 (MaxPoolingLayer.build ⟨4, 4⟩ ⟨2, 2⟩ 2) _
      (by decide) (by decide) rfl
      (Evolves.forward _ 1 (Matrix.Zero 32 3) Evolves.start) 1
      (Matrix.Zero 32 3) (Matrix.Zero 8 3) (by decide) (by decide) rfl).2.2.2.1⟩

/-- C18. Winner-flag invariant: after `forward_propagation` on a reachable layer with an
input of at least one sample, every output node `o` has exactly one active edge in
`edge_oi[o]`; the flags are mirrored, `edge_oi[o][e].active` equals the flag of
`edge_io[edge_oi[o][e].to][edge_oi[o][e].rev]`; and the number of active input-side
edges, summed over all input nodes, is `output_size.total() * n_featmap`. -/
theorem winner_flags_after_forward (L : MaxPoolingLayer) (hL : Reachable L) (INFTY : ℚ)
    (input : Matrix) (hn : 0 < input.cols) :
    (∀ o, o < (forward_propagation INFTY L input).2.edge_oi.length →
      ∃ e, e < ((forward_propagation INFTY L input).2.edge_oi.getD o []).length
        ∧ ∀ e2, e2 < ((forward_propagation INFTY L input).2.edge_oi.getD o []).length →
          ((((forward_propagation INFTY L input).2.edge_oi.getD o []).getD e2 default).active
            = true ↔ e2 = e))
    ∧ (∀ o e, o < (forward_propagation INFTY L input).2.edge_oi.length →
        e < ((forward_propagation INFTY L input).2.edge_oi.getD o []).length →
        (((forward_propagation INFTY L input).2.edge_oi.getD o []).getD e default).active
          = (((forward_propagation INFTY L input).2.edge_io.getD
              (((forward_propagation INFTY L input).2.edge_oi.getD o []).getD e default).to_
              []).getD
              (((forward_propagation INFTY L input).2.edge_oi.getD o []).getD e default).rev
              default).active)
    ∧ ∑ i ∈ Finset.range (forward_propagation INFTY L input).2.edge_io.length,
        ((forward_propagation INFTY L input).2.edge_io.getD i []).countP (fun e => e.active)
      = (forward_propagation INFTY L input).2.output_size_.total
          * (forward_propagation INFTY L input).2.n_featmap_ := by
  obtain ⟨φ, hG, ht, _⟩ := hL.inv
  obtain ⟨f1, _, _, f4, _⟩ := forward_propagation_spec L hG ht INFTY input
  have hne : input.cols ≠ 0 := by omega
  have hno : (forward_propagation INFTY L input).2.output_size_.total
      * (forward_propagation INFTY L input).2.n_featmap_ = L.geom.n_output := by
    show (forward_propagation INFTY L input).2.geom.n_output = _
    rw [f4]
  rw [hno, f1.1, f1.2.1]
  refine ⟨?_, ?_, ?_⟩
  · intro o ho
    rw [f1.oi_length ho]
    refine ⟨L.geom.winner INFTY input o (input.cols - 1), L.geom.winner_lt hG _ _ _ _, ?_⟩
    intro e2 he2
    rw [f1.oi_get ho he2]
    simp [Geom.oi_edge, Geom.flags_after, hne]
  · intro o e ho he
    rw [f1.oi_length ho] at he
    rw [f1.oi_get ho he]
    simp only [Geom.oi_edge]
    rw [f1.2.2.2 o e ho he]
    simp [Geom.io_edge]
  · rw [L.geom.sum_inputs_eq_sum_windows hG]
    have hrow : ∀ o ∈ Finset.range L.geom.n_output,
        ∑ m ∈ Finset.range L.geom.window_size,
          ((forward_propagation INFTY L input).2.edge_io.getD
            (L.geom.window_input o m) []).countP (fun e => e.active) = 1 := by
      intro o ho
      have ho2 := Finset.mem_range.mp ho
      have hcell : ∀ m ∈ Finset.range L.geom.window_size,
          ((forward_propagation INFTY L input).2.edge_io.getD
            (L.geom.window_input o m) []).countP (fun e => e.active)
          = if m = L.geom.winner INFTY input o (input.cols - 1) then 1 else 0 := by
        intro m hm
        rw [f1.2.2.2 o m ho2 (Finset.mem_range.mp hm)]
        by_cases e : m = L.geom.winner INFTY input o (input.cols - 1)
        · simp [Geom.io_edge, Geom.flags_after, hne, e]
        · simp [Geom.io_edge, Geom.flags_after, hne, e]
      rw [Finset.sum_congr rfl hcell, Finset.sum_ite_eq']
      simp [L.geom.winner_lt hG INFTY input o (input.cols - 1)]
    rw [Finset.sum_congr rfl hrow]
    simp

/-- Witness for C18: a 2x4 input with a 1x2 pool and two feature maps; after a forward
pass over two samples exactly 8 input-side edges are active. -/
theorem winner_flags_after_forward_witness :
    ∑ i ∈ Finset.range (forward_propagation 1 (MaxPoolingLayer.build ⟨2, 4⟩ ⟨1, 2⟩ 2)
        (Matrix.mk 16 2 (fun i d => i + d))).2.edge_io.length,
        ((forward_propagation 1 (MaxPoolingLayer.build ⟨2, 4⟩ ⟨1, 2⟩ 2)
          (Matrix.mk 16 2 (fun i d => i + d))).2.edge_io.getD i []).countP
            (fun e => e.active)
      = (forward_propagation 1 (MaxPoolingLayer.build ⟨2, 4⟩ ⟨1, 2⟩ 2)
          (Matrix.mk 16 2 (fun i d => i + d))).2.output_size_.total
        * (forward_propagation 1 (MaxPoolingLayer.build ⟨2, 4⟩ ⟨1, 2⟩ 2)
          (Matrix.mk 16 2 (fun i d => i + d))).2.n_featmap_
    ∧ (forward_propagation 1 (MaxPoolingLayer.build ⟨2, 4⟩ ⟨1, 2⟩ 2)
          (Matrix.mk 16 2 (fun i d => i + d))).2.output_size_.total
        * (forward_propagation 1 (MaxPoolingLayer.build ⟨2, 4⟩ ⟨1, 2⟩ 2)
          (Matrix.mk 16 2 (fun i d => i + d))).2.n_featmap_ = 8 :=
  ⟨(winner_flags_after_forward (MaxPoolingLayer.build ⟨2, 4⟩ ⟨1, 2⟩ 2)
      (Reachable.construct ⟨2, 4⟩ ⟨1, 2⟩ 2 _ (by decide) (by decide) rfl) 1
      (Matrix.mk 16 2 (fun i d => i + d)) (by decide)).2.2,
    by decide!⟩

/-- C11 (the code at the failing input). One 1x2 window, two samples: sample 0 holds 5 at
input 0 and 1 at input 1, sample 1 holds 1 at input 0 and 5 at input 1; the upstream
error is 7 for sample 0 and 11 for sample 1. The scale gradient that `back_propagation`
accumulates after `forward_propagation` is `(1 * 7 + 5 * 11) / 2 = 31`: both samples are
read at input 1, the winner of the last sample. The sum over the per-sample winners,
`(5 * 7 + 5 * 11) / 2`, is 45. -/
theorem scale_gradient_uses_last_sample_winner :
    (gradient_loop
        (forward_propagation (10 ^ 20) (MaxPoolingLayer.build ⟨1, 2⟩ ⟨1, 2⟩ 1)
          (Matrix.mk 2 2 (fun i d => if i = d then 5 else 1))).2
        (Matrix.mk 1 2 (fun _ d => if d = 0 then 7 else 11)) 2
        ((forward_propagation (10 ^ 20) (MaxPoolingLayer.build ⟨1, 2⟩ ⟨1, 2⟩ 1)
          (Matrix.mk 2 2 (fun i d => if i = d then 5 else 1))).2.input_size_.total
          * (forward_propagation (10 ^ 20) (MaxPoolingLayer.build ⟨1, 2⟩ ⟨1, 2⟩ 1)
          (Matrix.mk 2 2 (fun i d => if i = d then 5 else 1))).2.n_featmap_)).1.getD 0 0
      = 31
    ∧ (∑ d ∈ Finset.range 2, ∑ o ∈ Finset.range 1,
        (Matrix.mk 2 2 (fun i d => if i = d then 5 else 1)).coeff
          ((MaxPoolingLayer.build ⟨1, 2⟩ ⟨1, 2⟩ 1).geom.window_input o
            ((MaxPoolingLayer.build ⟨1, 2⟩ ⟨1, 2⟩ 1).geom.winner (10 ^ 20)
              (Matrix.mk 2 2 (fun i d => if i = d then 5 else 1)) o d)) d
          * (Matrix.mk 1 2 (fun _ d => if d = 0 then 7 else 11)).coeff o d)
        / ((2 * 1 : Nat) : ℚ) = 45
    ∧ (back_propagation
        (forward_propagation (10 ^ 20) (MaxPoolingLayer.build ⟨1, 2⟩ ⟨1, 2⟩ 1)
          (Matrix.mk 2 2 (fun i d => if i = d then 5 else 1))).2
        (Matrix.mk 1 2 (fun _ d => if d = 0 then 7 else 11)) (1 / 10) (1 / 2)).2.dscale
      = [31 / 10] := by
  decide!

/-- C12. Bias gradient: for every reachable layer, every batch of `n >= 1` samples and
every feature map `f`, the accumulator `current_dbias[f]` that `back_propagation`
computes after `forward_propagation` is the sum of the upstream error `error(o, d)` over
all samples `d` and all output nodes `o` of feature map `f`, divided by `n` times the
number `output_size.total()` of output cells of one feature map; and `back_propagation`
sets `dbias[f]` to `momentum * dbias[f] + eta *` that value. -/
theorem bias_gradient_is_mean_error (L : MaxPoolingLayer) (hL : Reachable L) (INFTY : ℚ)
    (input error : Matrix) (eta momentum : ℚ) (hn : 0 < input.cols)
    (hcols : error.cols = input.cols) (f : Nat) (hf : f < L.n_featmap_) :
    (gradient_loop (forward_propagation INFTY L input).2 error error.cols
        ((forward_propagation INFTY L input).2.input_size_.total
          * (forward_propagation INFTY L input).2.n_featmap_)).2.getD f 0
      = (∑ d ∈ Finset.range input.cols, ∑ c ∈ Finset.range L.output_size_.total,
          error.coeff (f * L.output_size_.total + c) d)
        / ((input.cols * L.output_size_.total : Nat) : ℚ)
    ∧ (back_propagation (forward_propagation INFTY L input).2 error eta momentum).2.dbias.getD
        f 0
      = momentum * (forward_propagation INFTY L input).2.dbias.getD f 0
        + eta * ((∑ d ∈ Finset.range input.cols, ∑ c ∈ Finset.range L.output_size_.total,
            error.coeff (f * L.output_size_.total + c) d)
          / ((input.cols * L.output_size_.total : Nat) : ℚ)) := by
  obtain ⟨φ, hφ⟩ := hL.inv
  have hg := (gradient_after_forward L hφ INFTY input error hn f hf).2
  rw [hcols] at hg
  refine ⟨by rw [← hg, hcols], ?_⟩
  obtain ⟨_, _, l1, l2, l3, l4⟩ := hφ.forward INFTY input
  have hnf : (forward_propagation INFTY L input).2.n_featmap_ = L.n_featmap_ :=
    congrArg Geom.n_featmap (forward_propagation_params L INFTY input).2
  obtain ⟨_, v2, _, _⟩ := update_params_values (forward_propagation INFTY L input).2 eta
    momentum (gradient_loop (forward_propagation INFTY L input).2 error error.cols
      ((forward_propagation INFTY L input).2.input_size_.total
        * (forward_propagation INFTY L input).2.n_featmap_)) l1 l2 l3 l4 f
    (by rw [hnf]; exact hf)
  rw [back_propagation_snd, v2, ← hg, hcols]

/-- Witness for C12: two feature maps on a 2x2 input with a 1x2 pool (two output cells
per feature map, four output nodes), two samples, upstream error `o + 10 * d`: the bias
gradient of feature map 1 is `(2 + 3 + 12 + 13) / (2 * 2) = 15 / 2`, not `30 / (2 * 4)`. -/
theorem bias_gradient_is_mean_error_witness :
    (gradient_loop
        (forward_propagation 1 (MaxPoolingLayer.build ⟨2, 2⟩ ⟨1, 2⟩ 2)
          (Matrix.mk 8 2 (fun i d => i + d))).2
        (Matrix.mk 4 2 (fun o d => o + 10 * d)) (Matrix.mk 4 2 (fun o d => o + 10 * d)).cols
        ((forward_propagation 1 (MaxPoolingLayer.build ⟨2, 2⟩ ⟨1, 2⟩ 2)
          (Matrix.mk 8 2 (fun i d => i + d))).2.input_size_.total
          * (forward_propagation 1 (MaxPoolingLayer.build ⟨2, 2⟩ ⟨1, 2⟩ 2)
          (Matrix.mk 8 2 (fun i d => i + d))).2.n_featmap_)).2.getD 1 0
      = (∑ d ∈ Finset.range (Matrix.mk 8 2 (fun i d => i + d)).cols,
          ∑ c ∈ Finset.range (MaxPoolingLayer.build ⟨2, 2⟩ ⟨1, 2⟩ 2).output_size_.total,
            (Matrix.mk 4 2 (fun o d => o + 10 * d)).coeff
              (1 * (MaxPoolingLayer.build ⟨2, 2⟩ ⟨1, 2⟩ 2).output_size_.total + c) d)
        / (((Matrix.mk 8 2 (fun i d => i + d)).cols
            * (MaxPoolingLayer.build ⟨2, 2⟩ ⟨1, 2⟩ 2).output_size_.total : Nat) : ℚ)
    ∧ (∑ d ∈ Finset.range (Matrix.mk 8 2 (fun i d => i + d)).cols,
          ∑ c ∈ Finset.range (MaxPoolingLayer.build ⟨2, 2⟩ ⟨1, 2⟩ 2).output_size_.total,
            (Matrix.mk 4 2 (fun o d => o + 10 * d)).coeff
              (1 * (MaxPoolingLayer.build ⟨2, 2⟩ ⟨1, 2⟩ 2).output_size_.total + c) d)
        / (((Matrix.mk 8 2 (fun i d => i + d)).cols
            * (MaxPoolingLayer.build ⟨2, 2⟩ ⟨1, 2⟩ 2).output_size_.total : Nat) : ℚ)
      = 15 / 2 :=
  ⟨(bias_gradient_is_mean_error (MaxPoolingLayer.build ⟨2, 2⟩ ⟨1, 2⟩ 2)
      (Reachable.construct ⟨2, 2⟩ ⟨1, 2⟩ 2 _ (by decide) (by decide) rfl) 1
      (Matrix.mk 8 2 (fun i d => i + d)) (Matrix.mk 4 2 (fun o d => o + 10 * d))
      (1 / 10) (1 / 2) (by decide) rfl 1 (by decide)).1,
    by decide!⟩

/-- C20. Error conservation, in exact arithmetic: for every reachable layer and every
batch with at least one sample, after `forward_propagation` followed by
`back_propagation` with upstream error `error`, for every sample `d` and every feature
map `f` the sum of `prev_error(i, d)` over the input nodes `i` of feature map `f` equals
`scale[f]`, as it is when `back_propagation` is called, times the sum of `error(o, d)`
over the output nodes `o` of feature map `f`; and every output node passes its error to
one cell `w` of its window: `prev_error` is `scale * error(o, d)` there and 0 at the
other cells of the window. -/
theorem error_conservation (L : MaxPoolingLayer) (hL : Reachable L) (INFTY : ℚ)
    (input error : Matrix) (eta momentum : ℚ) (hn : 0 < input.cols) (d : Nat)
    (hd : d < error.cols) (f : Nat) (hf : f < L.n_featmap_) :
    ∑ c ∈ Finset.range L.input_size_.total,
        (back_propagation (forward_propagation INFTY L input).2 error eta momentum).1.coeff
          (f * L.input_size_.total + c) d
      = (forward_propagation INFTY L input).2.scale.getD f 0
          * ∑ c ∈ Finset.range L.output_size_.total,
              error.coeff (f * L.output_size_.total + c) d
    ∧ ∀ o, o < L.output_size_.total * L.n_featmap_ →
        ∃ w, w < L.geom.window_size
          ∧ (back_propagation (forward_propagation INFTY L input).2 error eta
                momentum).1.coeff (L.geom.window_input o w) d
              = (forward_propagation INFTY L input).2.scale.getD (o / L.output_size_.total) 0
                * error.coeff o d
          ∧ ∀ m, m < L.geom.window_size → m ≠ w →
              (back_propagation (forward_propagation INFTY L input).2 error eta
                momentum).1.coeff (L.geom.window_input o m) d = 0 := by
  obtain ⟨φ, hφ⟩ := hL.inv
  have hG := hφ.1
  have hsc : (forward_propagation INFTY L input).2.scale = L.scale := by
    have hp := (forward_propagation_params L INFTY input).1
    simp only [MaxPoolingLayer.params, Prod.mk.injEq] at hp
    exact hp.1
  rw [hsc]
  constructor
  · have h1 := sum_block L.input_size_.total L.n_featmap_ f hf (fun i =>
      (back_propagation (forward_propagation INFTY L input).2 error eta momentum).1.coeff i d)
    rw [← h1]
    have h2 := L.geom.sum_inputs_eq_sum_windows hG (fun i =>
      if i / L.input_size_.total = f then
        (back_propagation (forward_propagation INFTY L input).2 error eta momentum).1.coeff i d
      else 0)
    have h2' : ∑ k ∈ Finset.range (L.input_size_.total * L.n_featmap_),
        (if k / L.input_size_.total = f then
          (back_propagation (forward_propagation INFTY L input).2 error eta
            momentum).1.coeff k d else 0)
        = ∑ o ∈ Finset.range L.geom.n_output, ∑ m ∈ Finset.range L.geom.window_size,
          (if L.geom.window_input o m / L.input_size_.total = f then
            (back_propagation (forward_propagation INFTY L input).2 error eta
              momentum).1.coeff (L.geom.window_input o m) d else 0) := h2
    rw [h2']
    have hrow : ∀ o ∈ Finset.range L.geom.n_output,
        ∑ m ∈ Finset.range L.geom.window_size,
          (if L.geom.window_input o m / L.input_size_.total = f then
            (back_propagation (forward_propagation INFTY L input).2 error eta
              momentum).1.coeff (L.geom.window_input o m) d else 0)
        = if o / L.output_size_.total = f then L.scale.getD f 0 * error.coeff o d else 0 := by
      intro o ho
      have ho2 := Finset.mem_range.mp ho
      have hcell : ∀ m ∈ Finset.range L.geom.window_size,
          (if L.geom.window_input o m / L.input_size_.total = f then
            (back_propagation (forward_propagation INFTY L input).2 error eta
              momentum).1.coeff (L.geom.window_input o m) d else 0)
          = if m = L.geom.winner INFTY input o (input.cols - 1) then
              (if o / L.output_size_.total = f then L.scale.getD f 0 * error.coeff o d
                else 0)
            else 0 := by
        intro m hm
        have hm2 := Finset.mem_range.mp hm
        have hdiv : L.geom.window_input o m / L.input_size_.total
            = o / L.output_size_.total := L.geom.window_input_div hG ho2 hm2
        rw [hdiv, backward_after_forward_cell L hφ INFTY input error eta momentum ho2 hm2 hd hn]
        by_cases e1 : o / L.output_size_.total = f
        · simp [e1]
        · simp [e1]
      rw [Finset.sum_congr rfl hcell, Finset.sum_ite_eq']
      simp [L.geom.winner_lt hG INFTY input o (input.cols - 1)]
    rw [Finset.sum_congr rfl hrow]
    have h3 := sum_block L.output_size_.total L.n_featmap_ f hf (fun o =>
      L.scale.getD f 0 * error.coeff o d)
    have h3' : ∑ o ∈ Finset.range L.geom.n_output,
        (if o / L.output_size_.total = f then L.scale.getD f 0 * error.coeff o d else 0)
        = ∑ c ∈ Finset.range L.output_size_.total,
          L.scale.getD f 0 * error.coeff (f * L.output_size_.total + c) d := h3
    rw [h3', Finset.mul_sum]
  · intro o ho
    have ho2 : o < L.geom.n_output := ho
    refine ⟨L.geom.winner INFTY input o (input.cols - 1), L.geom.winner_lt hG _ _ _ _, ?_, ?_⟩
    · rw [backward_after_forward_cell L hφ INFTY input error eta momentum ho2
        (L.geom.winner_lt hG _ _ _ _) hd hn]
      simp
    · intro m hm hne
      rw [backward_after_forward_cell L hφ INFTY input error eta momentum ho2 hm hd hn]
      simp [hne]

/-- Witness for C20: two feature maps on a 2x2 input with a 1x2 pool, two samples, scale
1: for sample 1 and feature map 1 the previous-layer errors of the inputs 4..7 sum to the
upstream errors of the outputs 2 and 3, `12 + 13 = 25`. -/
theorem error_conservation_witness :
    ∑ c ∈ Finset.range (MaxPoolingLayer.build ⟨2, 2⟩ ⟨1, 2⟩ 2).input_size_.total,
        (back_propagation
          (forward_propagation 1 (MaxPoolingLayer.build ⟨2, 2⟩ ⟨1, 2⟩ 2)
            (Matrix.mk 8 2 (fun i d => i + d))).2
          (Matrix.mk 4 2 (fun o d => o + 10 * d)) (1 / 10) (1 / 2)).1.coeff
          (1 * (MaxPoolingLayer.build ⟨2, 2⟩ ⟨1, 2⟩ 2).input_size_.total + c) 1
      = (forward_propagation 1 (MaxPoolingLayer.build ⟨2, 2⟩ ⟨1, 2⟩ 2)
            (Matrix.mk 8 2 (fun i d => i + d))).2.scale.getD 1 0
          * ∑ c ∈ Finset.range (MaxPoolingLayer.build ⟨2, 2⟩ ⟨1, 2⟩ 2).output_size_.total,
              (Matrix.mk 4 2 (fun o d => o + 10 * d)).coeff
                (1 * (MaxPoolingLayer.build ⟨2, 2⟩ ⟨1, 2⟩ 2).output_size_.total + c) 1
    ∧ (forward_propagation 1 (MaxPoolingLayer.build ⟨2, 2⟩ ⟨1, 2⟩ 2)
            (Matrix.mk 8 2 (fun i d => i + d))).2.scale.getD 1 0
          * ∑ c ∈ Finset.range (MaxPoolingLayer.build ⟨2, 2⟩ ⟨1, 2⟩ 2).output_size_.total,
              (Matrix.mk 4 2 (fun o d => o + 10 * d)).coeff
                (1 * (MaxPoolingLayer.build ⟨2, 2⟩ ⟨1, 2⟩ 2).output_size_.total + c) 1
      = 25 :=
  ⟨(error_conservation (MaxPoolingLayer.build ⟨2, 2⟩ ⟨1, 2⟩ 2)
      (Reachable.construct ⟨2, 2⟩ ⟨1, 2⟩ 2 _ (by decide) (by decide) rfl) 1
      (Matrix.mk 8 2 (fun i d => i + d)) (Matrix.mk 4 2 (fun o d => o + 10 * d))
      (1 / 10) (1 / 2) (by decide) 1 (by decide) 1 (by decide)).1,
    by decide!⟩

/-- C13 (as amended). `forward_propagation` has no check of the row count and no
`DimensionMismatch` failure: on every reachable layer and every activation matrix with
at least `input_size.total() * n_featmap` rows, also when it has more rows than that, it
returns a matrix with `output_size.total() * n_featmap` rows and one column per sample,
caches the given matrix as `input_` and the result as `output_`, and the result depends
only on the rows of the input nodes: rows beyond them are ignored. -/
theorem forward_accepts_any_row_count (L : MaxPoolingLayer) (hL : Reachable L) (INFTY : ℚ)
    (input : Matrix) (_hrows : L.input_size_.total * L.n_featmap_ ≤ input.rows) :
    (forward_propagation INFTY L input).1.rows = L.output_size_.total * L.n_featmap_
    ∧ (forward_propagation INFTY L input).1.cols = input.cols
    ∧ (forward_propagation INFTY L input).2.input_ = input
    ∧ (forward_propagation INFTY L input).2.output_ = (forward_propagation INFTY L input).1
    ∧ ∀ input2 : Matrix, input2.cols = input.cols →
        (∀ i d, i < L.input_size_.total * L.n_featmap_ → input2.coeff i d = input.coeff i d) →
        ∀ o d, (forward_propagation INFTY L input2).1.coeff o d
          = (forward_propagation INFTY L input).1.coeff o d := by
  obtain ⟨φ, hφ⟩ := hL.inv
  obtain ⟨_, f2, f3, _, _, f6⟩ := forward_propagation_spec L hφ.1 hφ.2.1 INFTY input
  refine ⟨?_, ?_, f6, f3.symm, ?_⟩
  · rw [f3, f2]; rfl
  · rw [f3, f2]
  · intro input2 hcols hagree o d
    exact forward_output_congr L hφ INFTY input input2 hcols hagree o d

/-- Witness for C13: a layer with two input nodes (one 1x2 window) is given a matrix with
three rows, 5, 7 and 9; the call returns a 1x1 matrix and caches the three-row matrix. -/
theorem forward_accepts_any_row_count_witness :
    (forward_propagation 1 (MaxPoolingLayer.build ⟨1, 2⟩ ⟨1, 2⟩ 1)
        (Matrix.mk 3 1 (fun i _ => 5 + 2 * i))).1.rows
      = (MaxPoolingLayer.build ⟨1, 2⟩ ⟨1, 2⟩ 1).output_size_.total
          * (MaxPoolingLayer.build ⟨1, 2⟩ ⟨1, 2⟩ 1).n_featmap_
    ∧ (forward_propagation 1 (MaxPoolingLayer.build ⟨1, 2⟩ ⟨1, 2⟩ 1)
        (Matrix.mk 3 1 (fun i _ => 5 + 2 * i))).1.cols = 1
    ∧ (forward_propagation 1 (MaxPoolingLayer.build ⟨1, 2⟩ ⟨1, 2⟩ 1)
        (Matrix.mk 3 1 (fun i _ => 5 + 2 * i))).2.input_
      = Matrix.mk 3 1 (fun i _ => 5 + 2 * i) :=
  ⟨(forward_accepts_any_row_count (MaxPoolingLayer.build ⟨1, 2⟩ ⟨1, 2⟩ 1)
      (Reachable.construct ⟨1, 2⟩ ⟨1, 2⟩ 1 _ (by decide) (by decide) rfl) 1
      (Matrix.mk 3 1 (fun i _ => 5 + 2 * i)) (by decide)).1,
    (forward_accepts_any_row_count (MaxPoolingLayer.build ⟨1, 2⟩ ⟨1, 2⟩ 1)
      (Reachable.construct ⟨1, 2⟩ ⟨1, 2⟩ 1 _ (by decide) (by decide) rfl) 1
      (Matrix.mk 3 1 (fun i _ => 5 + 2 * i)) (by decide)).2.1,
    (forward_accepts_any_row_count (MaxPoolingLayer.build ⟨1, 2⟩ ⟨1, 2⟩ 1)
      (Reachable.construct ⟨1, 2⟩ ⟨1, 2⟩ 1 _ (by decide) (by decide) rfl) 1
      (Matrix.mk 3 1 (fun i _ => 5 + 2 * i)) (by decide)).2.2.1⟩

/-- Counterexample to C13 as stated. A fresh layer with two input nodes (one 1x2 window)
is given an activation matrix with three rows, 5, 7 and 9. The call is not rejected: it
returns the 1x1 matrix holding 7, the maximum of the first two rows, and it has changed
the layer: the cached input has three rows (none before) and the winner flag of the
second edge is set. -/
theorem forward_wrong_row_count_counterexample :
    (Matrix.mk 3 1 (fun i _ => 5 + 2 * i)).rows
      ≠ (MaxPoolingLayer.build ⟨1, 2⟩ ⟨1, 2⟩ 1).input_size_.total
          * (MaxPoolingLayer.build ⟨1, 2⟩ ⟨1, 2⟩ 1).n_featmap_
    ∧ (forward_propagation (10 ^ 20) (MaxPoolingLayer.build ⟨1, 2⟩ ⟨1, 2⟩ 1)
        (Matrix.mk 3 1 (fun i _ => 5 + 2 * i))).1.rows = 1
    ∧ (forward_propagation (10 ^ 20) (MaxPoolingLayer.build ⟨1, 2⟩ ⟨1, 2⟩ 1)
        (Matrix.mk 3 1 (fun i _ => 5 + 2 * i))).1.cols = 1
    ∧ (forward_propagation (10 ^ 20) (MaxPoolingLayer.build ⟨1, 2⟩ ⟨1, 2⟩ 1)
        (Matrix.mk 3 1 (fun i _ => 5 + 2 * i))).1.coeff 0 0 = 7
    ∧ (MaxPoolingLayer.build ⟨1, 2⟩ ⟨1, 2⟩ 1).input_.rows = 0
    ∧ (forward_propagation (10 ^ 20) (MaxPoolingLayer.build ⟨1, 2⟩ ⟨1, 2⟩ 1)
        (Matrix.mk 3 1 (fun i _ => 5 + 2 * i))).2.input_.rows = 3
    ∧ (MaxPoolingLayer.build ⟨1, 2⟩ ⟨1, 2⟩ 1).edge_oi
      = [[⟨0, 0, 0, false⟩, ⟨1, 0, 0, false⟩]]
    ∧ (forward_propagation (10 ^ 20) (MaxPoolingLayer.build ⟨1, 2⟩ ⟨1, 2⟩ 1)
        (Matrix.mk 3 1 (fun i _ => 5 + 2 * i))).2.edge_oi
      = [[⟨0, 0, 0, false⟩, ⟨1, 0, 0, true⟩]] := by
  decide!

/-- C14 (as amended). `back_propagation` has no `NoForwardContext` check: on a layer on
which no `forward_propagation` has been performed yet (a successful construction followed
by any number of `back_propagation` calls) it returns the all-zero matrix with
`input_size.total() * n_featmap` rows and `error.cols()` columns, and it leaves `scale`,
`bias`, `dscale` and `dbias` unchanged. -/
theorem backward_before_forward_returns_zero (L : MaxPoolingLayer) (hL : NoForwardYet L)
    (error : Matrix) (eta momentum : ℚ) :
    (back_propagation L error eta momentum).1
        = Matrix.Zero (L.input_size_.total * L.n_featmap_) error.cols
    ∧ (back_propagation L error eta momentum).2.scale = L.scale
    ∧ (back_propagation L error eta momentum).2.bias = L.bias
    ∧ (back_propagation L error eta momentum).2.dscale = L.dscale
    ∧ (back_propagation L error eta momentum).2.dbias = L.dbias := by
  obtain ⟨hinv, hp⟩ := hL.fresh_inv
  obtain ⟨b1, b2⟩ := backward_without_flags L hinv hp error eta momentum
  simp only [MaxPoolingLayer.params, Prod.mk.injEq] at b2
  exact ⟨b1, b2.1, b2.2.1, b2.2.2.1, b2.2.2.2⟩

/-- Witness for C14: the second of two `back_propagation` calls on a fresh layer with a
4x4 input, a 2x2 pool and two feature maps. -/
theorem backward_before_forward_returns_zero_witness :
    (back_propagation
        (back_propagation (MaxPoolingLayer.build ⟨4, 4⟩ ⟨2, 2⟩ 2)
          (Matrix.mk 8 3 (fun o d => o + d)) (1 / 10) (1 / 2)).2
        (Matrix.mk 8 3 (fun o d => o * d)) (1 / 10) (1 / 2)).1
      = Matrix.Zero
          ((back_propagation (MaxPoolingLayer.build ⟨4, 4⟩ ⟨2, 2⟩ 2)
            (Matrix.mk 8 3 (fun o d => o + d)) (1 / 10) (1 / 2)).2.input_size_.total
            * (back_propagation (MaxPoolingLayer.build ⟨4, 4⟩ ⟨2, 2⟩ 2)
            (Matrix.mk 8 3 (fun o d => o + d)) (1 / 10) (1 / 2)).2.n_featmap_)
          (Matrix.mk 8 3 (fun o d => o * d)).cols
    ∧ (back_propagation
        (back_propagation (MaxPoolingLayer.build ⟨4, 4⟩ ⟨2, 2⟩ 2)
          (Matrix.mk 8 3 (fun o d => o + d)) (1 / 10) (1 / 2)).2
        (Matrix.mk 8 3 (fun o d => o * d)) (1 / 10) (1 / 2)).2.scale
      = (back_propagation (MaxPoolingLayer.build ⟨4, 4⟩ ⟨2, 2⟩ 2)
          (Matrix.mk 8 3 (fun o d => o + d)) (1 / 10) (1 / 2)).2.scale :=
  ⟨(backward_before_forward_returns_zero _
      (NoForwardYet.backward _ (Matrix.mk 8 3 (fun o d => o + d)) (1 / 10) (1 / 2)
        (NoForwardYet.construct ⟨4, 4⟩ ⟨2, 2⟩ 2 (MaxPoolingLayer.build ⟨4, 4⟩ ⟨2, 2⟩ 2)
          (by decide) (by decide) rfl))
      (Matrix.mk 8 3 (fun o d => o * d)) (1 / 10) (1 / 2)).1,
    (backward_before_forward_returns_zero _
      (NoForwardYet.backward _ (Matrix.mk 8 3 (fun o d => o + d)) (1 / 10) (1 / 2)
        (NoForwardYet.construct ⟨4, 4⟩ ⟨2, 2⟩ 2 (MaxPoolingLayer.build ⟨4, 4⟩ ⟨2, 2⟩ 2)
          (by decide) (by decide) rfl))
      (Matrix.mk 8 3 (fun o d => o * d)) (1 / 10) (1 / 2)).2.1⟩

/-- Counterexample to C14 as stated. `back_propagation` called directly after the
construction of a layer with one 1x2 window, with upstream error 7, is not rejected: it
returns a 2x1 matrix with both entries 0 (and leaves scale at 1 and the momenta at 0). -/
theorem backward_on_fresh_layer_counterexample :
    (back_propagation (MaxPoolingLayer.build ⟨1, 2⟩ ⟨1, 2⟩ 1)
        (Matrix.mk 1 1 (fun _ _ => 7)) (1 / 10) (1 / 2)).1.rows = 2
    ∧ (back_propagation (MaxPoolingLayer.build ⟨1, 2⟩ ⟨1, 2⟩ 1)
        (Matrix.mk 1 1 (fun _ _ => 7)) (1 / 10) (1 / 2)).1.cols = 1
    ∧ (back_propagation (MaxPoolingLayer.build ⟨1, 2⟩ ⟨1, 2⟩ 1)
        (Matrix.mk 1 1 (fun _ _ => 7)) (1 / 10) (1 / 2)).1.coeff 0 0 = 0
    ∧ (back_propagation (MaxPoolingLayer.build ⟨1, 2⟩ ⟨1, 2⟩ 1)
        (Matrix.mk 1 1 (fun _ _ => 7)) (1 / 10) (1 / 2)).1.coeff 1 0 = 0
    ∧ (back_propagation (MaxPoolingLayer.build ⟨1, 2⟩ ⟨1, 2⟩ 1)
        (Matrix.mk 1 1 (fun _ _ => 7)) (1 / 10) (1 / 2)).2.scale = [1]
    ∧ (back_propagation (MaxPoolingLayer.build ⟨1, 2⟩ ⟨1, 2⟩ 1)
        (Matrix.mk 1 1 (fun _ _ => 7)) (1 / 10) (1 / 2)).2.dscale = [0] := by
  decide!

end EduCNN
